import Mathlib

/-!
# ChessSFML rules engine: a shallow embedding

The definitions below translate `Piece.h`, `Pawn.cpp`, `King.cpp`, `Queen.cpp`
and `ChessBoard.cpp` (directory `ChessSFML/Chess/sem4`).

* C++ `int` is `Int`: the engine only adds small offsets to coordinates and
  compares them, so machine overflow plays no role.
* `std::unique_ptr<Piece> board[8][8]` is a function `Int → Int → Option Piece`
  of which only the indices `0..7` are storage; `none` is `nullptr`.
* A `sf::Vector2i` destination is a pair `(row, col)` (`x` is the row).
* A member function that mutates the board returns the new board.
-/

namespace ChessSFML

/-! ## Piece.h -/

/-- The enumeration `PieceType` of `Piece.h`. -/
inductive PieceType where
  | NONE | ROOK | KNIGHT | BISHOP | KING | QUEEN | PAWN
  deriving DecidableEq, Repr

/-- The enumeration `PieceColor` of `Piece.h`. -/
inductive PieceColor where
  | NONE | WHITE | BLACK
  deriving DecidableEq, Repr

/-- The data members of class `Piece`. The dynamic class of a piece object is
fixed by its `type` (each subclass constructor sets it), so virtual dispatch is
a match on `type`. -/
structure Piece where
  type : PieceType
  color : PieceColor
  hasMoved : Bool
  deriving DecidableEq, Repr

/-- The member `Piece::isWhite`. -/
def Piece.isWhite (p : Piece) : Bool := p.color == PieceColor.WHITE

/-- The member `Piece::isBlack`. -/
def Piece.isBlack (p : Piece) : Bool := p.color == PieceColor.BLACK

/-- The member `Piece::isEmpty`. -/
def Piece.isEmpty (p : Piece) : Bool := p.type == PieceType.NONE

/-- The member `Piece::setHasMoved`. -/
def Piece.setHasMoved (p : Piece) (moved : Bool) : Piece := { p with hasMoved := moved }

/-- The object `EmptyPiece()`: type NONE, colour NONE, not moved. -/
def emptyPiece : Piece := ⟨PieceType.NONE, PieceColor.NONE, false⟩

/-- A freshly constructed piece, as `std::make_unique<T>(color)` yields. -/
def newPiece (t : PieceType) (color : PieceColor) : Piece := ⟨t, color, false⟩

/-! ## ChessBoard.h -/

/-- The data members of class `ChessBoard`. -/
structure ChessBoard where
  board : Int → Int → Option Piece
  whiteKingMoved : Bool
  blackKingMoved : Bool
  whiteRook1Moved : Bool
  whiteRook2Moved : Bool
  blackRook1Moved : Bool
  blackRook2Moved : Bool
  enPassantCol : Int
  enPassantRow : Int

/-- The member `ChessBoard::isValidPosition`. -/
def isValidPosition (row col : Int) : Bool :=
  decide (row ≥ 0) && decide (row < 8) && decide (col ≥ 0) && decide (col < 8)

/-- The const overload of `ChessBoard::getPieceAt`: the occupant, or the static
`EmptyPiece` for an empty or out-of-range square. -/
def getPieceAt (b : ChessBoard) (row col : Int) : Piece :=
  if isValidPosition row col then
    match b.board row col with
    | some p => p
    | none => emptyPiece
  else emptyPiece

/-- The non-const overload of `ChessBoard::getPieceAt`: the occupant, or
`nullptr` (`none`) for an empty or out-of-range square. -/
def getPieceAtPtr (b : ChessBoard) (row col : Int) : Option Piece :=
  if isValidPosition row col then b.board row col else none

/-- The assignment `board[row][col] = v` on the raw array. -/
def storeAt (b : ChessBoard) (row col : Int) (v : Option Piece) : ChessBoard :=
  { b with board := fun r c => if r = row ∧ c = col then v else b.board r c }

/-- The member `ChessBoard::setPieceAt`. -/
def setPieceAt (b : ChessBoard) (row col : Int) (piece : Option Piece) : ChessBoard :=
  if isValidPosition row col then storeAt b row col piece else b

/-- The loop range `0, 1, ..., 7` of the `for` loops over rows and columns. -/
def idx8 : List Int := [0, 1, 2, 3, 4, 5, 6, 7]

/-- The squares in the order the nested loops `for row ... for col ...` visit them. -/
def allSquares : List (Int × Int) :=
  idx8.flatMap (fun r => idx8.map (fun c => (r, c)))

/-- The ternary `isWhiteTurn ? PieceColor::WHITE : PieceColor::BLACK`. -/
def sideColor (isWhiteTurn : Bool) : PieceColor :=
  if isWhiteTurn then PieceColor.WHITE else PieceColor.BLACK

/-! ## Move generators -/

/-- The member `Pawn::getPossibleMoves` of `Pawn.cpp`. -/
def Pawn.getPossibleMoves (p : Piece) (row col : Int) (b : ChessBoard) : List (Int × Int) :=
  let direction : Int := if p.isWhite then -1 else 1
  let forward : List (Int × Int) :=
    if (getPieceAt b (row + direction) col).isEmpty then
      (row + direction, col) ::
        (if (p.isWhite && row == 6) || (p.isBlack && row == 1) then
          (if (getPieceAt b (row + 2 * direction) col).isEmpty then
            [(row + 2 * direction, col)] else [])
        else [])
    else []
  let captures : List (Int × Int) :=
    (([-1, 1] : List Int).filter (fun offset =>
      let newCol := col + offset
      decide (newCol ≥ 0) && decide (newCol < 8) &&
        (let target := getPieceAt b (row + direction) newCol
         !target.isEmpty && target.color != p.color))).map
      (fun offset => (row + direction, col + offset))
  let enPassant : List (Int × Int) :=
    if b.enPassantCol != -1 then
      if (p.isWhite && row == 3) || (p.isBlack && row == 4) then
        if (col - b.enPassantCol).natAbs == 1 then
          [(row + direction, b.enPassantCol)]
        else []
      else []
    else []
  forward ++ captures ++ enPassant

/-- The `while (true)` loop of `Queen::getPossibleMoves` for one direction
`(dr, dc)`, started at `(r, c)`. Each iteration steps once and stops at the
board edge, so at most eight squares are ever pushed and the fuel `8` given by
the callers is never the reason the loop ends. -/
def slide (b : ChessBoard) (color : PieceColor) (dr dc : Int) :
    Nat → Int → Int → List (Int × Int)
  | 0, _, _ => []
  | fuel + 1, r, c =>
    let r1 := r + dr
    let c1 := c + dc
    if decide (r1 < 0) || decide (r1 ≥ 8) || decide (c1 < 0) || decide (c1 ≥ 8) then []
    else
      let target := getPieceAt b r1 c1
      if target.isEmpty then (r1, c1) :: slide b color dr dc fuel r1 c1
      else if target.color != color then [(r1, c1)]
      else []

/-- The table `directions` of `Queen::getPossibleMoves`. -/
def queenDirections : List (Int × Int) :=
  [(-1, 0), (0, 1), (1, 0), (0, -1), (-1, -1), (-1, 1), (1, -1), (1, 1)]

/-- The member `Queen::getPossibleMoves` of `Queen.cpp`. -/
def Queen.getPossibleMoves (p : Piece) (row col : Int) (b : ChessBoard) : List (Int × Int) :=
  queenDirections.flatMap (fun dir => slide b p.color dir.1 dir.2 8 row col)

/-- Modelled from the spec: `Rook::getPossibleMoves` (`Rook.cpp` is not among the
sources; `Rook.h` declares it). The spec, section 4.1: ray-cast along the rook's
direction set (ranks and files) until board edge, own piece (stop, exclude), or
opposing piece (stop, include). -/
def Rook.getPossibleMoves (p : Piece) (row col : Int) (b : ChessBoard) : List (Int × Int) :=
  ([(-1, 0), (0, 1), (1, 0), (0, -1)] : List (Int × Int)).flatMap
    (fun dir => slide b p.color dir.1 dir.2 8 row col)

/-- Modelled from the spec: `Bishop::getPossibleMoves` (`Bishop.cpp` is not among
the sources; `Bishop.h` declares it). The spec, section 4.1: ray-cast along the
bishop's direction set (diagonals) until board edge, own piece (stop, exclude),
or opposing piece (stop, include). -/
def Bishop.getPossibleMoves (p : Piece) (row col : Int) (b : ChessBoard) : List (Int × Int) :=
  ([(-1, -1), (-1, 1), (1, -1), (1, 1)] : List (Int × Int)).flatMap
    (fun dir => slide b p.color dir.1 dir.2 8 row col)

/-- Modelled from the spec: `Knight::getPossibleMoves` (`Knight.cpp` is not among
the sources; `Knight.h` declares it). The spec, section 4.1: the 8 fixed
(±1,±2)/(±2,±1) offsets, filtered to in-bounds squares not occupied by
same-color pieces. -/
def Knight.getPossibleMoves (p : Piece) (row col : Int) (b : ChessBoard) : List (Int × Int) :=
  ((([(-2, -1), (-2, 1), (-1, -2), (-1, 2), (1, -2), (1, 2), (2, -1), (2, 1)] :
      List (Int × Int)).map (fun off => (row + off.1, col + off.2))).filter
    (fun dest =>
      isValidPosition dest.1 dest.2 &&
        (let target := getPieceAt b dest.1 dest.2
         target.isEmpty || target.color != p.color)))

/-- The eight offsets `(r, c)` of the nested loops of `King::getPossibleMoves`,
`r` outer and `c` inner, without `(0, 0)`. -/
def kingOffsets : List (Int × Int) :=
  [(-1, -1), (-1, 0), (-1, 1), (0, -1), (0, 1), (1, -1), (1, 0), (1, 1)]

/-- The member `King::getPossibleMoves` of `King.cpp`. -/
def King.getPossibleMoves (p : Piece) (row col : Int) (b : ChessBoard) : List (Int × Int) :=
  let steps : List (Int × Int) :=
    (kingOffsets.map (fun off => (row + off.1, col + off.2))).filter (fun dest =>
      decide (dest.1 ≥ 0) && decide (dest.1 < 8) && decide (dest.2 ≥ 0) && decide (dest.2 < 8) &&
        (let target := getPieceAt b dest.1 dest.2
         target.isEmpty || target.color != p.color))
  let castling : List (Int × Int) :=
    if !p.hasMoved then
      let isWhite := p.color == PieceColor.WHITE
      let kingRow : Int := if isWhite then 7 else 0
      if row == kingRow && col == 4 then
        let shortCastlePossible :=
          ([5, 6] : List Int).all (fun c => (getPieceAt b kingRow c).isEmpty)
        let rookShort := getPieceAt b kingRow 7
        let short : List (Int × Int) :=
          if shortCastlePossible && rookShort.type == PieceType.ROOK &&
              rookShort.color == p.color && !rookShort.hasMoved then [(kingRow, 6)] else []
        let longCastlePossible :=
          ([1, 2, 3] : List Int).all (fun c => (getPieceAt b kingRow c).isEmpty)
        let rookLong := getPieceAt b kingRow 0
        let long : List (Int × Int) :=
          if longCastlePossible && rookLong.type == PieceType.ROOK &&
              rookLong.color == p.color && !rookLong.hasMoved then [(kingRow, 2)] else []
        short ++ long
      else []
    else []
  steps ++ castling

/-- The virtual call `piece->getPossibleMoves(row, col, board)`. -/
def Piece.getPossibleMoves (p : Piece) (row col : Int) (b : ChessBoard) : List (Int × Int) :=
  match p.type with
  | PieceType.NONE => []
  | PieceType.PAWN => Pawn.getPossibleMoves p row col b
  | PieceType.ROOK => Rook.getPossibleMoves p row col b
  | PieceType.KNIGHT => Knight.getPossibleMoves p row col b
  | PieceType.BISHOP => Bishop.getPossibleMoves p row col b
  | PieceType.QUEEN => Queen.getPossibleMoves p row col b
  | PieceType.KING => King.getPossibleMoves p row col b

/-- The member `ChessBoard::getPossibleMoves`. -/
def getPossibleMoves (b : ChessBoard) (row col : Int) : List (Int × Int) :=
  let piece := getPieceAt b row col
  if !piece.isEmpty then piece.getPossibleMoves row col b else []

/-! ## ChessBoard.cpp -/

/-- The member `ChessBoard::resetBoard`; it overwrites every field, so the
result does not depend on the board it is called on. -/
def resetBoard : ChessBoard where
  board := fun row col =>
    if row = 0 then
      (if col = 0 then some (newPiece PieceType.ROOK PieceColor.BLACK)
       else if col = 1 then some (newPiece PieceType.KNIGHT PieceColor.BLACK)
       else if col = 2 then some (newPiece PieceType.BISHOP PieceColor.BLACK)
       else if col = 3 then some (newPiece PieceType.QUEEN PieceColor.BLACK)
       else if col = 4 then some (newPiece PieceType.KING PieceColor.BLACK)
       else if col = 5 then some (newPiece PieceType.BISHOP PieceColor.BLACK)
       else if col = 6 then some (newPiece PieceType.KNIGHT PieceColor.BLACK)
       else if col = 7 then some (newPiece PieceType.ROOK PieceColor.BLACK)
       else none)
    else if row = 1 then
      (if 0 ≤ col ∧ col < 8 then some (newPiece PieceType.PAWN PieceColor.BLACK) else none)
    else if row = 6 then
      (if 0 ≤ col ∧ col < 8 then some (newPiece PieceType.PAWN PieceColor.WHITE) else none)
    else if row = 7 then
      (if col = 0 then some (newPiece PieceType.ROOK PieceColor.WHITE)
       else if col = 1 then some (newPiece PieceType.KNIGHT PieceColor.WHITE)
       else if col = 2 then some (newPiece PieceType.BISHOP PieceColor.WHITE)
       else if col = 3 then some (newPiece PieceType.QUEEN PieceColor.WHITE)
       else if col = 4 then some (newPiece PieceType.KING PieceColor.WHITE)
       else if col = 5 then some (newPiece PieceType.BISHOP PieceColor.WHITE)
       else if col = 6 then some (newPiece PieceType.KNIGHT PieceColor.WHITE)
       else if col = 7 then some (newPiece PieceType.ROOK PieceColor.WHITE)
       else none)
    else none
  whiteKingMoved := false
  blackKingMoved := false
  whiteRook1Moved := false
  whiteRook2Moved := false
  blackRook1Moved := false
  blackRook2Moved := false
  enPassantCol := -1
  enPassantRow := -1

/-- The first loop nest of `ChessBoard::isKingInCheck`: the first square, in
row-major order, that holds a king of `kingColor`; `(-1, -1)` when there is none
(the initial value of `kingRow`, `kingCol`). -/
def findKing (b : ChessBoard) (kingColor : PieceColor) : Int × Int :=
  match allSquares.find? (fun s =>
      (getPieceAt b s.1 s.2).type == PieceType.KING &&
        (getPieceAt b s.1 s.2).color == kingColor) with
  | some s => s
  | none => (-1, -1)

/-- The member `ChessBoard::isKingInCheck`. -/
def isKingInCheck (b : ChessBoard) (kingColor : PieceColor) : Bool :=
  let king := findKing b kingColor
  if king.1 == -1 then false
  else
    allSquares.any (fun s =>
      let piece := getPieceAt b s.1 s.2
      !piece.isEmpty && piece.color != kingColor &&
        (piece.getPossibleMoves s.1 s.2 b).any (fun move => move.1 == king.1 && move.2 == king.2))

/-- The local `tempBoard` that `ChessBoard::wouldMoveExposeKing` builds: every
piece of `b` re-created with its colour and `hasMoved`, except the mover's
square and (for an en-passant capture) the captured pawn's square; then the
mover re-created on `(toRow, toCol)` with `hasMoved = true`; the en-passant
fields copied; the six flags as the constructor leaves them. The store
`tempBoard.board[toRow][toCol]` needs `(toRow, toCol)` in range. -/
def hypotheticalBoard (b : ChessBoard) (fromRow fromCol toRow toCol : Int)
    (isWhiteTurn : Bool) : ChessBoard :=
  let movingPiece := getPieceAt b fromRow fromCol
  let isPawnMove := movingPiece.type == PieceType.PAWN
  let isEnPassantCapture := isPawnMove && toCol == b.enPassantCol &&
    ((isWhiteTurn && fromRow == 3 && toRow == 2) ||
      (!isWhiteTurn && fromRow == 4 && toRow == 5))
  let copied : Int → Int → Option Piece := fun r c =>
    if isValidPosition r c then
      if r == fromRow && c == fromCol then none
      else if isEnPassantCapture &&
          ((isWhiteTurn && r == 3 && c == b.enPassantCol) ||
            (!isWhiteTurn && r == 4 && c == b.enPassantCol)) then none
      else
        let piece := getPieceAt b r c
        if !piece.isEmpty then some ((newPiece piece.type piece.color).setHasMoved piece.hasMoved)
        else none
    else none
  let tempBoard : ChessBoard :=
    { board := copied
      whiteKingMoved := false, blackKingMoved := false
      whiteRook1Moved := false, whiteRook2Moved := false
      blackRook1Moved := false, blackRook2Moved := false
      enPassantCol := b.enPassantCol, enPassantRow := b.enPassantRow }
  if !movingPiece.isEmpty then
    storeAt tempBoard toRow toCol
      (some ((newPiece movingPiece.type movingPiece.color).setHasMoved true))
  else tempBoard

/-- The member `ChessBoard::wouldMoveExposeKing`. -/
def wouldMoveExposeKing (b : ChessBoard) (fromRow fromCol toRow toCol : Int)
    (isWhiteTurn : Bool) : Bool :=
  isKingInCheck (hypotheticalBoard b fromRow fromCol toRow toCol isWhiteTurn)
    (sideColor isWhiteTurn)

/-- Lines 142-151 of `ChessBoard::makeMove`: the rook of the castling side
leaves its corner for the square next to the king and is marked as moved. -/
def relocateRook (b : ChessBoard) (fromRow : Int) (isKingsideCastling : Bool) : ChessBoard :=
  let rookFromCol : Int := if isKingsideCastling then 7 else 0
  let rookToCol : Int := if isKingsideCastling then 5 else 3
  let rook := b.board fromRow rookFromCol
  let b1 := storeAt b fromRow rookFromCol none
  let b2 := storeAt b1 fromRow rookToCol rook
  match b2.board fromRow rookToCol with
  | some r => storeAt b2 fromRow rookToCol (some (r.setHasMoved true))
  | none => b2

/-- Lines 157-166 of `ChessBoard::makeMove`: when the test for an en-passant
capture succeeds, `board[capturedRow][enPassantCol]` is cleared. `piece` is the
object `from` held when the call began. -/
def removeEnPassantPawn (b : ChessBoard) (piece : Piece) (fromRow toRow toCol : Int) :
    ChessBoard :=
  let isWhiteTurn := piece.isWhite
  if piece.type == PieceType.PAWN && toCol == b.enPassantCol &&
      ((isWhiteTurn && fromRow == 3 && toRow == 2) ||
        (!isWhiteTurn && fromRow == 4 && toRow == 5)) then
    let capturedRow : Int := if isWhiteTurn then 3 else 4
    storeAt b capturedRow b.enPassantCol none
  else b

/-- Lines 168-174 of `ChessBoard::makeMove`: the content of `from` is moved to
`to`, and what then stands on `to` is marked as moved. -/
def relocatePiece (b : ChessBoard) (fromRow fromCol toRow toCol : Int) : ChessBoard :=
  let movingPiece := b.board fromRow fromCol
  let b1 := storeAt b fromRow fromCol none
  let b2 := storeAt b1 toRow toCol movingPiece
  match b2.board toRow toCol with
  | some q => storeAt b2 toRow toCol (some (q.setHasMoved true))
  | none => b2

/-- Lines 176-193 of `ChessBoard::makeMove`: the permanent king and rook flags. -/
def updateMovedFlags (b : ChessBoard) (fromCol toRow toCol : Int) : ChessBoard :=
  match b.board toRow toCol with
  | some q =>
    if q.type == PieceType.KING then
      (if q.isWhite then { b with whiteKingMoved := true }
       else { b with blackKingMoved := true })
    else if q.type == PieceType.ROOK then
      (if q.isWhite then
        let b1 := if fromCol == 0 then { b with whiteRook1Moved := true } else b
        if fromCol == 7 then { b1 with whiteRook2Moved := true } else b1
       else
        let b1 := if fromCol == 0 then { b with blackRook1Moved := true } else b
        if fromCol == 7 then { b1 with blackRook2Moved := true } else b1)
    else b
  | none => b

/-- Lines 195-202 of `ChessBoard::makeMove`: the en-passant fields. -/
def updateEnPassant (b : ChessBoard) (fromRow toRow toCol : Int) : ChessBoard :=
  match b.board toRow toCol with
  | some q =>
    if q.type == PieceType.PAWN && (fromRow - toRow).natAbs == 2 then
      { b with enPassantCol := toCol, enPassantRow := (fromRow + toRow).tdiv 2 }
    else { b with enPassantCol := -1, enPassantRow := -1 }
  | none => { b with enPassantCol := -1, enPassantRow := -1 }

/-- Lines 157-202 of `ChessBoard::makeMove`, run once the move is accepted. -/
def completeMove (b : ChessBoard) (piece : Piece) (fromRow fromCol toRow toCol : Int) :
    ChessBoard :=
  let b1 := removeEnPassantPawn b piece fromRow toRow toCol
  let b2 := relocatePiece b1 fromRow fromCol toRow toCol
  let b3 := updateMovedFlags b2 fromCol toRow toCol
  updateEnPassant b3 fromRow toRow toCol

/-- The member `ChessBoard::makeMove`: the returned flag and the board the call
leaves behind. -/
def makeMove (b : ChessBoard) (fromRow fromCol toRow toCol : Int) : Bool × ChessBoard :=
  if !isValidPosition fromRow fromCol || !isValidPosition toRow toCol then (false, b)
  else
    match getPieceAtPtr b fromRow fromCol with
    | none => (false, b)
    | some piece =>
      if piece.isEmpty then (false, b)
      else
        let isWhiteTurn := piece.isWhite
        let possibleMoves := getPossibleMoves b fromRow fromCol
        let moveFound := possibleMoves.any (fun move => move.1 == toRow && move.2 == toCol)
        if !moveFound then (false, b)
        else if piece.type == PieceType.KING && (fromCol - toCol).natAbs == 2 then
          if isKingInCheck b (sideColor isWhiteTurn) then (false, b)
          else
            let isKingsideCastling := decide (toCol > fromCol)
            let middleCol : Int := if isKingsideCastling then 5 else 3
            if wouldMoveExposeKing b fromRow fromCol fromRow middleCol isWhiteTurn then (false, b)
            else if wouldMoveExposeKing b fromRow fromCol toRow toCol isWhiteTurn then (false, b)
            else
              (true, completeMove (relocateRook b fromRow isKingsideCastling) piece
                fromRow fromCol toRow toCol)
        else if wouldMoveExposeKing b fromRow fromCol toRow toCol isWhiteTurn then (false, b)
        else (true, completeMove b piece fromRow fromCol toRow toCol)

/-- The candidate moves `ChessBoard::isCheckmate` tries, in the order of its
loops: for every square in row-major order that holds a piece of `kingColor`,
every destination of `getPossibleMoves`, in list order. -/
def ownCandidates (b : ChessBoard) (kingColor : PieceColor) :
    List ((Int × Int) × (Int × Int)) :=
  allSquares.flatMap (fun s =>
    let piece := getPieceAt b s.1 s.2
    if !piece.isEmpty && piece.color == kingColor then
      (getPossibleMoves b s.1 s.2).map (fun move => (s, move))
    else [])

/-- The search of `ChessBoard::isCheckmate` (lines 362-377) over the candidates
still to try: `some false` at the first candidate that does not expose the
king, `some true` when none is left. A candidate whose destination is out of
range makes `wouldMoveExposeKing` store outside `tempBoard.board`, which is
undefined behaviour in the source: the search then has no result (`none`). -/
def searchEscape (b : ChessBoard) (isWhiteTurn : Bool) :
    List ((Int × Int) × (Int × Int)) → Option Bool
  | [] => some true
  | (s, move) :: rest =>
    if !isValidPosition move.1 move.2 then none
    else if !wouldMoveExposeKing b s.1 s.2 move.1 move.2 isWhiteTurn then some false
    else searchEscape b isWhiteTurn rest

/-- The member `ChessBoard::isCheckmate`; `none` when the call runs into the
out-of-range store described at `searchEscape`. -/
def isCheckmate (b : ChessBoard) (isWhiteTurn : Bool) : Option Bool :=
  let kingColor := sideColor isWhiteTurn
  if !isKingInCheck b kingColor then some false
  else searchEscape b isWhiteTurn (ownCandidates b kingColor)

/-- The member `ChessBoard::isStalemate`: the search of `isCheckmate`, entered
when the king is not in check; `none` as for `isCheckmate`. -/
def isStalemate (b : ChessBoard) (isWhiteTurn : Bool) : Option Bool :=
  let kingColor := sideColor isWhiteTurn
  if isKingInCheck b kingColor then some false
  else searchEscape b isWhiteTurn (ownCandidates b kingColor)

/-- The first loop nest of `ChessBoard::isInCheck`: the first square, in
row-major order, that holds a king of the player; `(-1, -1)` when there is none
(the initial value of `kingPos`). -/
def findPlayerKing (b : ChessBoard) (isWhitePlayer : Bool) : Int × Int :=
  match allSquares.find? (fun s =>
      (getPieceAt b s.1 s.2).type == PieceType.KING &&
        ((isWhitePlayer && (getPieceAt b s.1 s.2).isWhite) ||
          (!isWhitePlayer && (getPieceAt b s.1 s.2).isBlack))) with
  | some s => s
  | none => (-1, -1)

/-- The member `ChessBoard::isInCheck`. Unlike `isKingInCheck` it does not
return early when no king is found: the destinations are then compared with
`(-1, -1)`. -/
def isInCheck (b : ChessBoard) (isWhitePlayer : Bool) : Bool :=
  let kingPos := findPlayerKing b isWhitePlayer
  allSquares.any (fun s =>
    let piece := getPieceAt b s.1 s.2
    !piece.isEmpty &&
      ((isWhitePlayer && piece.isBlack) || (!isWhitePlayer && piece.isWhite)) &&
      (getPossibleMoves b s.1 s.2).any (fun move => move.1 == kingPos.1 && move.2 == kingPos.2))

/-- The member `ChessBoard::promotePawn`. -/
def promotePawn (b : ChessBoard) (row col : Int) (newType : PieceType) : ChessBoard :=
  if !isValidPosition row col then b
  else
    match getPieceAtPtr b row col with
    | none => b
    | some piece =>
      if piece.type != PieceType.PAWN then b
      else
        let color := piece.color
        let promoted : Piece :=
          match newType with
          | PieceType.QUEEN => newPiece PieceType.QUEEN color
          | PieceType.ROOK => newPiece PieceType.ROOK color
          | PieceType.BISHOP => newPiece PieceType.BISHOP color
          | PieceType.KNIGHT => newPiece PieceType.KNIGHT color
          | _ => newPiece PieceType.QUEEN color
        setPieceAt b row col (some promoted)

/-- The member `ChessBoard::resetBoard`, statement by statement, run on the
board `b`: the clearing loops, the stores of the two back ranks and of the two
pawn rows, and the assignments of the flags and en-passant fields. -/
def resetBoardFrom (b : ChessBoard) : ChessBoard :=
  let b0 := allSquares.foldl (fun acc s => storeAt acc s.1 s.2 none) b
  let b1 := storeAt b0 0 0 (some (newPiece PieceType.ROOK PieceColor.BLACK))
  let b2 := storeAt b1 0 1 (some (newPiece PieceType.KNIGHT PieceColor.BLACK))
  let b3 := storeAt b2 0 2 (some (newPiece PieceType.BISHOP PieceColor.BLACK))
  let b4 := storeAt b3 0 3 (some (newPiece PieceType.QUEEN PieceColor.BLACK))
  let b5 := storeAt b4 0 4 (some (newPiece PieceType.KING PieceColor.BLACK))
  let b6 := storeAt b5 0 5 (some (newPiece PieceType.BISHOP PieceColor.BLACK))
  let b7 := storeAt b6 0 6 (some (newPiece PieceType.KNIGHT PieceColor.BLACK))
  let b8 := storeAt b7 0 7 (some (newPiece PieceType.ROOK PieceColor.BLACK))
  let b9 := idx8.foldl
    (fun acc col => storeAt acc 1 col (some (newPiece PieceType.PAWN PieceColor.BLACK))) b8
  let b10 := idx8.foldl
    (fun acc col => storeAt acc 6 col (some (newPiece PieceType.PAWN PieceColor.WHITE))) b9
  let b11 := storeAt b10 7 0 (some (newPiece PieceType.ROOK PieceColor.WHITE))
  let b12 := storeAt b11 7 1 (some (newPiece PieceType.KNIGHT PieceColor.WHITE))
  let b13 := storeAt b12 7 2 (some (newPiece PieceType.BISHOP PieceColor.WHITE))
  let b14 := storeAt b13 7 3 (some (newPiece PieceType.QUEEN PieceColor.WHITE))
  let b15 := storeAt b14 7 4 (some (newPiece PieceType.KING PieceColor.WHITE))
  let b16 := storeAt b15 7 5 (some (newPiece PieceType.BISHOP PieceColor.WHITE))
  let b17 := storeAt b16 7 6 (some (newPiece PieceType.KNIGHT PieceColor.WHITE))
  let b18 := storeAt b17 7 7 (some (newPiece PieceType.ROOK PieceColor.WHITE))
  { b18 with
    whiteKingMoved := false, blackKingMoved := false
    whiteRook1Moved := false, whiteRook2Moved := false
    blackRook1Moved := false, blackRook2Moved := false
    enPassantCol := -1, enPassantRow := -1 }

/-- The member `ChessBoard::removePieceAt`: the removed content and the board
the call leaves behind. -/
def removePieceAt (b : ChessBoard) (row col : Int) : Option Piece × ChessBoard :=
  if decide (row < 0) || decide (row ≥ 8) || decide (col < 0) || decide (col ≥ 8) then (none, b)
  else (b.board row col, storeAt b row col none)

/-! ## MoveHistoryPanel.h -/

/-- The data members of struct `ChessMove`. The member the source calls
`notation` is `note` here (the name of the constructor parameter that
initialises it), a string as the list of its characters. -/
structure ChessMove where
  note : List Char
  isWhiteMove : Bool
  isCheck : Bool
  isCheckmate : Bool
  capturedPieceType : PieceType
  capturedPieceColor : PieceColor
  wasPieceCaptured : Bool
  wasPromotion : Bool
  sourceRow : Int
  sourceCol : Int
  destRow : Int
  destCol : Int
  wasEnPassant : Bool
  enPassantCapturedRow : Int
  enPassantCapturedCol : Int
  wasCastling : Bool
  wasKingsideCastling : Bool
  rookFromCol : Int
  rookToCol : Int
  deriving DecidableEq, Repr

/-- The constructor `ChessMove::ChessMove`. -/
def ChessMove.new (note : List Char) (white check mate : Bool) (capturedType : PieceType)
    (capturedColor : PieceColor) (promotion : Bool) : ChessMove :=
  { note := note, isWhiteMove := white, isCheck := check, isCheckmate := mate
    capturedPieceType := capturedType, capturedPieceColor := capturedColor
    wasPieceCaptured := capturedType != PieceType.NONE, wasPromotion := promotion
    sourceRow := -1, sourceCol := -1, destRow := -1, destCol := -1
    wasEnPassant := false, enPassantCapturedRow := -1, enPassantCapturedCol := -1
    wasCastling := false, wasKingsideCastling := false, rookFromCol := -1, rookToCol := -1 }

/-- The member `ChessMove::setSourceCoords`. -/
def ChessMove.setSourceCoords (m : ChessMove) (row col : Int) : ChessMove :=
  { m with sourceRow := row, sourceCol := col }

/-- The member `ChessMove::setDestCoords`. -/
def ChessMove.setDestCoords (m : ChessMove) (row col : Int) : ChessMove :=
  { m with destRow := row, destCol := col }

/-- The member `ChessMove::setEnPassantCapture`. -/
def ChessMove.setEnPassantCapture (m : ChessMove) (wasEnPassant : Bool) (row col : Int) :
    ChessMove :=
  { m with wasEnPassant := wasEnPassant, enPassantCapturedRow := row,
           enPassantCapturedCol := col }

/-- The member `ChessMove::setCastling`. -/
def ChessMove.setCastling (m : ChessMove) (kingsideCastling : Bool) (fromCol toCol : Int) :
    ChessMove :=
  { m with wasCastling := true, wasKingsideCastling := kingsideCastling,
           rookFromCol := fromCol, rookToCol := toCol }

/-! ## GameScreen.cpp -/

/-- The data members of class `GameScreen` that its game logic reads and
writes: the board, the vector `moves` of the history panel, the flags
`gameOver`, `currentPlayer` (true = white), `isPieceSelected`, `showPopup`, the
flag `isActive` of the promotion popup, `promotionSquare`, the coordinates of
the last move's origin and `capturedPieceInfo`. Fonts, buttons, timers and the
board view are not part of the model. -/
structure GameScreen where
  chessBoard : ChessBoard
  moves : List ChessMove
  gameOver : Bool
  currentPlayer : Bool
  isPieceSelected : Bool
  showPopup : Bool
  promotionActive : Bool
  promotionSquare : Int × Int
  lastMoveFromRow : Int
  lastMoveFromCol : Int
  capturedPieceInfo : PieceType × PieceColor

/-- The state a `GameScreen` has after its constructor: the board in the starting
position, White to move, no popup. The members the constructor leaves unset,
`lastMoveFromRow`, `lastMoveFromCol` and `capturedPieceInfo`, are written by
`makeMove` before they are read; they start as -1 and NONE here. -/
def newGame : GameScreen :=
  { chessBoard := resetBoard, moves := [], gameOver := false, currentPlayer := true,
    isPieceSelected := false, showPopup := false, promotionActive := false,
    promotionSquare := (-1, -1), lastMoveFromRow := -1, lastMoveFromCol := -1,
    capturedPieceInfo := (PieceType.NONE, PieceColor.NONE) }

/-- The array `files` of `generateMoveNotation`. -/
def files : List Char := ['a', 'b', 'c', 'd', 'e', 'f', 'g', 'h']

/-- The array `ranks` of `generateMoveNotation`. -/
def ranks : List Char := ['8', '7', '6', '5', '4', '3', '2', '1']

/-- The read `table[i]` of a built-in array: no value for an index out of range
(undefined behaviour in the source). -/
def arrayAt (table : List Char) (i : Int) : Option Char :=
  if i < 0 then none else table[i.toNat]?

/-- The read `s[pos]` of a `std::string`: the character, the null character for
`pos == s.size()`, and no value beyond (undefined behaviour in the source). -/
def stringAt (s : List Char) (pos : Nat) : Option Char :=
  if pos < s.length then s[pos]?
  else if pos = s.length then some (Char.ofNat 0)
  else none

/-- The call `s.find(c)`: the first position of `c`, `none` for `npos`. -/
def stringFind (s : List Char) (c : Char) : Option Nat :=
  s.findIdx? (fun x => x == c)

/-- Lines 269-276 of `GameScreen::handleBoardClick`: the flag
`isCurrentPlayerPiece` for the square `(row, col)`. -/
def GameScreen.isCurrentPlayerPiece (s : GameScreen) (row col : Int) : Bool :=
  match getPieceAtPtr s.chessBoard row col with
  | some clickedPiece =>
    !clickedPiece.isEmpty &&
      ((s.currentPlayer && clickedPiece.isWhite) || (!s.currentPlayer && clickedPiece.isBlack))
  | none => false

/-- The member `GameScreen::needsPromotion`. -/
def GameScreen.needsPromotion (b : ChessBoard) (row col : Int) : Bool :=
  match getPieceAtPtr b row col with
  | some piece =>
    piece.type == PieceType.PAWN &&
      ((piece.isWhite && row == 0) || (piece.isBlack && row == 7))
  | none => false

/-- The member `GameScreen::generateMoveNotation`, on the board after the move;
`none` when an array read is out of range. -/
def GameScreen.generateMoveNotation (b : ChessBoard) (fromRow fromCol toRow toCol : Int) :
    Option (List Char) :=
  let letter : List Char :=
    match getPieceAtPtr b toRow toCol with
    | some piece =>
      (match piece.type with
       | PieceType.KING => ['K']
       | PieceType.QUEEN => ['Q']
       | PieceType.ROOK => ['R']
       | PieceType.BISHOP => ['B']
       | PieceType.KNIGHT => ['N']
       | _ => [])
    | none => []
  let separator : Char :=
    match getPieceAtPtr b toRow toCol with
    | some targetPiece => if !targetPiece.isEmpty then 'x' else '-'
    | none => '-'
  match arrayAt files fromCol, arrayAt ranks fromRow, arrayAt files toCol,
      arrayAt ranks toRow with
  | some fromFile, some fromRank, some toFile, some toRank =>
    some (letter ++ [fromFile, fromRank, separator, toFile, toRank])
  | _, _, _, _ => none

/-- The member `GameScreen::generatePromotionNotation`, on the board after
`promotePawn`; `none` when an array read is out of range. -/
def GameScreen.generatePromotionNotation (b : ChessBoard) (fromCol toRow toCol : Int)
    (promotedTo : PieceType) : Option (List Char) :=
  let capture : List Char :=
    match getPieceAtPtr b toRow toCol with
    | some targetPiece => if !targetPiece.isEmpty then ['x'] else []
    | none => []
  let letter : Char :=
    match promotedTo with
    | PieceType.QUEEN => 'Q'
    | PieceType.ROOK => 'R'
    | PieceType.BISHOP => 'B'
    | PieceType.KNIGHT => 'N'
    | _ => 'Q'
  match arrayAt files fromCol, arrayAt files toCol, arrayAt ranks toRow with
  | some fromFile, some toFile, some toRank =>
    some ([fromFile] ++ capture ++ [toFile, toRank, '=', letter])
  | _, _, _ => none

/-- The member `GameScreen::checkGameState`; `none` when `isCheckmate` or
`isStalemate` has no result. -/
def GameScreen.checkGameState (s : GameScreen) : Option GameScreen :=
  match isCheckmate s.chessBoard s.currentPlayer with
  | none => none
  | some true => some { s with gameOver := true, showPopup := true }
  | some false =>
    match isStalemate s.chessBoard s.currentPlayer with
    | none => none
    | some true => some { s with gameOver := true, showPopup := true }
    | some false => some s

/-- Lines 336-349 of `GameScreen::makeMove`: the flag `isCastling`. -/
def GameScreen.isCastlingMove (b : ChessBoard) (fromRow fromCol toCol : Int) : Bool :=
  match getPieceAtPtr b fromRow fromCol with
  | some piece => piece.type == PieceType.KING && (fromCol - toCol).natAbs == 2
  | none => false

/-- Lines 351-378 of `GameScreen::makeMove`: the flag `isEnPassantCapture`. -/
def GameScreen.isEnPassantMove (b : ChessBoard) (fromRow fromCol toRow toCol : Int) : Bool :=
  match getPieceAtPtr b fromRow fromCol with
  | some piece =>
    piece.type == PieceType.PAWN &&
      ((piece.isWhite && fromRow == 3 && (fromCol - toCol).natAbs == 1 && toRow == 2 &&
          toCol == b.enPassantCol) ||
       (!piece.isWhite && fromRow == 4 && (fromCol - toCol).natAbs == 1 && toRow == 5 &&
          toCol == b.enPassantCol))
  | none => false

/-- Lines 351-378 of `GameScreen::makeMove`: the local `enPassantCapturedRow`
when `isEnPassantCapture` is set (3 for a white pawn, 4 for a black one). -/
def GameScreen.enPassantCapturedRow (b : ChessBoard) (fromRow fromCol : Int) : Int :=
  match getPieceAtPtr b fromRow fromCol with
  | some piece => if piece.isWhite then 3 else 4
  | none => -1

/-- Lines 322-383 of `GameScreen::makeMove`: the value of `capturedPieceInfo`
when `chessBoard.makeMove` is called. -/
def GameScreen.capturedInfo (b : ChessBoard) (fromRow fromCol toRow toCol : Int) :
    PieceType × PieceColor :=
  if GameScreen.isEnPassantMove b fromRow fromCol toRow toCol then
    match getPieceAtPtr b (GameScreen.enPassantCapturedRow b fromRow fromCol) toCol with
    | some capturedPawn => (capturedPawn.type, capturedPawn.color)
    | none => (PieceType.NONE, PieceColor.NONE)
  else
    match getPieceAtPtr b toRow toCol with
    | some targetPiece =>
      if !targetPiece.isEmpty then (targetPiece.type, targetPiece.color)
      else (PieceType.NONE, PieceColor.NONE)
    | none => (PieceType.NONE, PieceColor.NONE)

/-- Lines 432-445 of `GameScreen::makeMove`: the record of a move that needs no
promotion; `player` is `currentPlayer` after the assignment of line 432. -/
def GameScreen.moveRecord (b : ChessBoard) (fromRow fromCol toRow toCol : Int)
    (moveNotation : List Char) (player isCheck isCheckmate : Bool)
    (captured : PieceType × PieceColor) : ChessMove :=
  let move := ((ChessMove.new moveNotation player isCheck isCheckmate captured.1 captured.2
      false).setSourceCoords fromRow fromCol).setDestCoords toRow toCol
  let move :=
    if GameScreen.isEnPassantMove b fromRow fromCol toRow toCol then
      move.setEnPassantCapture true (GameScreen.enPassantCapturedRow b fromRow fromCol) toCol
    else move
  if GameScreen.isCastlingMove b fromRow fromCol toCol then
    (if decide (toCol > fromCol) then move.setCastling true 7 5
     else move.setCastling false 0 3)
  else move

/-- Lines 319-383 of `GameScreen::makeMove`: the members written before
`chessBoard.makeMove` is called. -/
def GameScreen.noteMove (s : GameScreen) (fromRow fromCol toRow toCol : Int) : GameScreen :=
  { s with lastMoveFromRow := fromRow, lastMoveFromCol := fromCol,
           capturedPieceInfo :=
             GameScreen.capturedInfo s.chessBoard fromRow fromCol toRow toCol }

/-- Lines 409-417 of `GameScreen::makeMove`: the moved pawn stands on its last
row; the promotion popup is shown and the call returns. -/
def GameScreen.awaitPromotion (s : GameScreen) (b : ChessBoard) (toRow toCol : Int) :
    GameScreen :=
  { s with chessBoard := b, promotionSquare := (toRow, toCol), promotionActive := true }

/-- Lines 420-447 of `GameScreen::makeMove` and lines 128-142 of
`GameScreen::handleEvent`: the record is appended to the history, the selection
cleared and the player to move flipped. -/
def GameScreen.recordMove (s : GameScreen) (b : ChessBoard) (move : ChessMove) : GameScreen :=
  { s with chessBoard := b, isPieceSelected := false, currentPlayer := !s.currentPlayer,
           moves := s.moves ++ [move] }

/-- Lines 388-399 of `GameScreen::makeMove`: the text of the move, on the board
`b1` after the move; `b` is the board before it. -/
def GameScreen.moveText (b b1 : ChessBoard) (fromRow fromCol toRow toCol : Int) :
    Option (List Char) :=
  if GameScreen.isCastlingMove b fromRow fromCol toCol then
    (if decide (toCol > fromCol) then some ['O', '-', 'O']
     else some ['O', '-', 'O', '-', 'O'])
  else GameScreen.generateMoveNotation b1 fromRow fromCol toRow toCol

/-- The member `GameScreen::makeMove`; `none` when a call it makes has no
result (`isCheckmate`, `isStalemate`, or an array read out of range). -/
def GameScreen.makeMove (s : GameScreen) (fromRow fromCol toRow toCol : Int) :
    Option GameScreen :=
  let b := s.chessBoard
  let s1 := s.noteMove fromRow fromCol toRow toCol
  let result := ChessSFML.makeMove b fromRow fromCol toRow toCol
  if result.1 then
    match GameScreen.moveText b result.2 fromRow fromCol toRow toCol,
        isCheckmate result.2 (!s.currentPlayer) with
    | some moveNotation, some isCheckmate =>
      let isCheck := isInCheck result.2 (!s.currentPlayer)
      if GameScreen.needsPromotion result.2 toRow toCol then
        some (s1.awaitPromotion result.2 toRow toCol)
      else
        (s1.recordMove result.2 (GameScreen.moveRecord b fromRow fromCol toRow toCol
          moveNotation (!s.currentPlayer) isCheck isCheckmate s1.capturedPieceInfo)).checkGameState
    | _, _ => none
  else some { s1 with chessBoard := result.2 }

/-- Lines 122-126 of `GameScreen::handleEvent`: the record of a completed
promotion; `white` is the value `!currentPlayer` passed to the constructor. -/
def GameScreen.promotionRecord (s : GameScreen) (moveNotation : List Char)
    (white isCheck isCheckmate : Bool) : ChessMove :=
  ((ChessMove.new moveNotation white isCheck isCheckmate s.capturedPieceInfo.1
    s.capturedPieceInfo.2 true).setSourceCoords s.lastMoveFromRow
      s.lastMoveFromCol).setDestCoords s.promotionSquare.1 s.promotionSquare.2

/-- Lines 105-144 of `GameScreen::handleEvent`: the promotion popup is visible
and the event makes it return `chosenType`, which is not NONE; `none` as for
`GameScreen::makeMove`. -/
def GameScreen.completePromotion (s : GameScreen) (chosenType : PieceType) :
    Option GameScreen :=
  let b1 := promotePawn s.chessBoard s.promotionSquare.1 s.promotionSquare.2 chosenType
  match GameScreen.generatePromotionNotation b1 s.lastMoveFromCol s.promotionSquare.1
      s.promotionSquare.2 chosenType, isCheckmate b1 (!s.currentPlayer) with
  | some moveNotation, some isCheckmate =>
    let isCheck := isInCheck b1 (!s.currentPlayer)
    ({ s with promotionActive := false }.recordMove b1
      (s.promotionRecord moveNotation (!s.currentPlayer) isCheck isCheckmate)).checkGameState
  | _, _ => none

/-- The `switch` of `GameScreen::undoLastMove` that re-creates a captured piece:
a fresh piece of the recorded type and colour, `nullptr` for type NONE. -/
def recreateCaptured (m : ChessMove) : Option Piece :=
  match m.capturedPieceType with
  | PieceType.PAWN => some (newPiece PieceType.PAWN m.capturedPieceColor)
  | PieceType.ROOK => some (newPiece PieceType.ROOK m.capturedPieceColor)
  | PieceType.KNIGHT => some (newPiece PieceType.KNIGHT m.capturedPieceColor)
  | PieceType.BISHOP => some (newPiece PieceType.BISHOP m.capturedPieceColor)
  | PieceType.QUEEN => some (newPiece PieceType.QUEEN m.capturedPieceColor)
  | PieceType.KING => some (newPiece PieceType.KING m.capturedPieceColor)
  | PieceType.NONE => none

/-- Lines 632-661 and 698-727 of `GameScreen::undoLastMove`: the captured piece
is put back on `(toRow, toCol)`. -/
def restoreCaptured (b : ChessBoard) (m : ChessMove) (toRow toCol : Int) : ChessBoard :=
  if m.wasPieceCaptured then
    match recreateCaptured m with
    | some capturedPiece => setPieceAt b toRow toCol (some capturedPiece)
    | none => b
  else b

/-- Lines 562-579 of `GameScreen::undoLastMove`: the castling branch. -/
def undoCastling (b : ChessBoard) (m : ChessMove) : ChessBoard :=
  let kingRow := m.sourceRow
  let kingFromCol := m.sourceCol
  let kingToCol := m.destCol
  let king := removePieceAt b kingRow kingToCol
  let rook := removePieceAt king.2 kingRow m.rookToCol
  let b1 := setPieceAt rook.2 kingRow kingFromCol (king.1.map (fun p => p.setHasMoved false))
  setPieceAt b1 kingRow m.rookFromCol (rook.1.map (fun p => p.setHasMoved false))

/-- Lines 580-597 of `GameScreen::undoLastMove`: the en-passant branch. -/
def undoEnPassant (b : ChessBoard) (m : ChessMove) (currentPlayer : Bool) : ChessBoard :=
  let movingPawn := removePieceAt b m.destRow m.destCol
  let b1 := setPieceAt movingPawn.2 m.sourceRow m.sourceCol movingPawn.1
  let capturedColor := if currentPlayer then PieceColor.WHITE else PieceColor.BLACK
  setPieceAt b1 m.enPassantCapturedRow m.enPassantCapturedCol
    (some (newPiece PieceType.PAWN capturedColor))

/-- Lines 600-625 of `GameScreen::undoLastMove`: the coordinates
`(fromRow, fromCol, toRow, toCol)` the promotion branch works with; they are
read from the text of the record when a recorded row is -1. -/
def promotionCoords (m : ChessMove) : Int × Int × Int × Int :=
  if m.sourceRow == -1 || m.destRow == -1 then
    match stringFind m.note '=' with
    | some equalPos =>
      if equalPos ≥ 2 then
        let destFile := (m.note[equalPos - 2]?).getD (Char.ofNat 0)
        let destRank := (m.note[equalPos - 1]?).getD (Char.ofNat 0)
        let toCol : Int := (destFile.toNat : Int) - ('a'.toNat : Int)
        let toRow : Int := ('8'.toNat : Int) - (destRank.toNat : Int)
        let sourceFile := (m.note[0]?).getD (Char.ofNat 0)
        let fromCol : Int := (sourceFile.toNat : Int) - ('a'.toNat : Int)
        let fromRow : Int :=
          if toRow == 0 then 1 else if toRow == 7 then 6 else m.sourceRow
        (fromRow, fromCol, toRow, toCol)
      else (m.sourceRow, m.sourceCol, m.destRow, m.destCol)
    | none => (m.sourceRow, m.sourceCol, m.destRow, m.destCol)
  else (m.sourceRow, m.sourceCol, m.destRow, m.destCol)

/-- Lines 598-662 of `GameScreen::undoLastMove`: the promotion branch. -/
def undoPromotion (b : ChessBoard) (m : ChessMove) (currentPlayer : Bool) : ChessBoard :=
  let coords := promotionCoords m
  let promotedPiece := removePieceAt b coords.2.2.1 coords.2.2.2
  let pawn := newPiece PieceType.PAWN
    (if currentPlayer then PieceColor.BLACK else PieceColor.WHITE)
  let b1 := setPieceAt promotedPiece.2 coords.1 coords.2.1 (some pawn)
  restoreCaptured b1 m coords.2.2.1 coords.2.2.2

/-- The test `c >= 'A' && c <= 'Z'` of `GameScreen::undoLastMove`. -/
def isUpperCase (c : Char) : Bool :=
  decide ('A'.toNat ≤ c.toNat) && decide (c.toNat ≤ 'Z'.toNat)

/-- Lines 664-689 of `GameScreen::undoLastMove`: the coordinates
`(fromRow, fromCol, toRow, toCol)` read from the text of a plain move. The outer
`none` is a string read out of range, the inner `none` the `return` taken when
the text holds neither `-` nor `x`. -/
def plainCoords (note : List Char) : Option (Option (Int × Int × Int × Int)) :=
  let startIndex : Nat := if isUpperCase ((note[0]?).getD (Char.ofNat 0)) then 1 else 0
  match stringAt note startIndex, stringAt note (startIndex + 1) with
  | some fromFile, some fromRank =>
    let found : Option Nat :=
      match stringFind note '-' with
      | some i => some i
      | none => stringFind note 'x'
    (match found with
     | none => some none
     | some i =>
       let toIndex := i + 1
       match stringAt note toIndex, stringAt note (toIndex + 1) with
       | some toFile, some toRank =>
         some (some (('8'.toNat : Int) - (fromRank.toNat : Int),
           (fromFile.toNat : Int) - ('a'.toNat : Int),
           ('8'.toNat : Int) - (toRank.toNat : Int),
           (toFile.toNat : Int) - ('a'.toNat : Int)))
       | _, _ => none)
  | _, _ => none

/-- Lines 691-727 of `GameScreen::undoLastMove`: the plain branch once the
coordinates are read. The flag is false when the branch returns because the
destination square holds no piece. -/
def undoPlain (b : ChessBoard) (m : ChessMove) (fromRow fromCol toRow toCol : Int) :
    Bool × ChessBoard :=
  let movedPiece := removePieceAt b toRow toCol
  match movedPiece.1 with
  | none => (false, movedPiece.2)
  | some piece =>
    let b1 := setPieceAt movedPiece.2 fromRow fromCol (some piece)
    (true, restoreCaptured b1 m toRow toCol)

/-- Lines 730-743 of `GameScreen::undoLastMove`: the record is popped and the
player to move flipped. -/
def GameScreen.finishUndo (s : GameScreen) (b : ChessBoard) : GameScreen :=
  { s with chessBoard := b, moves := s.moves.dropLast, currentPlayer := !s.currentPlayer,
           isPieceSelected := false }

/-- The member `GameScreen::undoLastMove`; `none` when a string read is out of
range. -/
def GameScreen.undoLastMove (s : GameScreen) : Option GameScreen :=
  if s.gameOver || s.moves.isEmpty then some s
  else
    match s.moves.getLast? with
    | none => some s
    | some lastMove =>
      if lastMove.wasCastling then
        some (s.finishUndo (undoCastling s.chessBoard lastMove))
      else if lastMove.wasEnPassant then
        some (s.finishUndo (undoEnPassant s.chessBoard lastMove s.currentPlayer))
      else if lastMove.wasPromotion then
        some (s.finishUndo (undoPromotion s.chessBoard lastMove s.currentPlayer))
      else
        match plainCoords lastMove.note with
        | none => none
        | some none => some s
        | some (some coords) =>
          let result := undoPlain s.chessBoard lastMove coords.1 coords.2.1 coords.2.2.1
            coords.2.2.2
          if result.1 then some (s.finishUndo result.2)
          else some { s with chessBoard := result.2 }

/-! ## Positions used as concrete inputs -/

/-- Successive `makeMove` calls on one board, as a client issues them; each
entry is `((fromRow, fromCol), (toRow, toCol))`. -/
def playMoves (b : ChessBoard) (moves : List ((Int × Int) × (Int × Int))) : ChessBoard :=
  moves.foldl (fun acc m => (makeMove acc m.1.1 m.1.2 m.2.1 m.2.2).2) b

/-- Whether every call of such a sequence returns true. -/
def movesAccepted (b : ChessBoard) : List ((Int × Int) × (Int × Int)) → Bool
  | [] => true
  | m :: rest =>
    (makeMove b m.1.1 m.1.2 m.2.1 m.2.2).1 &&
      movesAccepted (makeMove b m.1.1 m.1.2 m.2.1 m.2.2).2 rest

/-- A board with the given squares and en-passant fields, the six flags false. -/
def positionOf (squares : Int → Int → Option Piece) (enPassantCol enPassantRow : Int) :
    ChessBoard :=
  ⟨squares, false, false, false, false, false, false, enPassantCol, enPassantRow⟩

/-- The position after 1. f3 e5 2. g4 Qh4, played from the starting position. -/
def foolsMate : ChessBoard :=
  playMoves resetBoard [((6, 5), (5, 5)), ((1, 4), (3, 4)), ((6, 6), (4, 6)), ((0, 3), (4, 7))]

/-- The position after 1. e4 a6 2. e5 d5, played from the starting position:
the white pawn on (3,4) may capture the black pawn on (3,3) en passant. -/
def enPassantReady : ChessBoard :=
  playMoves resetBoard [((6, 4), (4, 4)), ((1, 0), (2, 0)), ((4, 4), (3, 4)), ((1, 3), (3, 3))]

/-- White king and both white rooks on their home squares, unmoved, and a black
king on (0,4): both castlings are available to White. -/
def castleReady : ChessBoard := positionOf (fun r c =>
  if r = 7 ∧ c = 4 then some ⟨PieceType.KING, PieceColor.WHITE, false⟩
  else if r = 7 ∧ c = 7 then some ⟨PieceType.ROOK, PieceColor.WHITE, false⟩
  else if r = 7 ∧ c = 0 then some ⟨PieceType.ROOK, PieceColor.WHITE, false⟩
  else if r = 0 ∧ c = 4 then some ⟨PieceType.KING, PieceColor.BLACK, false⟩
  else none) (-1) (-1)

/-- The position `castleReady` with a black queen added on (0,5): the white king
is not in check, but file 5, which it would cross castling kingside, is covered. -/
def castleThroughCheck : ChessBoard := positionOf (fun r c =>
  if r = 0 ∧ c = 5 then some ⟨PieceType.QUEEN, PieceColor.BLACK, true⟩
  else castleReady.board r c) (-1) (-1)

/-- The board after the calls `makeMove(6,1,4,1)`, `makeMove(1,0,3,0)`,
`makeMove(4,1,3,0)`, `makeMove(6,0,4,0)` on the starting position (all four are
accepted): a white pawn stands on (3,0), a second white pawn has just advanced
two squares on the same file, so `enPassantCol` is 0. -/
def pushOnEnPassantFile : ChessBoard :=
  playMoves resetBoard [((6, 1), (4, 1)), ((1, 0), (3, 0)), ((4, 1), (3, 0)), ((6, 0), (4, 0))]

/-- White king on (2,3), white pawn on (3,1), black queen on (2,0), black king on
(0,7), and the en-passant fields still naming (2,1): the fields are only written
by `makeMove`, so they keep this value when a double step of the black pawn of
file 1 is taken back with `removePieceAt`/`setPieceAt`. The queen gives check
along row 2. -/
def stalePushPosition : ChessBoard := positionOf (fun r c =>
  if r = 2 ∧ c = 3 then some ⟨PieceType.KING, PieceColor.WHITE, true⟩
  else if r = 3 ∧ c = 1 then some ⟨PieceType.PAWN, PieceColor.WHITE, true⟩
  else if r = 2 ∧ c = 0 then some ⟨PieceType.QUEEN, PieceColor.BLACK, true⟩
  else if r = 0 ∧ c = 7 then some ⟨PieceType.KING, PieceColor.BLACK, true⟩
  else none) 1 2

/-- White king on (7,4) and white rook on (7,7), both unmoved; black queens on
(0,3), (0,4), (0,5) and a black king on (0,0). The queen on file 4 gives check,
the other two cover files 3 and 5. -/
def castleOutOfCheck : ChessBoard := positionOf (fun r c =>
  if r = 7 ∧ c = 4 then some ⟨PieceType.KING, PieceColor.WHITE, false⟩
  else if r = 7 ∧ c = 7 then some ⟨PieceType.ROOK, PieceColor.WHITE, false⟩
  else if r = 0 ∧ c = 3 then some ⟨PieceType.QUEEN, PieceColor.BLACK, true⟩
  else if r = 0 ∧ c = 4 then some ⟨PieceType.QUEEN, PieceColor.BLACK, true⟩
  else if r = 0 ∧ c = 5 then some ⟨PieceType.QUEEN, PieceColor.BLACK, true⟩
  else if r = 0 ∧ c = 0 then some ⟨PieceType.KING, PieceColor.BLACK, true⟩
  else none) (-1) (-1)

/-- Nine accepted `makeMove` calls on the starting position: the white pawn of
file 0 walks (6,0), (4,0), (3,0), (2,0), captures on (1,1) and then on (0,0),
while Black advances the pawn of file 7. Afterwards a white pawn stands on
row 0, and `promotePawn` has not been called. -/
def pawnOnLastRankMoves : List ((Int × Int) × (Int × Int)) :=
  [((6, 0), (4, 0)), ((1, 7), (2, 7)), ((4, 0), (3, 0)), ((2, 7), (3, 7)), ((3, 0), (2, 0)),
   ((3, 7), (4, 7)), ((2, 0), (1, 1)), ((4, 7), (5, 7)), ((1, 1), (0, 0))]

/-- The board the calls of `pawnOnLastRankMoves` leave. -/
def pawnOnLastRank : ChessBoard := playMoves resetBoard pawnOnLastRankMoves

/-- Eleven accepted `makeMove` calls on the starting position: White brings a
pawn to (3,3) and the queen to (2,4), then advances the pawn of file 4 two
squares, which sets `enPassantCol` to 4; Black moves the pawns of files 0
and 7 in between. -/
def ownPieceOnEnPassantTargetMoves : List ((Int × Int) × (Int × Int)) :=
  [((6, 3), (4, 3)), ((1, 0), (2, 0)), ((4, 3), (3, 3)), ((2, 0), (3, 0)), ((7, 3), (5, 3)),
   ((3, 0), (4, 0)), ((5, 3), (4, 4)), ((1, 7), (2, 7)), ((4, 4), (2, 4)), ((2, 7), (3, 7)),
   ((6, 4), (4, 4))]

/-- The board the calls of `ownPieceOnEnPassantTargetMoves` leave. -/
def ownPieceOnEnPassantTarget : ChessBoard :=
  playMoves resetBoard ownPieceOnEnPassantTargetMoves

/-- Black king on (0,0), white queen on (2,1), white king on (7,7): Black, to
move, is not in check and has no legal move. -/
def stalematePosition : ChessBoard := positionOf (fun r c =>
  if r = 0 ∧ c = 0 then some ⟨PieceType.KING, PieceColor.BLACK, true⟩
  else if r = 2 ∧ c = 1 then some ⟨PieceType.QUEEN, PieceColor.WHITE, true⟩
  else if r = 7 ∧ c = 7 then some ⟨PieceType.KING, PieceColor.WHITE, true⟩
  else none) (-1) (-1)

/-- A board without a white king: white queen on (7,3), white pawn on (6,0),
black king on (0,4), black rook on (0,3) facing the queen. -/
def kinglessPosition : ChessBoard := positionOf (fun r c =>
  if r = 7 ∧ c = 3 then some ⟨PieceType.QUEEN, PieceColor.WHITE, true⟩
  else if r = 6 ∧ c = 0 then some ⟨PieceType.PAWN, PieceColor.WHITE, false⟩
  else if r = 0 ∧ c = 4 then some ⟨PieceType.KING, PieceColor.BLACK, false⟩
  else if r = 0 ∧ c = 3 then some ⟨PieceType.ROOK, PieceColor.BLACK, true⟩
  else none) (-1) (-1)

/-- The board after `makeMove(6,3,4,3)`, `makeMove(1,0,2,0)`, `makeMove(4,3,3,3)`,
`makeMove(2,0,3,0)`, `makeMove(6,4,4,4)` on the starting position (all accepted):
a white pawn stands on (3,3) and White has just advanced the pawn of file 4 two
squares, so the en-passant target is (5,4). -/
def ownDoubleStepBesidePawn : ChessBoard :=
  playMoves resetBoard
    [((6, 3), (4, 3)), ((1, 0), (2, 0)), ((4, 3), (3, 3)), ((2, 0), (3, 0)), ((6, 4), (4, 4))]

/-- A white king on (7,4) and, on (0,4), a queen constructed with
`PieceColor::NONE`; the file between them is empty. -/
def colourlessQueenPosition : ChessBoard := positionOf (fun r c =>
  if r = 7 ∧ c = 4 then some ⟨PieceType.KING, PieceColor.WHITE, false⟩
  else if r = 0 ∧ c = 4 then some ⟨PieceType.QUEEN, PieceColor.NONE, false⟩
  else none) (-1) (-1)

/-- Successive `GameScreen::makeMove` calls, as the clicks of the players issue
them; `none` as for `GameScreen::makeMove`. -/
def GameScreen.play (s : GameScreen) : List ((Int × Int) × (Int × Int)) → Option GameScreen
  | [] => some s
  | m :: rest =>
    match s.makeMove m.1.1 m.1.2 m.2.1 m.2.2 with
    | some s1 => GameScreen.play s1 rest
    | none => none

/-- The state after the white pawn of file 0 has walked to (1,1) while Black
advanced the pawn of file 7: the first eight calls of `pawnOnLastRankMoves`,
made through `GameScreen::makeMove` on a new game. -/
def beforePromotion : Option GameScreen :=
  newGame.play (pawnOnLastRankMoves.take 8)

/-- A new game set on the board `b`, White to move. -/
def gameOn (b : ChessBoard) : GameScreen := { newGame with chessBoard := b }

/-- The state `GameScreen::makeMove` leaves; the state itself when the call has no
result. -/
def GameScreen.afterMove (s : GameScreen) (fromRow fromCol toRow toCol : Int) : GameScreen :=
  (s.makeMove fromRow fromCol toRow toCol).getD s

/-- The state after the moves (6,5) to (5,5), (1,4) to (3,4), (6,6) to (4,6) of a
new game: Black, to move, mates with the queen move (0,3) to (4,7). -/
def beforeMate : GameScreen :=
  ((newGame.afterMove 6 5 5 5).afterMove 1 4 3 4).afterMove 6 6 4 6

/-- The last record of the history; an empty record when there is none. -/
def GameScreen.lastRecord (s : GameScreen) : ChessMove :=
  (s.moves.getLast?).getD (ChessMove.new [] false false false PieceType.NONE PieceColor.NONE false)

/-! ## Notions the claims are stated with -/

/-- The type `promotePawn` constructs for a request `t`. -/
def promotedType (t : PieceType) : PieceType :=
  if t = PieceType.QUEEN ∨ t = PieceType.ROOK ∨ t = PieceType.BISHOP ∨ t = PieceType.KNIGHT
  then t else PieceType.QUEEN

/-- Two boards the queries cannot tell apart: the same content on the 64
squares and the same `enPassantCol`. -/
def sameView (b1 b2 : ChessBoard) : Prop :=
  (∀ r c : Int, isValidPosition r c = true → b1.board r c = b2.board r c) ∧
    b1.enPassantCol = b2.enPassantCol

/-- Whether `x` lies strictly between `a` and `b`. -/
def strictlyBetween (a b x : Int) : Bool :=
  (decide (a < x) && decide (x < b)) || (decide (b < x) && decide (x < a))

/-- Stated from the spec's words: whether `(x, y)` is a square strictly between
`(row, col)` and `(r, k)` on the row, column or diagonal the two share. -/
def onLineBetween (row col r k x y : Int) : Bool :=
  (r == row && x == row && strictlyBetween col k y) ||
  (k == col && y == col && strictlyBetween row r x) ||
  ((r - row).natAbs == (k - col).natAbs && strictlyBetween row r x && strictlyBetween col k y &&
    (x - row).natAbs == (y - col).natAbs)

/-- Stated from the spec's words: the piece types of a back rank, columns 0 to 7. -/
def backRank : List PieceType :=
  [PieceType.ROOK, PieceType.KNIGHT, PieceType.BISHOP, PieceType.QUEEN, PieceType.KING,
    PieceType.BISHOP, PieceType.KNIGHT, PieceType.ROOK]

/-- Stated from the spec's words: the content of square `(row, col)` in the
standard starting position, every piece unmoved. -/
def startingSquare (row col : Int) : Option Piece :=
  if row = 0 then (backRank[col.toNat]?).map (fun t => ⟨t, PieceColor.BLACK, false⟩)
  else if row = 1 then some ⟨PieceType.PAWN, PieceColor.BLACK, false⟩
  else if row = 6 then some ⟨PieceType.PAWN, PieceColor.WHITE, false⟩
  else if row = 7 then (backRank[col.toNat]?).map (fun t => ⟨t, PieceColor.WHITE, false⟩)
  else none

/-- The boards a client of `ChessBoard` can produce: the starting position, and
what `resetBoard`, `makeMove`, `promotePawn`, `setPieceAt` and `removePieceAt`
leave, with any arguments, on such a board. -/
inductive ReachableBoard : ChessBoard → Prop
  | start : ReachableBoard resetBoard
  | reset {b : ChessBoard} : ReachableBoard b → ReachableBoard (resetBoardFrom b)
  | move {b : ChessBoard} (fromRow fromCol toRow toCol : Int) :
      ReachableBoard b → ReachableBoard (makeMove b fromRow fromCol toRow toCol).2
  | promote {b : ChessBoard} (row col : Int) (newType : PieceType) :
      ReachableBoard b → ReachableBoard (promotePawn b row col newType)
  | place {b : ChessBoard} (row col : Int) (piece : Option Piece) :
      ReachableBoard b → ReachableBoard (setPieceAt b row col piece)
  | remove {b : ChessBoard} (row col : Int) :
      ReachableBoard b → ReachableBoard (removePieceAt b row col).2

/-- The invariant of the en-passant fields: both are -1, or the column is in
range and the row is 2 or 5. -/
def enPassantFieldsOk (b : ChessBoard) : Prop :=
  (b.enPassantCol = -1 ↔ b.enPassantRow = -1) ∧
    (b.enPassantCol ≠ -1 → 0 ≤ b.enPassantCol ∧ b.enPassantCol ≤ 7 ∧
      (b.enPassantRow = 2 ∨ b.enPassantRow = 5))

/-- What a square shows: type and colour of its piece, nothing for an empty
square. -/
def squareView (b : ChessBoard) (row col : Int) : Option (PieceType × PieceColor) :=
  let piece := getPieceAt b row col
  if piece.isEmpty then none else some (piece.type, piece.color)

/-- What a pointer to a piece shows: type and colour, nothing for a null pointer
or an empty piece. -/
def viewOf (o : Option Piece) : Option (PieceType × PieceColor) :=
  match o with
  | some p => if p.isEmpty then none else some (p.type, p.color)
  | none => none

/-- What the parser of `undoLastMove` needs of a character of the text: it is
neither a separator nor an upper-case letter. -/
def plainChar (c : Char) : Prop :=
  c ≠ '-' ∧ c ≠ 'x' ∧ isUpperCase c = false

/-- The test of lines 158-161 of `ChessBoard::makeMove` for an en-passant
capture by `piece` (the same test as in `removeEnPassantPawn`). -/
def enPassantFires (b : ChessBoard) (piece : Piece) (fromRow toRow toCol : Int) : Bool :=
  piece.type == PieceType.PAWN && toCol == b.enPassantCol &&
    ((piece.isWhite && fromRow == 3 && toRow == 2) ||
      (!piece.isWhite && fromRow == 4 && toRow == 5))

/-- The en-passant column agrees with the position and the player to move: when
it is set, the square beside which a capture may start holds a pawn of the
player who is not to move, and the square it passed over is empty. -/
def enPassantConsistent (b : ChessBoard) (whiteToMove : Bool) : Prop :=
  b.enPassantCol ≠ -1 →
    (getPieceAt b (if whiteToMove then 3 else 4) b.enPassantCol).type = PieceType.PAWN ∧
    (getPieceAt b (if whiteToMove then 3 else 4) b.enPassantCol).color =
      sideColor (!whiteToMove) ∧
    (getPieceAt b (if whiteToMove then 2 else 5) b.enPassantCol).isEmpty = true

/-- The invariant of a played game: while the promotion popup is shown the
en-passant column is unset, and otherwise it is consistent with the position
and the player to move. -/
def GameScreen.enPassantInvariant (s : GameScreen) : Prop :=
  (s.promotionActive = true → s.chessBoard.enPassantCol = -1) ∧
    (s.promotionActive = false → enPassantConsistent s.chessBoard s.currentPlayer)

/-- The states of a game played through the screen: the new game; what
`GameScreen::makeMove` leaves when `handleBoardClick` calls it (game not over,
no promotion pending, a piece of the player to move on the origin); and what
the choice of a promotion piece leaves while the popup is shown. -/
inductive Played : GameScreen → Prop
  | start : Played newGame
  | move {s s1 : GameScreen} (fromRow fromCol toRow toCol : Int) :
      Played s → s.gameOver = false → s.promotionActive = false →
      s.isCurrentPlayerPiece fromRow fromCol = true →
      s.makeMove fromRow fromCol toRow toCol = some s1 → Played s1
  | promote {s s1 : GameScreen} (chosenType : PieceType) :
      Played s → s.promotionActive = true → chosenType ≠ PieceType.NONE →
      s.completePromotion chosenType = some s1 → Played s1

/-! ## Auxiliary facts about the embedding -/

/-- The search loop `for (move : possibleMoves) if (move.x == r && move.y == c)`
finds a destination exactly when the list contains it. -/
theorem any_dest_iff (l : List (Int × Int)) (r c : Int) :
    l.any (fun move => move.1 == r && move.2 == c) = true ↔ (r, c) ∈ l := by
  simp only [List.any_eq_true, Bool.and_eq_true, beq_iff_eq]
  constructor
  · rintro ⟨⟨x, y⟩, hm, h1, h2⟩
    simp only at h1 h2
    subst h1 h2
    exact hm
  · intro h
    exact ⟨(r, c), h, rfl, rfl⟩

/-- The outcomes of `makeMove`, one per path through the function. -/
theorem makeMove_cases (b : ChessBoard) (fromRow fromCol toRow toCol : Int) :
    makeMove b fromRow fromCol toRow toCol = (false, b) ∨
    ∃ piece, isValidPosition fromRow fromCol = true ∧ isValidPosition toRow toCol = true ∧
      b.board fromRow fromCol = some piece ∧ piece.isEmpty = false ∧
      (toRow, toCol) ∈ getPossibleMoves b fromRow fromCol ∧
      ((piece.type = PieceType.KING ∧ (fromCol - toCol).natAbs = 2 ∧
          isKingInCheck b (sideColor piece.isWhite) = false ∧
          wouldMoveExposeKing b fromRow fromCol fromRow
            (if decide (toCol > fromCol) then 5 else 3) piece.isWhite = false ∧
          wouldMoveExposeKing b fromRow fromCol toRow toCol piece.isWhite = false ∧
          makeMove b fromRow fromCol toRow toCol =
            (true, completeMove (relocateRook b fromRow (decide (toCol > fromCol))) piece
              fromRow fromCol toRow toCol)) ∨
       (¬ (piece.type = PieceType.KING ∧ (fromCol - toCol).natAbs = 2) ∧
          wouldMoveExposeKing b fromRow fromCol toRow toCol piece.isWhite = false ∧
          makeMove b fromRow fromCol toRow toCol =
            (true, completeMove b piece fromRow fromCol toRow toCol))) := by
  by_cases hv1 : isValidPosition fromRow fromCol = true
  swap
  · left; simp [makeMove, hv1]
  by_cases hv2 : isValidPosition toRow toCol = true
  swap
  · left; simp [makeMove, hv2]
  cases hp : b.board fromRow fromCol with
  | none => left; simp [makeMove, getPieceAtPtr, hv1, hv2, hp]
  | some piece =>
    by_cases he : piece.isEmpty = true
    · left; simp [makeMove, getPieceAtPtr, hv1, hv2, hp, he]
    by_cases hm : (toRow, toCol) ∈ getPossibleMoves b fromRow fromCol
    swap
    · left
      have : (getPossibleMoves b fromRow fromCol).any
          (fun move => move.1 == toRow && move.2 == toCol) = false := by
        rw [← Bool.not_eq_true, any_dest_iff]; exact hm
      simp [makeMove, getPieceAtPtr, hv1, hv2, hp, he, this]
    have hany := (any_dest_iff _ toRow toCol).2 hm
    simp only [Bool.not_eq_true] at he
    by_cases hk : piece.type = PieceType.KING ∧ (fromCol - toCol).natAbs = 2
    · by_cases hc : isKingInCheck b (sideColor piece.isWhite) = true
      · left; simp [makeMove, getPieceAtPtr, hv1, hv2, hp, he, hany, hk.1, hk.2, hc]
      by_cases hw1 : wouldMoveExposeKing b fromRow fromCol fromRow
            (if decide (toCol > fromCol) then 5 else 3) piece.isWhite = true
      · left
        simp only [gt_iff_lt, decide_eq_true_eq] at hw1
        simp [makeMove, getPieceAtPtr, hv1, hv2, hp, he, hany, hk.1, hk.2, hc, hw1]
      by_cases hw2 : wouldMoveExposeKing b fromRow fromCol toRow toCol piece.isWhite = true
      · left; simp [makeMove, getPieceAtPtr, hv1, hv2, hp, he, hany, hk.1, hk.2, hc, hw2]
      right
      simp only [Bool.not_eq_true] at hc hw1 hw2
      refine ⟨piece, hv1, hv2, rfl, he, hm, Or.inl ⟨hk.1, hk.2, hc, hw1, hw2, ?_⟩⟩
      simp only [gt_iff_lt, decide_eq_true_eq] at hw1
      simp [makeMove, getPieceAtPtr, hv1, hv2, hp, he, hany, hk.1, hk.2, hc, hw1, hw2]
    · by_cases hw2 : wouldMoveExposeKing b fromRow fromCol toRow toCol piece.isWhite = true
      · left
        simp only [not_and] at hk
        simp [makeMove, getPieceAtPtr, hv1, hv2, hp, he, hany, hk, hw2]
      right
      simp only [Bool.not_eq_true] at hw2
      refine ⟨piece, hv1, hv2, rfl, he, hm, Or.inr ⟨hk, hw2, ?_⟩⟩
      simp only [not_and] at hk
      simp [makeMove, getPieceAtPtr, hv1, hv2, hp, he, hany, hk, hw2]
      intro h1 h2
      exact absurd h2 (hk h1)

/-- An accepted move has both squares in range. -/
theorem makeMove_accepted_valid {b : ChessBoard} {fromRow fromCol toRow toCol : Int}
    (h : (makeMove b fromRow fromCol toRow toCol).1 = true) :
    isValidPosition fromRow fromCol = true ∧ isValidPosition toRow toCol = true := by
  rcases makeMove_cases b fromRow fromCol toRow toCol with h0 | ⟨p, hv1, hv2, -⟩
  · rw [h0] at h; simp at h
  · exact ⟨hv1, hv2⟩

/-- A destination of a king two columns away from it is a castling destination:
the conditions `King::getPossibleMoves` tested before listing it. -/
theorem king_two_columns {p : Piece} {row col r1 c1 : Int} {b : ChessBoard}
    (h : (r1, c1) ∈ King.getPossibleMoves p row col b) (h2 : (col - c1).natAbs = 2) :
    p.hasMoved = false ∧ row = (if p.color = PieceColor.WHITE then 7 else 0) ∧ col = 4 ∧
      r1 = row ∧
      ((c1 = 6 ∧ (getPieceAt b row 5).isEmpty = true ∧ (getPieceAt b row 6).isEmpty = true ∧
          (getPieceAt b row 7).type = PieceType.ROOK ∧ (getPieceAt b row 7).color = p.color ∧
          (getPieceAt b row 7).hasMoved = false) ∨
       (c1 = 2 ∧ (getPieceAt b row 1).isEmpty = true ∧ (getPieceAt b row 2).isEmpty = true ∧
          (getPieceAt b row 3).isEmpty = true ∧
          (getPieceAt b row 0).type = PieceType.ROOK ∧ (getPieceAt b row 0).color = p.color ∧
          (getPieceAt b row 0).hasMoved = false)) := by
  unfold King.getPossibleMoves at h
  simp only [List.mem_append, List.mem_filter, List.mem_map] at h
  rcases h with ⟨⟨off, hoff, heq⟩, -⟩ | h
  · exfalso
    simp only [Prod.mk.injEq] at heq
    obtain ⟨-, hc⟩ := heq
    simp only [kingOffsets, List.mem_cons, List.mem_singleton, List.not_mem_nil, or_false] at hoff
    rcases hoff with rfl | rfl | rfl | rfl | rfl | rfl | rfl | rfl <;> simp only at hc <;> omega
  · by_cases hm : p.hasMoved = true
    · simp [hm] at h
    simp only [Bool.not_eq_true] at hm
    simp [hm] at h
    obtain ⟨⟨hrow, hcol⟩, h⟩ := h
    rw [← hrow] at h
    refine ⟨hm, hrow, hcol, ?_⟩
    rcases h with ⟨⟨⟨⟨⟨e5, e6⟩, ht⟩, hcl⟩, hh⟩, hr, hc⟩ | ⟨⟨⟨⟨⟨e1, e2, e3⟩, ht⟩, hcl⟩, hh⟩, hr, hc⟩
    · exact ⟨hr, Or.inl ⟨hc, e5, e6, ht, hcl, hh⟩⟩
    · exact ⟨hr, Or.inr ⟨hc, e1, e2, e3, ht, hcl, hh⟩⟩

/-- Reading the array after a store. -/
@[simp] theorem storeAt_board (b : ChessBoard) (row col : Int) (v : Option Piece) (r c : Int) :
    (storeAt b row col v).board r c = if r = row ∧ c = col then v else b.board r c := rfl

/-- A store on the array leaves `enPassantCol` alone. -/
@[simp] theorem storeAt_enPassantCol (b : ChessBoard) (row col : Int) (v : Option Piece) :
    (storeAt b row col v).enPassantCol = b.enPassantCol := rfl

/-- A store on the array leaves `enPassantRow` alone. -/
@[simp] theorem storeAt_enPassantRow (b : ChessBoard) (row col : Int) (v : Option Piece) :
    (storeAt b row col v).enPassantRow = b.enPassantRow := rfl

/-- The squares after lines 168-174: `to` holds what `from` held, marked as
moved; `from` is empty; the rest is untouched. -/
theorem relocatePiece_board (b : ChessBoard) (fromRow fromCol toRow toCol r c : Int) :
    (relocatePiece b fromRow fromCol toRow toCol).board r c =
      if r = toRow ∧ c = toCol then (b.board fromRow fromCol).map (fun q => q.setHasMoved true)
      else if r = fromRow ∧ c = fromCol then none
      else b.board r c := by
  unfold relocatePiece
  cases hmv : b.board fromRow fromCol with
  | none => simp [hmv]
  | some q =>
    simp only [hmv, storeAt_board, and_self, if_true, Option.map_some']
    split_ifs <;> rfl

/-- Lines 176-193 write no square. -/
theorem updateMovedFlags_board (b : ChessBoard) (fromCol toRow toCol : Int) :
    (updateMovedFlags b fromCol toRow toCol).board = b.board := by
  unfold updateMovedFlags
  split
  · split_ifs <;> rfl
  · rfl

/-- Lines 195-202 write no square. -/
theorem updateEnPassant_board (b : ChessBoard) (fromRow toRow toCol : Int) :
    (updateEnPassant b fromRow toRow toCol).board = b.board := by
  unfold updateEnPassant
  split
  · split_ifs <;> rfl
  · rfl

/-- The squares after lines 157-202, in terms of the board left by the
en-passant removal. -/
theorem completeMove_board (b : ChessBoard) (piece : Piece) (fromRow fromCol toRow toCol r c : Int) :
    (completeMove b piece fromRow fromCol toRow toCol).board r c =
      if r = toRow ∧ c = toCol then
        ((removeEnPassantPawn b piece fromRow toRow toCol).board fromRow fromCol).map
          (fun q => q.setHasMoved true)
      else if r = fromRow ∧ c = fromCol then none
      else (removeEnPassantPawn b piece fromRow toRow toCol).board r c := by
  unfold completeMove
  simp only [updateEnPassant_board, updateMovedFlags_board, relocatePiece_board]

/-- The en-passant fields `completeMove` leaves, read off lines 195-202. -/
theorem completeMove_enPassant (b : ChessBoard) (piece : Piece) (fromRow fromCol toRow toCol : Int) :
    ((completeMove b piece fromRow fromCol toRow toCol).enPassantCol,
      (completeMove b piece fromRow fromCol toRow toCol).enPassantRow) =
      if (∃ q, (completeMove b piece fromRow fromCol toRow toCol).board toRow toCol = some q ∧
            q.type = PieceType.PAWN) ∧ (fromRow - toRow).natAbs = 2 then
        (toCol, (fromRow + toRow).tdiv 2)
      else (-1, -1) := by
  have hb : (completeMove b piece fromRow fromCol toRow toCol).board toRow toCol =
      (updateMovedFlags (relocatePiece (removeEnPassantPawn b piece fromRow toRow toCol)
        fromRow fromCol toRow toCol) fromCol toRow toCol).board toRow toCol := by
    unfold completeMove
    simp only [updateEnPassant_board]
  rw [hb]
  unfold completeMove
  simp only []
  generalize updateMovedFlags (relocatePiece (removeEnPassantPawn b piece fromRow toRow toCol)
        fromRow fromCol toRow toCol) fromCol toRow toCol = b3
  unfold updateEnPassant
  cases hq : b3.board toRow toCol with
  | none => simp
  | some q =>
    by_cases hc : q.type = PieceType.PAWN ∧ (fromRow - toRow).natAbs = 2
    · simp [hc.1, hc.2]
    · have : ¬ ((q.type == PieceType.PAWN && (fromRow - toRow).natAbs == 2) = true) := by
        simpa using hc
      simp only [this, if_false]
      have hn : ¬ ((∃ q1, some q = some q1 ∧ q1.type = PieceType.PAWN) ∧
          (fromRow - toRow).natAbs = 2) := by
        rintro ⟨⟨q1, h1, h2⟩, h3⟩
        simp only [Option.some.injEq] at h1
        subst h1
        exact hc ⟨h2, h3⟩
      rw [if_neg hn]
      simp

/-- The const `getPieceAt` returns the occupant of an occupied in-range square. -/
theorem getPieceAt_of_board {b : ChessBoard} {row col : Int} {p : Piece}
    (hv : isValidPosition row col = true) (hp : b.board row col = some p) :
    getPieceAt b row col = p := by
  simp [getPieceAt, hv, hp]

/-- On a square holding a king, `ChessBoard::getPossibleMoves` is the king's
generator. -/
theorem getPossibleMoves_king {b : ChessBoard} {row col : Int}
    (hk : (getPieceAt b row col).type = PieceType.KING) :
    getPossibleMoves b row col = King.getPossibleMoves (getPieceAt b row col) row col b := by
  simp [getPossibleMoves, Piece.getPossibleMoves, Piece.isEmpty, hk]

/-- A piece of a type other than NONE returned by the const `getPieceAt` is the
occupant of the square. -/
theorem board_of_getPieceAt_type {b : ChessBoard} {row col : Int}
    (h : (getPieceAt b row col).type ≠ PieceType.NONE) :
    b.board row col = some (getPieceAt b row col) := by
  unfold getPieceAt at h ⊢
  split_ifs at h ⊢ with hv
  · cases hb : b.board row col with
    | none => simp [hb, emptyPiece] at h
    | some p => simp
  · simp [emptyPiece] at h

/-- The squares after lines 142-151: the rook stands next to the king, marked as
moved, and its corner is empty. -/
theorem relocateRook_board (b : ChessBoard) (fromRow : Int) (ks : Bool) (r c : Int) :
    (relocateRook b fromRow ks).board r c =
      if r = fromRow ∧ c = (if ks then 5 else 3) then
        (b.board fromRow (if ks then 7 else 0)).map (fun q => q.setHasMoved true)
      else if r = fromRow ∧ c = (if ks then 7 else 0) then none
      else b.board r c := by
  unfold relocateRook
  cases ks
  · simp only [Bool.false_eq_true, if_false]
    cases hmv : b.board fromRow 0 with
    | none => simp [hmv]
    | some q =>
      simp only [hmv, storeAt_board, and_self, if_true, Option.map_some']
      split_ifs <;> rfl
  · simp only [if_true]
    cases hmv : b.board fromRow 7 with
    | none => simp [hmv]
    | some q =>
      simp only [hmv, storeAt_board, and_self, if_true, Option.map_some']
      split_ifs <;> rfl

/-- Relocating the rook leaves `enPassantCol` alone. -/
@[simp] theorem relocateRook_enPassantCol (b : ChessBoard) (fromRow : Int) (ks : Bool) :
    (relocateRook b fromRow ks).enPassantCol = b.enPassantCol := by
  unfold relocateRook
  simp only []
  split <;> rfl

/-- The en-passant test of lines 157-166 fails for every piece but a pawn. -/
theorem removeEnPassantPawn_of_not_pawn {b : ChessBoard} {piece : Piece} {fromRow toRow toCol : Int}
    (h : piece.type ≠ PieceType.PAWN) : removeEnPassantPawn b piece fromRow toRow toCol = b := by
  simp [removeEnPassantPawn, h]

/-- The loop range covers `0 ≤ r < 8`. -/
theorem mem_idx8 {r : Int} (h0 : 0 ≤ r) (h8 : r < 8) : r ∈ idx8 := by
  unfold idx8
  have : r = 0 ∨ r = 1 ∨ r = 2 ∨ r = 3 ∨ r = 4 ∨ r = 5 ∨ r = 6 ∨ r = 7 := by omega
  rcases this with rfl | rfl | rfl | rfl | rfl | rfl | rfl | rfl <;> simp

/-- The nested loops visit every in-range square. -/
theorem mem_allSquares {r c : Int} (h : isValidPosition r c = true) : (r, c) ∈ allSquares := by
  simp only [isValidPosition, Bool.and_eq_true, decide_eq_true_eq] at h
  unfold allSquares
  rw [List.mem_flatMap]
  exact ⟨r, mem_idx8 (by omega) (by omega), List.mem_map.2 ⟨c, mem_idx8 (by omega) (by omega), rfl⟩⟩

/-- When the search of `isCheckmate` ends with true, every candidate it was
given exposes the king. -/
theorem searchEscape_true {b : ChessBoard} {w : Bool} :
    ∀ {l : List ((Int × Int) × (Int × Int))}, searchEscape b w l = some true →
      ∀ x ∈ l, wouldMoveExposeKing b x.1.1 x.1.2 x.2.1 x.2.2 w = true
  | [], _, x, hx => by simp at hx
  | (s, move) :: rest, h, x, hx => by
    unfold searchEscape at h
    split_ifs at h with h1 h2
    · simp at h
    · simp only [Bool.not_eq_true', Bool.not_eq_false] at h2
      rcases List.mem_cons.1 hx with rfl | hx
      · simpa using h2
      · exact searchEscape_true h x hx

/-- Every pseudo-legal move of an own piece on an in-range square is among the
candidates of `isCheckmate`. -/
theorem mem_ownCandidates {b : ChessBoard} {kingColor : PieceColor} {fr fc tr tc : Int}
    (hv : isValidPosition fr fc = true) (he : (getPieceAt b fr fc).isEmpty = false)
    (hc : (getPieceAt b fr fc).color = kingColor)
    (hm : (tr, tc) ∈ getPossibleMoves b fr fc) :
    ((fr, fc), (tr, tc)) ∈ ownCandidates b kingColor := by
  unfold ownCandidates
  rw [List.mem_flatMap]
  refine ⟨(fr, fc), mem_allSquares hv, ?_⟩
  simp only [he, hc, Bool.not_false, Bool.true_and, beq_self_eq_true, if_true]
  exact List.mem_map.2 ⟨(tr, tc), hm, rfl⟩

/-- One iteration of the loop of `slide`. -/
theorem slide_succ (b : ChessBoard) (color : PieceColor) (dr dc : Int) (n : Nat) (r c : Int) :
    slide b color dr dc (n + 1) r c =
      if (decide (r + dr < 0) || decide (r + dr ≥ 8) || decide (c + dc < 0) ||
          decide (c + dc ≥ 8)) = true then []
      else if (getPieceAt b (r + dr) (c + dc)).isEmpty = true then
        (r + dr, c + dc) :: slide b color dr dc n (r + dr) (c + dc)
      else if ((getPieceAt b (r + dr) (c + dc)).color != color) = true then [(r + dr, c + dc)]
      else [] := rfl

/-- Once the fuel covers the squares left before the board edge, extra fuel
changes nothing. -/
theorem slide_stable (b : ChessBoard) (color : PieceColor) (dr dc : Int)
    (hd : dr = 1 ∨ dr = -1 ∨ (dr = 0 ∧ (dc = 1 ∨ dc = -1))) :
    ∀ (n : Nat) (r c : Int),
      (if dr = 1 then 7 - r else if dr = -1 then r else if dc = 1 then 7 - c else c) ≤ (n : Int) →
      ∀ k : Nat, slide b color dr dc (n + k) r c = slide b color dr dc n r c := by
  intro n
  induction n with
  | zero =>
    intro r c hS k
    cases k with
    | zero => rfl
    | succ k =>
      have hoob : (decide (r + dr < 0) || decide (r + dr ≥ 8) || decide (c + dc < 0) ||
          decide (c + dc ≥ 8)) = true := by
        simp only [Bool.or_eq_true, decide_eq_true_eq]
        rcases hd with rfl | rfl | ⟨rfl, rfl | rfl⟩ <;> simp at hS <;> omega
      rw [show 0 + (k + 1) = k + 1 from by omega, slide_succ, if_pos hoob]
      rfl
  | succ n ih =>
    intro r c hS k
    rw [show n + 1 + k = (n + k) + 1 from by omega, slide_succ, slide_succ]
    by_cases hoob : (decide (r + dr < 0) || decide (r + dr ≥ 8) || decide (c + dc < 0) ||
          decide (c + dc ≥ 8)) = true
    · rw [if_pos hoob, if_pos hoob]
    · rw [if_neg hoob, if_neg hoob]
      have hS1 : (if dr = 1 then 7 - (r + dr) else if dr = -1 then r + dr
          else if dc = 1 then 7 - (c + dc) else c + dc) ≤ (n : Int) := by
        rcases hd with rfl | rfl | ⟨rfl, rfl | rfl⟩ <;> simp at hS ⊢ <;> omega
      rw [ih (r + dr) (c + dc) hS1 k]

/-- The fuel 8 that the callers of `slide` pass is enough: more fuel gives the
same list, for each of the eight directions and every start square. -/
theorem slide_fuel_enough (b : ChessBoard) (color : PieceColor) (dr dc : Int)
    (hd : (dr, dc) ∈ queenDirections) (r c : Int) (k : Nat) :
    slide b color dr dc (8 + k) r c = slide b color dr dc 8 r c := by
  have hd1 : dr = 1 ∨ dr = -1 ∨ (dr = 0 ∧ (dc = 1 ∨ dc = -1)) := by
    simp only [queenDirections, List.mem_cons, Prod.mk.injEq, List.mem_singleton,
      List.not_mem_nil, or_false] at hd
    omega
  by_cases hS : (if dr = 1 then 7 - r else if dr = -1 then r else if dc = 1 then 7 - c else c)
      ≤ ((8 : Nat) : Int)
  · exact slide_stable b color dr dc hd1 8 r c hS k
  · have hoob : (decide (r + dr < 0) || decide (r + dr ≥ 8) || decide (c + dc < 0) ||
          decide (c + dc ≥ 8)) = true := by
      simp only [Bool.or_eq_true, decide_eq_true_eq]
      rcases hd1 with rfl | rfl | ⟨rfl, rfl | rfl⟩ <;> simp at hS <;> omega
    rw [show 8 + k = (7 + k) + 1 from by omega, slide_succ, if_pos hoob,
      show (8 : Nat) = 7 + 1 from rfl, slide_succ, if_pos hoob]

/-- The loop range holds nothing but `0 ≤ r < 8`. -/
theorem of_mem_idx8 {r : Int} (h : r ∈ idx8) : 0 ≤ r ∧ r < 8 := by
  simp only [idx8, List.mem_cons, List.mem_singleton, List.not_mem_nil, or_false] at h
  omega

/-- The nested loops visit exactly the in-range squares. -/
theorem mem_allSquares_iff {s : Int × Int} : s ∈ allSquares ↔ isValidPosition s.1 s.2 = true := by
  constructor
  · intro h
    unfold allSquares at h
    rw [List.mem_flatMap] at h
    obtain ⟨r, hr, hs⟩ := h
    obtain ⟨c, hc, rfl⟩ := List.mem_map.1 hs
    have h1 := of_mem_idx8 hr
    have h2 := of_mem_idx8 hc
    simp only [isValidPosition, Bool.and_eq_true, decide_eq_true_eq]
    omega
  · intro h
    exact mem_allSquares h

/-- The candidates of `isCheckmate` are the pseudo-legal moves of the own pieces
on in-range squares. -/
theorem mem_ownCandidates_iff {b : ChessBoard} {kingColor : PieceColor}
    {x : (Int × Int) × (Int × Int)} :
    x ∈ ownCandidates b kingColor ↔
      isValidPosition x.1.1 x.1.2 = true ∧ (getPieceAt b x.1.1 x.1.2).isEmpty = false ∧
        (getPieceAt b x.1.1 x.1.2).color = kingColor ∧ x.2 ∈ getPossibleMoves b x.1.1 x.1.2 := by
  unfold ownCandidates
  rw [List.mem_flatMap]
  constructor
  · rintro ⟨s, hs, hx⟩
    simp only [] at hx
    split_ifs at hx with hc
    · obtain ⟨m, hm, rfl⟩ := List.mem_map.1 hx
      simp only [Bool.and_eq_true, Bool.not_eq_true', beq_iff_eq] at hc
      exact ⟨mem_allSquares_iff.1 hs, hc.1, hc.2, hm⟩
    · simp at hx
  · rintro ⟨hv, he, hc, hm⟩
    refine ⟨x.1, mem_allSquares hv, ?_⟩
    simp only [he, hc, Bool.not_false, Bool.true_and, beq_self_eq_true, if_true]
    exact List.mem_map.2 ⟨x.2, hm, rfl⟩

/-- A result of the search of `isCheckmate` is true exactly when every candidate
exposes the king. -/
theorem searchEscape_some_iff {b : ChessBoard} {w : Bool} :
    ∀ {l : List ((Int × Int) × (Int × Int))} {v : Bool}, searchEscape b w l = some v →
      (v = true ↔ ∀ x ∈ l, wouldMoveExposeKing b x.1.1 x.1.2 x.2.1 x.2.2 w = true)
  | [], v, h => by
    simp only [searchEscape, Option.some.injEq] at h
    simp [← h]
  | (s, move) :: rest, v, h => by
    unfold searchEscape at h
    split_ifs at h with h1 h2
    · simp only [Option.some.injEq] at h
      simp only [Bool.not_eq_true', ] at h2
      subst h
      simp only [Bool.false_eq_true, List.mem_cons, forall_eq_or_imp, false_iff, not_and]
      intro hx
      rw [h2] at hx
      simp at hx
    · simp only [Bool.not_eq_true', Bool.not_eq_false] at h2
      rw [searchEscape_some_iff h]
      simp only [List.mem_cons, forall_eq_or_imp, h2, true_and]

/-- The search of `isCheckmate` has a result when every candidate's destination
is in range. -/
theorem searchEscape_defined {b : ChessBoard} {w : Bool} :
    ∀ {l : List ((Int × Int) × (Int × Int))},
      (∀ x ∈ l, isValidPosition x.2.1 x.2.2 = true) → ∃ v, searchEscape b w l = some v
  | [], _ => ⟨true, rfl⟩
  | (s, move) :: rest, h => by
    unfold searchEscape
    have hv : isValidPosition move.1 move.2 = true := h (s, move) (List.mem_cons_self _ _)
    simp only [hv, Bool.not_true, Bool.false_eq_true, if_false]
    split_ifs
    · exact ⟨false, rfl⟩
    · exact searchEscape_defined (fun x hx => h x (List.mem_cons_of_mem _ hx))

/-- The three parts of the list `Pawn::getPossibleMoves` builds, for a direction
already decided. -/
theorem pawn_mem_iff (b : ChessBoard) (p : Piece) (row col : Int) (x : Int × Int) :
    x ∈ Pawn.getPossibleMoves p row col b ↔
      (x = (row + (if p.isWhite then -1 else 1), col) ∧
        (getPieceAt b (row + (if p.isWhite then -1 else 1)) col).isEmpty = true) ∨
      (x = (row + 2 * (if p.isWhite then -1 else 1), col) ∧
        ((p.isWhite = true ∧ row = 6) ∨ (p.isBlack = true ∧ row = 1)) ∧
        (getPieceAt b (row + (if p.isWhite then -1 else 1)) col).isEmpty = true ∧
        (getPieceAt b (row + 2 * (if p.isWhite then -1 else 1)) col).isEmpty = true) ∨
      (∃ offset : Int, (offset = -1 ∨ offset = 1) ∧
        x = (row + (if p.isWhite then -1 else 1), col + offset) ∧
        0 ≤ col + offset ∧ col + offset < 8 ∧
        (getPieceAt b (row + (if p.isWhite then -1 else 1)) (col + offset)).isEmpty = false ∧
        (getPieceAt b (row + (if p.isWhite then -1 else 1)) (col + offset)).color ≠ p.color) ∨
      (x = (row + (if p.isWhite then -1 else 1), b.enPassantCol) ∧ b.enPassantCol ≠ -1 ∧
        ((p.isWhite = true ∧ row = 3) ∨ (p.isBlack = true ∧ row = 4)) ∧
        (col - b.enPassantCol).natAbs = 1) := by
  unfold Pawn.getPossibleMoves
  simp only [List.mem_append, List.mem_map, List.mem_filter, or_assoc]
  generalize (if p.isWhite = true then (-1 : Int) else 1) = d
  have hfwd : x ∈ (if (getPieceAt b (row + d) col).isEmpty
        = true then
      (row + d, col) ::
        (if (p.isWhite && row == 6 || p.isBlack && row == 1) = true then
          (if (getPieceAt b (row + 2 * d) col).isEmpty = true
            then [(row + 2 * d, col)] else [])
        else [])
      else []) ↔
      (x = (row + d, col) ∧
        (getPieceAt b (row + d) col).isEmpty = true) ∨
      (x = (row + 2 * d, col) ∧
        ((p.isWhite = true ∧ row = 6) ∨ (p.isBlack = true ∧ row = 1)) ∧
        (getPieceAt b (row + d) col).isEmpty = true ∧
        (getPieceAt b (row + 2 * d) col).isEmpty = true) := by
    have hh : ((p.isWhite && row == 6 || p.isBlack && row == 1) = true) ↔
        ((p.isWhite = true ∧ row = 6) ∨ (p.isBlack = true ∧ row = 1)) := by simp
    by_cases he1 : (getPieceAt b (row + d) col).isEmpty = true
    · by_cases h6 : (p.isWhite && row == 6 || p.isBlack && row == 1) = true
      · have h6' := hh.1 h6
        by_cases he2 : (getPieceAt b (row + 2 * d) col).isEmpty
            = true
        · simp [he1, h6, he2, h6']
        · simp [he1, h6, he2, h6']
      · have h6' := mt hh.2 h6
        simp [he1, h6, h6']
    · simp [he1]
  have hcap : (∃ a, (a ∈ ([-1, 1] : List Int) ∧
      (decide (col + a ≥ 0) && decide (col + a < 8) &&
        (!(getPieceAt b (row + d) (col + a)).isEmpty &&
          (getPieceAt b (row + d) (col + a)).color != p.color))
        = true) ∧ (row + d, col + a) = x) ↔
      (∃ offset : Int, (offset = -1 ∨ offset = 1) ∧
        x = (row + d, col + offset) ∧
        0 ≤ col + offset ∧ col + offset < 8 ∧
        (getPieceAt b (row + d) (col + offset)).isEmpty = false ∧
        (getPieceAt b (row + d) (col + offset)).color ≠ p.color) := by
    constructor
    · rintro ⟨a, ⟨ha, hc⟩, rfl⟩
      simp only [List.mem_cons, List.mem_singleton, List.not_mem_nil, or_false] at ha
      simp only [Bool.and_eq_true, decide_eq_true_eq, Bool.not_eq_true', bne_iff_ne, ne_eq] at hc
      exact ⟨a, ha, rfl, hc.1.1, hc.1.2, hc.2.1, hc.2.2⟩
    · rintro ⟨a, ha, rfl, h0, h8, he, hc⟩
      refine ⟨a, ⟨by simpa using ha, ?_⟩, rfl⟩
      simp only [Bool.and_eq_true, decide_eq_true_eq, Bool.not_eq_true', bne_iff_ne, ne_eq]
      exact ⟨⟨h0, h8⟩, he, hc⟩
  have hep : x ∈ (if (b.enPassantCol != -1) = true then
      if (p.isWhite && row == 3 || p.isBlack && row == 4) = true then
        if ((col - b.enPassantCol).natAbs == 1) = true then
          [(row + d, b.enPassantCol)]
        else []
      else []
    else []) ↔
      (x = (row + d, b.enPassantCol) ∧ b.enPassantCol ≠ -1 ∧
        ((p.isWhite = true ∧ row = 3) ∨ (p.isBlack = true ∧ row = 4)) ∧
        (col - b.enPassantCol).natAbs = 1) := by
    have hh : ((p.isWhite && row == 3 || p.isBlack && row == 4) = true) ↔
        ((p.isWhite = true ∧ row = 3) ∨ (p.isBlack = true ∧ row = 4)) := by simp
    by_cases h1 : (b.enPassantCol != -1) = true
    · have h1' : b.enPassantCol ≠ -1 := by simpa using h1
      by_cases h2 : (p.isWhite && row == 3 || p.isBlack && row == 4) = true
      · have h2' := hh.1 h2
        by_cases h3 : ((col - b.enPassantCol).natAbs == 1) = true
        · have h3' : (col - b.enPassantCol).natAbs = 1 := by simpa using h3
          simp [h1, h2, h3, h1', h2', h3']
        · have h3' : ¬ (col - b.enPassantCol).natAbs = 1 := by simpa using h3
          simp [h1, h2, h3, h3']
      · have h2' := mt hh.2 h2
        simp [h1, h2, h2']
    · have h1' : b.enPassantCol = -1 := by simpa using h1
      simp [h1, h1']
  rw [hfwd, hcap, hep, or_assoc]

/-- Membership in the list `King::getPossibleMoves` builds: a step to an adjacent
square, or one of the two castling destinations. -/
theorem king_mem_iff (b : ChessBoard) (p : Piece) (row col : Int) (x : Int × Int) :
    x ∈ King.getPossibleMoves p row col b ↔
      ((∃ off ∈ kingOffsets, x = (row + off.1, col + off.2)) ∧
        isValidPosition x.1 x.2 = true ∧
        ((getPieceAt b x.1 x.2).isEmpty = true ∨ (getPieceAt b x.1 x.2).color ≠ p.color)) ∨
      (p.hasMoved = false ∧ row = (if p.color = PieceColor.WHITE then 7 else 0) ∧ col = 4 ∧
        ((x = (row, 6) ∧ (getPieceAt b row 5).isEmpty = true ∧
            (getPieceAt b row 6).isEmpty = true ∧
            (getPieceAt b row 7).type = PieceType.ROOK ∧
            (getPieceAt b row 7).color = p.color ∧ (getPieceAt b row 7).hasMoved = false) ∨
         (x = (row, 2) ∧ (getPieceAt b row 1).isEmpty = true ∧
            (getPieceAt b row 2).isEmpty = true ∧ (getPieceAt b row 3).isEmpty = true ∧
            (getPieceAt b row 0).type = PieceType.ROOK ∧
            (getPieceAt b row 0).color = p.color ∧ (getPieceAt b row 0).hasMoved = false))) := by
  unfold King.getPossibleMoves
  simp only [List.mem_append, List.mem_filter, List.mem_map]
  apply or_congr
  · simp only [isValidPosition, Bool.and_eq_true, decide_eq_true_eq, Bool.or_eq_true,
      bne_iff_ne, ne_eq, ge_iff_le]
    constructor
    · rintro ⟨⟨off, ho, rfl⟩, h⟩
      exact ⟨⟨off, ho, rfl⟩, h.1, h.2⟩
    · rintro ⟨⟨off, ho, rfl⟩, h1, h2⟩
      exact ⟨⟨off, ho, rfl⟩, h1, h2⟩
  · by_cases hm : p.hasMoved = true
    · simp [hm]
    simp only [Bool.not_eq_true] at hm
    by_cases hw : p.color = PieceColor.WHITE
    · by_cases hrc : row = 7 ∧ col = 4
      · obtain ⟨rfl, rfl⟩ := hrc
        simp [hm, hw, and_assoc]
        tauto
      · have : ¬ (row = 7 ∧ col = 4) := hrc
        simp [hm, hw, this]
        intro h1 h2
        exact absurd ⟨h1, h2⟩ this
    · by_cases hrc : row = 0 ∧ col = 4
      · obtain ⟨rfl, rfl⟩ := hrc
        simp [hm, hw, and_assoc]
        tauto
      · have : ¬ (row = 0 ∧ col = 4) := hrc
        simp [hm, hw, this]
        intro h1 h2
        exact absurd ⟨h1, h2⟩ this

/-- The offsets of the king's step loops are the eight neighbours. -/
theorem kingOffsets_iff (row col : Int) (x : Int × Int) :
    (∃ off ∈ kingOffsets, x = (row + off.1, col + off.2)) ↔
      ((x.1 - row).natAbs ≤ 1 ∧ (x.2 - col).natAbs ≤ 1 ∧ x ≠ (row, col)) := by
  obtain ⟨x1, x2⟩ := x
  simp only [kingOffsets, List.mem_cons, List.mem_singleton, List.not_mem_nil, or_false,
    Prod.mk.injEq, ne_eq, not_and]
  constructor
  · rintro ⟨off, ho, h1, h2⟩
    rcases ho with rfl | rfl | rfl | rfl | rfl | rfl | rfl | rfl <;> simp only at h1 h2 <;>
      refine ⟨by omega, by omega, fun _ => by omega⟩
  · rintro ⟨h1, h2, h3⟩
    refine ⟨(x1 - row, x2 - col), ?_, by omega, by omega⟩
    have hr : x1 - row = -1 ∨ x1 - row = 0 ∨ x1 - row = 1 := by omega
    have hc : x2 - col = -1 ∨ x2 - col = 0 ∨ x2 - col = 1 := by omega
    have hne : ¬ (x1 - row = 0 ∧ x2 - col = 0) := fun h => h3 (by omega) (by omega)
    rcases hr with hr | hr | hr <;> rcases hc with hc | hc | hc <;> rw [hr, hc] <;>
      first
        | (simp; done)
        | exact absurd (And.intro hr hc) hne

/-- Every square `slide` lists is in range. -/
theorem slide_mem_valid (b : ChessBoard) (color : PieceColor) (dr dc : Int) :
    ∀ (fuel : Nat) (r c : Int) (x : Int × Int), x ∈ slide b color dr dc fuel r c →
      isValidPosition x.1 x.2 = true
  | 0, _, _, x, h => by simp [slide] at h
  | fuel + 1, r, c, x, h => by
    unfold slide at h
    simp only [] at h
    split_ifs at h with hoob he hc
    · simp at h
    · simp only [Bool.or_eq_true, decide_eq_true_eq, not_or, not_lt, ge_iff_le, not_le] at hoob
      rcases List.mem_cons.1 h with rfl | h
      · simp only [isValidPosition, Bool.and_eq_true, decide_eq_true_eq]
        omega
      · exact slide_mem_valid b color dr dc fuel _ _ x h
    · simp only [Bool.or_eq_true, decide_eq_true_eq, not_or, not_lt, ge_iff_le, not_le] at hoob
      simp only [List.mem_singleton] at h
      subst h
      simp only [isValidPosition, Bool.and_eq_true, decide_eq_true_eq]
      omega
    · simp at h

/-- The sliding pieces and the knight only list in-range squares. -/
theorem slider_mem_valid {b : ChessBoard} {color : PieceColor} {row col : Int}
    {dirs : List (Int × Int)} {x : Int × Int}
    (h : x ∈ dirs.flatMap (fun dir => slide b color dir.1 dir.2 8 row col)) :
    isValidPosition x.1 x.2 = true := by
  obtain ⟨dir, -, hx⟩ := List.mem_flatMap.1 h
  exact slide_mem_valid b color dir.1 dir.2 8 row col x hx

/-- No destination a piece on an in-range square lists is `(-1, -1)`. -/
theorem sentinel_not_mem_getPossibleMoves {b : ChessBoard} {row col : Int}
    (hv : isValidPosition row col = true) : ((-1 : Int), (-1 : Int)) ∉ getPossibleMoves b row col := by
  have hvv := hv
  simp only [isValidPosition, Bool.and_eq_true, decide_eq_true_eq] at hvv
  have hval : ∀ l : List (Int × Int), (∀ x ∈ l, isValidPosition x.1 x.2 = true) →
      ((-1 : Int), (-1 : Int)) ∉ l := by
    intro l hl hm
    have := hl _ hm
    simp [isValidPosition] at this
  unfold getPossibleMoves
  simp only []
  split_ifs with he
  swap
  · simp
  unfold Piece.getPossibleMoves
  split
  · simp
  · -- pawn
    rw [pawn_mem_iff]
    simp only [Prod.mk.injEq]
    rintro (⟨⟨-, h⟩, -⟩ | ⟨⟨-, h⟩, -⟩ | ⟨o, -, ⟨-, h⟩, h0, -⟩ | ⟨⟨h, -⟩, -, hr, -⟩)
    · omega
    · omega
    · omega
    · rcases hr with ⟨hw, rfl⟩ | ⟨hb, rfl⟩
      · simp [hw] at h
      · have hnw : (getPieceAt b 4 col).isWhite = false := by
          simp only [Piece.isBlack, beq_iff_eq] at hb
          simp [Piece.isWhite, hb]
        simp [hnw] at h
  · exact hval _ (fun x hx => slider_mem_valid hx)
  · apply hval
    intro x hx
    unfold Knight.getPossibleMoves at hx
    simp only [List.mem_filter, Bool.and_eq_true] at hx
    exact hx.2.1
  · exact hval _ (fun x hx => slider_mem_valid hx)
  · exact hval _ (fun x hx => slider_mem_valid hx)
  · -- king
    rw [king_mem_iff]
    rintro (⟨-, h, -⟩ | ⟨-, -, -, h | h⟩)
    · simp [isValidPosition] at h
    · simp at h
    · simp at h

/-- Without a king of `kingColor` on the board, the first loop nest of
`isKingInCheck` leaves `kingRow` at -1. -/
theorem findKing_of_no_king {b : ChessBoard} {kingColor : PieceColor}
    (h : ∀ row col : Int, isValidPosition row col = true →
      ¬ ((getPieceAt b row col).type = PieceType.KING ∧ (getPieceAt b row col).color = kingColor)) :
    findKing b kingColor = (-1, -1) := by
  unfold findKing
  have : allSquares.find? (fun s =>
      (getPieceAt b s.1 s.2).type == PieceType.KING &&
        (getPieceAt b s.1 s.2).color == kingColor) = none := by
    rw [List.find?_eq_none]
    intro s hs
    have := h s.1 s.2 (mem_allSquares_iff.1 hs)
    simpa using this
  rw [this]

/-- Without a king of `kingColor`, `isKingInCheck` returns false. -/
theorem isKingInCheck_of_no_king {b : ChessBoard} {kingColor : PieceColor}
    (h : ∀ row col : Int, isValidPosition row col = true →
      ¬ ((getPieceAt b row col).type = PieceType.KING ∧ (getPieceAt b row col).color = kingColor)) :
    isKingInCheck b kingColor = false := by
  unfold isKingInCheck
  simp [findKing_of_no_king h]

/-- The content of a square of the hypothetical board: nothing, a copy of the
piece `b` has there, or the copy of the mover. -/
theorem hypotheticalBoard_board (b : ChessBoard) (fromRow fromCol toRow toCol : Int) (w : Bool)
    (r c : Int) :
    (hypotheticalBoard b fromRow fromCol toRow toCol w).board r c = none ∨
    (∃ hm, (hypotheticalBoard b fromRow fromCol toRow toCol w).board r c =
        some ⟨(getPieceAt b r c).type, (getPieceAt b r c).color, hm⟩) ∨
    (hypotheticalBoard b fromRow fromCol toRow toCol w).board r c =
        some ⟨(getPieceAt b fromRow fromCol).type, (getPieceAt b fromRow fromCol).color, true⟩ := by
  unfold hypotheticalBoard
  simp only [newPiece, Piece.setHasMoved]
  generalize getPieceAt b fromRow fromCol = mp
  split_ifs with hmv
  · simp only [storeAt]
    split_ifs
    · right; right; rfl
    all_goals first
      | (left; rfl)
      | (right; left; exact ⟨_, rfl⟩)
  · simp only []
    split_ifs
    all_goals first
      | (left; rfl)
      | (right; left; exact ⟨_, rfl⟩)

/-- A piece of the hypothetical board has the type and colour of the piece of
`b` on the same square, or of the mover. -/
theorem hypotheticalBoard_piece (b : ChessBoard) (fromRow fromCol toRow toCol : Int) (w : Bool)
    (r c : Int) :
    (getPieceAt (hypotheticalBoard b fromRow fromCol toRow toCol w) r c).type = PieceType.NONE ∨
    ((getPieceAt (hypotheticalBoard b fromRow fromCol toRow toCol w) r c).type =
        (getPieceAt b r c).type ∧
      (getPieceAt (hypotheticalBoard b fromRow fromCol toRow toCol w) r c).color =
        (getPieceAt b r c).color) ∨
    ((getPieceAt (hypotheticalBoard b fromRow fromCol toRow toCol w) r c).type =
        (getPieceAt b fromRow fromCol).type ∧
      (getPieceAt (hypotheticalBoard b fromRow fromCol toRow toCol w) r c).color =
        (getPieceAt b fromRow fromCol).color) := by
  by_cases hv : isValidPosition r c = true
  swap
  · left; simp [getPieceAt, hv, emptyPiece]
  rw [getPieceAt]
  simp only [hv, if_true]
  rcases hypotheticalBoard_board b fromRow fromCol toRow toCol w r c with h | ⟨hm, h⟩ | h
  · left; rw [h]; rfl
  · right; left; rw [h]; exact ⟨rfl, rfl⟩
  · right; right; rw [h]; exact ⟨rfl, rfl⟩

/-- Without a king of the mover's side on the board, the legality filter never
reports an exposed king. -/
theorem wouldMoveExposeKing_of_no_king {b : ChessBoard} {w : Bool}
    (h : ∀ row col : Int, isValidPosition row col = true →
      ¬ ((getPieceAt b row col).type = PieceType.KING ∧
        (getPieceAt b row col).color = sideColor w))
    (fromRow fromCol toRow toCol : Int) :
    wouldMoveExposeKing b fromRow fromCol toRow toCol w = false := by
  have hall : ∀ row col : Int,
      ¬ ((getPieceAt b row col).type = PieceType.KING ∧
        (getPieceAt b row col).color = sideColor w) := by
    intro row col
    by_cases hv : isValidPosition row col = true
    · exact h row col hv
    · simp [getPieceAt, hv, emptyPiece]
  unfold wouldMoveExposeKing
  apply isKingInCheck_of_no_king
  intro row col _ hk
  rcases hypotheticalBoard_piece b fromRow fromCol toRow toCol w row col with h1 | h1 | h1
  · rw [hk.1] at h1; exact absurd h1 (by decide)
  · exact hall row col ⟨h1.1 ▸ hk.1, h1.2 ▸ hk.2⟩
  · exact hall fromRow fromCol ⟨h1.1 ▸ hk.1, h1.2 ▸ hk.2⟩

/-- Without a king of the player on the board, the first loop nest of
`isInCheck` leaves `kingPos` at `(-1, -1)`. -/
theorem findPlayerKing_of_no_king {b : ChessBoard} {w : Bool}
    (h : ∀ row col : Int, isValidPosition row col = true →
      ¬ ((getPieceAt b row col).type = PieceType.KING ∧
        (getPieceAt b row col).color = sideColor w)) :
    findPlayerKing b w = (-1, -1) := by
  unfold findPlayerKing
  have : allSquares.find? (fun s =>
      (getPieceAt b s.1 s.2).type == PieceType.KING &&
        ((w && (getPieceAt b s.1 s.2).isWhite) ||
          (!w && (getPieceAt b s.1 s.2).isBlack))) = none := by
    rw [List.find?_eq_none]
    intro s hs
    have := h s.1 s.2 (mem_allSquares_iff.1 hs)
    cases w <;> simpa [sideColor, Piece.isWhite, Piece.isBlack] using this
  rw [this]

/-- Membership in the ray `slide` builds: the `n`-th square of the ray for some
`n` within the fuel, reached over in-range empty squares, and itself empty or
held by another colour. -/
theorem slide_mem_iff (b : ChessBoard) (color : PieceColor) (dr dc : Int) :
    ∀ (fuel : Nat) (r c : Int) (x : Int × Int),
      x ∈ slide b color dr dc fuel r c ↔
        ∃ n : Nat, 1 ≤ n ∧ n ≤ fuel ∧ x = (r + n * dr, c + n * dc) ∧
          (∀ m : Nat, 1 ≤ m → m ≤ n → isValidPosition (r + m * dr) (c + m * dc) = true) ∧
          (∀ m : Nat, 1 ≤ m → m < n → (getPieceAt b (r + m * dr) (c + m * dc)).isEmpty = true) ∧
          ((getPieceAt b x.1 x.2).isEmpty = true ∨ (getPieceAt b x.1 x.2).color ≠ color) := by
  intro fuel
  induction fuel with
  | zero =>
    intro r c x
    simp only [slide, List.not_mem_nil, false_iff, not_exists, not_and]
    intro n h1 h0
    omega
  | succ fuel ih =>
    intro r c x
    have hstep : ∀ m : Nat, r + ((m + 1 : Nat) : Int) * dr = (r + dr) + (m : Int) * dr := by
      intro m; push_cast; ring
    have hstepc : ∀ m : Nat, c + ((m + 1 : Nat) : Int) * dc = (c + dc) + (m : Int) * dc := by
      intro m; push_cast; ring
    have h1r : r + ((1 : Nat) : Int) * dr = r + dr := by push_cast; ring
    have h1c : c + ((1 : Nat) : Int) * dc = c + dc := by push_cast; ring
    rw [slide]
    simp only []
    by_cases hoob : (decide (r + dr < 0) || decide (r + dr ≥ 8) || decide (c + dc < 0) ||
        decide (c + dc ≥ 8)) = true
    · rw [if_pos hoob]
      simp only [List.not_mem_nil, false_iff, not_exists, not_and]
      intro n hn1 _ _ hval
      have := hval 1 (le_refl 1) hn1
      rw [h1r, h1c] at this
      simp only [Bool.or_eq_true, decide_eq_true_eq] at hoob
      simp only [isValidPosition, Bool.and_eq_true, decide_eq_true_eq] at this
      omega
    rw [if_neg hoob]
    have hv1 : isValidPosition (r + dr) (c + dc) = true := by
      simp only [Bool.or_eq_true, decide_eq_true_eq, not_or, not_lt, ge_iff_le, not_le] at hoob
      simp only [isValidPosition, Bool.and_eq_true, decide_eq_true_eq]
      omega
    -- the shape of a witness `n` seen from the next square
    have hshift : ∀ n : Nat,
        ((n + 1) + 1 ≤ fuel + 1 ∧ x = (r + ((n + 1 + 1 : Nat) : Int) * dr,
            c + ((n + 1 + 1 : Nat) : Int) * dc) ∧
          (∀ m : Nat, 1 ≤ m → m ≤ n + 1 + 1 → isValidPosition (r + m * dr) (c + m * dc) = true) ∧
          (∀ m : Nat, 1 ≤ m → m < n + 1 + 1 →
            (getPieceAt b (r + m * dr) (c + m * dc)).isEmpty = true)) ↔
        ((getPieceAt b (r + dr) (c + dc)).isEmpty = true ∧ n + 1 ≤ fuel ∧
          x = ((r + dr) + ((n + 1 : Nat) : Int) * dr, (c + dc) + ((n + 1 : Nat) : Int) * dc) ∧
          (∀ m : Nat, 1 ≤ m → m ≤ n + 1 →
            isValidPosition ((r + dr) + m * dr) ((c + dc) + m * dc) = true) ∧
          (∀ m : Nat, 1 ≤ m → m < n + 1 →
            (getPieceAt b ((r + dr) + m * dr) ((c + dc) + m * dc)).isEmpty = true)) := by
      intro n
      rw [hstep (n + 1), hstepc (n + 1)]
      constructor
      · rintro ⟨hf, hx, hval, hemp⟩
        refine ⟨?_, by omega, hx, ?_, ?_⟩
        · have := hemp 1 (le_refl 1) (by omega)
          rwa [h1r, h1c] at this
        · intro m hm1 hmn
          have := hval (m + 1) (by omega) (by omega)
          rwa [hstep m, hstepc m] at this
        · intro m hm1 hmn
          have := hemp (m + 1) (by omega) (by omega)
          rwa [hstep m, hstepc m] at this
      · rintro ⟨he, hf, hx, hval, hemp⟩
        refine ⟨by omega, hx, ?_, ?_⟩
        · intro m hm1 hmn
          obtain ⟨m', rfl⟩ : ∃ m', m = m' + 1 := ⟨m - 1, by omega⟩
          rw [hstep m', hstepc m']
          by_cases h0 : m' = 0
          · subst h0; simpa using hv1
          · exact hval m' (by omega) (by omega)
        · intro m hm1 hmn
          obtain ⟨m', rfl⟩ : ∃ m', m = m' + 1 := ⟨m - 1, by omega⟩
          rw [hstep m', hstepc m']
          by_cases h0 : m' = 0
          · subst h0; simpa using he
          · exact hemp m' (by omega) (by omega)
    -- a witness is 1 or lies beyond the next square
    have hsplit : (∃ n : Nat, 1 ≤ n ∧ n ≤ fuel + 1 ∧ x = (r + n * dr, c + n * dc) ∧
          (∀ m : Nat, 1 ≤ m → m ≤ n → isValidPosition (r + m * dr) (c + m * dc) = true) ∧
          (∀ m : Nat, 1 ≤ m → m < n → (getPieceAt b (r + m * dr) (c + m * dc)).isEmpty = true) ∧
          ((getPieceAt b x.1 x.2).isEmpty = true ∨ (getPieceAt b x.1 x.2).color ≠ color)) ↔
        ((x = (r + dr, c + dc) ∧
            ((getPieceAt b x.1 x.2).isEmpty = true ∨ (getPieceAt b x.1 x.2).color ≠ color)) ∨
          ((getPieceAt b (r + dr) (c + dc)).isEmpty = true ∧
            x ∈ slide b color dr dc fuel (r + dr) (c + dc))) := by
      rw [ih]
      constructor
      · rintro ⟨n, hn1, hnf, hx, hval, hemp, hend⟩
        obtain ⟨n', rfl⟩ : ∃ n', n = n' + 1 := ⟨n - 1, by omega⟩
        by_cases h0 : n' = 0
        · subst h0
          left
          rw [h1r, h1c] at hx
          exact ⟨hx, hend⟩
        · obtain ⟨k, rfl⟩ : ∃ k, n' = k + 1 := ⟨n' - 1, by omega⟩
          right
          obtain ⟨he, hf, hx', hval', hemp'⟩ := (hshift k).1 ⟨hnf, hx, hval, hemp⟩
          exact ⟨he, k + 1, by omega, hf, hx', hval', hemp', hend⟩
      · rintro (⟨hx, hend⟩ | ⟨he, n, hn1, hnf, hx, hval, hemp, hend⟩)
        · refine ⟨1, le_refl 1, by omega, by rw [h1r, h1c]; exact hx, ?_, ?_, hend⟩
          · intro m hm1 hmn
            obtain rfl : m = 1 := by omega
            rw [h1r, h1c]; exact hv1
          · intro m hm1 hmn
            omega
        · obtain ⟨k, rfl⟩ : ∃ k, n = k + 1 := ⟨n - 1, by omega⟩
          obtain ⟨hf', hx', hval', hemp'⟩ := (hshift k).2 ⟨he, hnf, hx, hval, hemp⟩
          exact ⟨k + 1 + 1, by omega, hf', hx', hval', hemp', hend⟩
    rw [hsplit]
    by_cases he : (getPieceAt b (r + dr) (c + dc)).isEmpty = true
    · rw [if_pos he]
      simp only [List.mem_cons, he, true_and]
      constructor
      · rintro (rfl | h)
        · exact Or.inl ⟨rfl, Or.inl he⟩
        · exact Or.inr h
      · rintro (⟨rfl, -⟩ | h)
        · exact Or.inl rfl
        · exact Or.inr h
    · rw [if_neg he]
      by_cases hc : ((getPieceAt b (r + dr) (c + dc)).color != color) = true
      · rw [if_pos hc]
        simp only [List.mem_singleton]
        constructor
        · rintro rfl
          exact Or.inl ⟨rfl, Or.inr (by simpa using hc)⟩
        · rintro (⟨h, -⟩ | ⟨h, -⟩)
          · exact h
          · exact absurd h he
      · rw [if_neg hc]
        simp only [List.not_mem_nil, false_iff, not_or, not_and]
        refine ⟨?_, fun h => absurd h he⟩
        rintro rfl
        exact ⟨he, by simpa using hc⟩

/-- The squares `onLineBetween` accepts, as inequalities. -/
theorem onLineBetween_iff (row col r k x y : Int) :
    onLineBetween row col r k x y = true ↔
      ((r = row ∧ x = row ∧ ((col < y ∧ y < k) ∨ (k < y ∧ y < col))) ∨
       (k = col ∧ y = col ∧ ((row < x ∧ x < r) ∨ (r < x ∧ x < row))) ∨
       ((r - row).natAbs = (k - col).natAbs ∧ ((row < x ∧ x < r) ∨ (r < x ∧ x < row)) ∧
         ((col < y ∧ y < k) ∨ (k < y ∧ y < col)) ∧ (x - row).natAbs = (y - col).natAbs)) := by
  simp only [onLineBetween, strictlyBetween, Bool.or_eq_true, Bool.and_eq_true, beq_iff_eq,
    decide_eq_true_eq, or_assoc, and_assoc]

/-- A square on a ray of the queen satisfies the description of the spec. -/
theorem ray_to_line {b : ChessBoard} {color : PieceColor} {row col : Int} {dr dc : Int}
    (hd : (dr, dc) ∈ queenDirections) {n : Nat} (hn : 1 ≤ n) {r k : Int}
    (hx : (r, k) = (row + n * dr, col + n * dc))
    (hval : ∀ m : Nat, 1 ≤ m → m ≤ n → isValidPosition (row + m * dr) (col + m * dc) = true)
    (hemp : ∀ m : Nat, 1 ≤ m → m < n →
      (getPieceAt b (row + m * dr) (col + m * dc)).isEmpty = true)
    (hend : (getPieceAt b r k).isEmpty = true ∨ (getPieceAt b r k).color ≠ color) :
    isValidPosition r k = true ∧ (r, k) ≠ (row, col) ∧
      (r = row ∨ k = col ∨ (r - row).natAbs = (k - col).natAbs) ∧
      (∀ x y : Int, onLineBetween row col r k x y = true → (getPieceAt b x y).isEmpty = true) ∧
      ((getPieceAt b r k).isEmpty = true ∨ (getPieceAt b r k).color ≠ color) := by
  simp only [Prod.mk.injEq] at hx
  obtain ⟨hr, hk⟩ := hx
  have hvn := hval n hn (le_refl n)
  rw [← hr, ← hk] at hvn
  simp only [queenDirections, List.mem_cons, Prod.mk.injEq, List.mem_singleton,
    List.not_mem_nil, or_false] at hd
  refine ⟨hvn, ?_, ?_, ?_, hend⟩
  · simp only [ne_eq, Prod.mk.injEq, not_and]
    rcases hd with h | h | h | h | h | h | h | h <;> obtain ⟨rfl, rfl⟩ := h <;> omega
  · rcases hd with h | h | h | h | h | h | h | h <;> obtain ⟨rfl, rfl⟩ := h <;> omega
  · intro x y hb
    rw [onLineBetween_iff] at hb
    -- the index of `(x, y)` on the ray
    have hm : ∃ m : Nat, 1 ≤ m ∧ m < n ∧ x = row + m * dr ∧ y = col + m * dc := by
      rcases hd with h | h | h | h | h | h | h | h <;> obtain ⟨rfl, rfl⟩ := h
      · exact ⟨(x - row).natAbs, by omega, by omega, by omega, by omega⟩
      · exact ⟨(y - col).natAbs, by omega, by omega, by omega, by omega⟩
      · exact ⟨(x - row).natAbs, by omega, by omega, by omega, by omega⟩
      · exact ⟨(y - col).natAbs, by omega, by omega, by omega, by omega⟩
      · exact ⟨(x - row).natAbs, by omega, by omega, by omega, by omega⟩
      · exact ⟨(x - row).natAbs, by omega, by omega, by omega, by omega⟩
      · exact ⟨(x - row).natAbs, by omega, by omega, by omega, by omega⟩
      · exact ⟨(x - row).natAbs, by omega, by omega, by omega, by omega⟩
    obtain ⟨m, hm1, hmn, rfl, rfl⟩ := hm
    exact hemp m hm1 hmn

/-- A square that satisfies the description of the spec is on a ray of the queen. -/
theorem line_to_ray {b : ChessBoard} {row col r k : Int}
    (hv : isValidPosition row col = true) (hrk : isValidPosition r k = true)
    (hne : (r, k) ≠ (row, col))
    (hline : r = row ∨ k = col ∨ (r - row).natAbs = (k - col).natAbs)
    (hbet : ∀ x y : Int, onLineBetween row col r k x y = true →
      (getPieceAt b x y).isEmpty = true) :
    ∃ dir ∈ queenDirections, ∃ n : Nat, 1 ≤ n ∧ n ≤ 8 ∧
      (r, k) = (row + n * dir.1, col + n * dir.2) ∧
      (∀ m : Nat, 1 ≤ m → m ≤ n →
        isValidPosition (row + m * dir.1) (col + m * dir.2) = true) ∧
      (∀ m : Nat, 1 ≤ m → m < n →
        (getPieceAt b (row + m * dir.1) (col + m * dir.2)).isEmpty = true) := by
  simp only [isValidPosition, Bool.and_eq_true, decide_eq_true_eq] at hv hrk
  simp only [ne_eq, Prod.mk.injEq, not_and] at hne
  -- the direction and the number of steps
  have hdir : ∃ dr dc : Int, (dr, dc) ∈ queenDirections ∧
      ∃ n : Nat, 1 ≤ n ∧ n ≤ 8 ∧ r = row + n * dr ∧ k = col + n * dc ∧
        (dr = 1 ∨ dr = -1 ∨ dr = 0) ∧ (dc = 1 ∨ dc = -1 ∨ dc = 0) := by
    have hmem : ∀ d : Int × Int, d ∈ queenDirections ↔
        (d = (-1, 0) ∨ d = (0, 1) ∨ d = (1, 0) ∨ d = (0, -1) ∨ d = (-1, -1) ∨ d = (-1, 1) ∨
          d = (1, -1) ∨ d = (1, 1)) := by
      intro d
      simp [queenDirections]
    rcases lt_trichotomy r row with h1 | h1 | h1 <;>
      rcases lt_trichotomy k col with h2 | h2 | h2
    · exact ⟨-1, -1, by rw [hmem]; simp, (row - r).toNat, by omega, by omega, by omega, by omega,
        by simp, by simp⟩
    · exact ⟨-1, 0, by rw [hmem]; simp, (row - r).toNat, by omega, by omega, by omega, by omega,
        by simp, by simp⟩
    · exact ⟨-1, 1, by rw [hmem]; simp, (row - r).toNat, by omega, by omega, by omega, by omega,
        by simp, by simp⟩
    · exact ⟨0, -1, by rw [hmem]; simp, (col - k).toNat, by omega, by omega, by omega, by omega,
        by simp, by simp⟩
    · exact absurd h2 (hne h1)
    · exact ⟨0, 1, by rw [hmem]; simp, (k - col).toNat, by omega, by omega, by omega, by omega,
        by simp, by simp⟩
    · exact ⟨1, -1, by rw [hmem]; simp, (r - row).toNat, by omega, by omega, by omega, by omega,
        by simp, by simp⟩
    · exact ⟨1, 0, by rw [hmem]; simp, (r - row).toNat, by omega, by omega, by omega, by omega,
        by simp, by simp⟩
    · exact ⟨1, 1, by rw [hmem]; simp, (r - row).toNat, by omega, by omega, by omega, by omega,
        by simp, by simp⟩
  obtain ⟨dr, dc, hd, n, hn1, hn8, hr, hk, hdr, hdc⟩ := hdir
  have hnz : ¬ (dr = 0 ∧ dc = 0) := by
    rintro ⟨rfl, rfl⟩
    exact hne (by omega) (by omega)
  refine ⟨(dr, dc), hd, n, hn1, hn8, by rw [hr, hk], ?_, ?_⟩
  · intro m hm1 hmn
    simp only [isValidPosition, Bool.and_eq_true, decide_eq_true_eq]
    rcases hdr with rfl | rfl | rfl <;> rcases hdc with rfl | rfl | rfl <;> omega
  · intro m hm1 hmn
    apply hbet
    rw [onLineBetween_iff]
    rcases hdr with rfl | rfl | rfl <;> rcases hdc with rfl | rfl | rfl <;>
      omega

/-- A direction of the queen names its two components. -/
theorem queenDirections_cases {dr dc : Int} (hd : (dr, dc) ∈ queenDirections) :
    (dr = 1 ∨ dr = -1 ∨ dr = 0) ∧ (dc = 1 ∨ dc = -1 ∨ dc = 0) ∧ ¬ (dr = 0 ∧ dc = 0) := by
  simp only [queenDirections, List.mem_cons, Prod.mk.injEq, List.mem_singleton,
    List.not_mem_nil, or_false] at hd
  omega

/-- No square is listed twice on a ray. -/
theorem slide_nodup (b : ChessBoard) (color : PieceColor) {dr dc : Int}
    (hd : (dr, dc) ∈ queenDirections) :
    ∀ (fuel : Nat) (r c : Int), (slide b color dr dc fuel r c).Nodup
  | 0, _, _ => by simp [slide]
  | fuel + 1, r, c => by
    rw [slide]
    simp only []
    split_ifs
    · exact List.nodup_nil
    · refine List.nodup_cons.2 ⟨?_, slide_nodup b color hd fuel _ _⟩
      rw [slide_mem_iff]
      rintro ⟨n, hn1, -, hx, -⟩
      simp only [Prod.mk.injEq] at hx
      obtain ⟨h1, h2, h3⟩ := queenDirections_cases hd
      rcases h1 with rfl | rfl | rfl <;> rcases h2 with rfl | rfl | rfl <;> omega
    · exact List.nodup_singleton _
    · exact List.nodup_nil

/-- Rays of different directions from one square share no square. -/
theorem slide_disjoint (b : ChessBoard) (color : PieceColor) (row col : Int) {d1 d2 : Int × Int}
    (h1 : d1 ∈ queenDirections) (h2 : d2 ∈ queenDirections) (hne : d1 ≠ d2) :
    List.Disjoint (slide b color d1.1 d1.2 8 row col) (slide b color d2.1 d2.2 8 row col) := by
  intro x hx1 hx2
  rw [slide_mem_iff] at hx1 hx2
  obtain ⟨n, hn1, -, hxn, -⟩ := hx1
  obtain ⟨m, hm1, -, hxm, -⟩ := hx2
  rw [hxn] at hxm
  simp only [Prod.mk.injEq] at hxm
  obtain ⟨a1, a2⟩ := d1
  obtain ⟨e1, e2⟩ := d2
  obtain ⟨ha1, ha2, -⟩ := queenDirections_cases h1
  obtain ⟨he1, he2, -⟩ := queenDirections_cases h2
  simp only [ne_eq, Prod.mk.injEq, not_and] at hne
  simp only at hxm
  rcases ha1 with rfl | rfl | rfl <;> rcases ha2 with rfl | rfl | rfl <;>
    rcases he1 with rfl | rfl | rfl <;> rcases he2 with rfl | rfl | rfl <;> omega

/-- Boards of the same view give the same `getPieceAt`. -/
theorem getPieceAt_congr {b1 b2 : ChessBoard} (h : sameView b1 b2) :
    getPieceAt b1 = getPieceAt b2 := by
  funext r c
  unfold getPieceAt
  split_ifs with hv
  · rw [h.1 r c hv]
  · rfl

/-- The ray loop reads the board through `getPieceAt` only. -/
theorem slide_congr {b1 b2 : ChessBoard} (hg : getPieceAt b1 = getPieceAt b2)
    (color : PieceColor) (dr dc : Int) :
    ∀ (fuel : Nat) (r c : Int), slide b1 color dr dc fuel r c = slide b2 color dr dc fuel r c
  | 0, _, _ => rfl
  | fuel + 1, r, c => by
    rw [slide, slide]
    simp only [hg, slide_congr hg color dr dc fuel]

/-- The virtual `getPossibleMoves` reads the board through `getPieceAt` and
`enPassantCol` only. -/
theorem Piece_getPossibleMoves_congr {b1 b2 : ChessBoard} (hg : getPieceAt b1 = getPieceAt b2)
    (hep : b1.enPassantCol = b2.enPassantCol) (p : Piece) (row col : Int) :
    p.getPossibleMoves row col b1 = p.getPossibleMoves row col b2 := by
  unfold Piece.getPossibleMoves
  split
  · rfl
  · simp only [Pawn.getPossibleMoves, hg, hep]
  · simp only [Rook.getPossibleMoves, slide_congr hg]
  · simp only [Knight.getPossibleMoves, hg]
  · simp only [Bishop.getPossibleMoves, slide_congr hg]
  · simp only [Queen.getPossibleMoves, slide_congr hg]
  · simp only [King.getPossibleMoves, hg]

/-- `ChessBoard::getPossibleMoves` gives the same list on boards of the same view. -/
theorem getPossibleMoves_congr {b1 b2 : ChessBoard} (hg : getPieceAt b1 = getPieceAt b2)
    (hep : b1.enPassantCol = b2.enPassantCol) (row col : Int) :
    getPossibleMoves b1 row col = getPossibleMoves b2 row col := by
  simp only [getPossibleMoves, hg, Piece_getPossibleMoves_congr hg hep]

/-- `isKingInCheck` gives the same answer on boards of the same view. -/
theorem isKingInCheck_congr {b1 b2 : ChessBoard} (hg : getPieceAt b1 = getPieceAt b2)
    (hep : b1.enPassantCol = b2.enPassantCol) (kingColor : PieceColor) :
    isKingInCheck b1 kingColor = isKingInCheck b2 kingColor := by
  simp only [isKingInCheck, findKing, hg, Piece_getPossibleMoves_congr hg hep]

/-- The hypothetical boards built from boards of the same view have the same
view. -/
theorem hypotheticalBoard_congr {b1 b2 : ChessBoard} (hg : getPieceAt b1 = getPieceAt b2)
    (hep : b1.enPassantCol = b2.enPassantCol) (fromRow fromCol toRow toCol : Int) (w : Bool) :
    sameView (hypotheticalBoard b1 fromRow fromCol toRow toCol w)
      (hypotheticalBoard b2 fromRow fromCol toRow toCol w) := by
  unfold hypotheticalBoard
  simp only [hg, hep]
  split_ifs
  · exact ⟨fun _ _ _ => rfl, rfl⟩
  · exact ⟨fun _ _ _ => rfl, rfl⟩

/-- The legality filter gives the same answer on boards of the same view. -/
theorem wouldMoveExposeKing_congr {b1 b2 : ChessBoard} (hg : getPieceAt b1 = getPieceAt b2)
    (hep : b1.enPassantCol = b2.enPassantCol) (fromRow fromCol toRow toCol : Int) (w : Bool) :
    wouldMoveExposeKing b1 fromRow fromCol toRow toCol w =
      wouldMoveExposeKing b2 fromRow fromCol toRow toCol w := by
  unfold wouldMoveExposeKing
  have h := hypotheticalBoard_congr hg hep fromRow fromCol toRow toCol w
  exact isKingInCheck_congr (getPieceAt_congr h) h.2 _

/-- The search of `isCheckmate` gives the same result on boards of the same view. -/
theorem searchEscape_congr {b1 b2 : ChessBoard} (hg : getPieceAt b1 = getPieceAt b2)
    (hep : b1.enPassantCol = b2.enPassantCol) (w : Bool) :
    ∀ l : List ((Int × Int) × (Int × Int)), searchEscape b1 w l = searchEscape b2 w l
  | [] => rfl
  | (s, move) :: rest => by
    rw [searchEscape, searchEscape]
    simp only [wouldMoveExposeKing_congr hg hep, searchEscape_congr hg hep w rest]

/-- `isCheckmate` and `isStalemate` give the same results on boards of the same
view. -/
theorem isCheckmate_congr {b1 b2 : ChessBoard} (h : sameView b1 b2) (w : Bool) :
    isCheckmate b1 w = isCheckmate b2 w ∧ isStalemate b1 w = isStalemate b2 w := by
  have hg := getPieceAt_congr h
  have hoc : ownCandidates b1 (sideColor w) = ownCandidates b2 (sideColor w) := by
    simp only [ownCandidates, hg, getPossibleMoves_congr hg h.2]
  unfold isCheckmate isStalemate
  simp only [isKingInCheck_congr hg h.2, hoc, searchEscape_congr hg h.2, and_self]

/-- A coordinate in range is one of the eight indices. -/
theorem idx8_cases {r : Int} (h0 : 0 ≤ r) (h8 : r < 8) :
    r = 0 ∨ r = 1 ∨ r = 2 ∨ r = 3 ∨ r = 4 ∨ r = 5 ∨ r = 6 ∨ r = 7 := by
  omega

/-- On the 64 squares `resetBoard` leaves the same content whatever the board
it is run on. -/
theorem resetBoardFrom_board (b : ChessBoard) {r c : Int} (hv : isValidPosition r c = true) :
    (resetBoardFrom b).board r c = resetBoard.board r c := by
  simp only [isValidPosition, Bool.and_eq_true, decide_eq_true_eq] at hv
  rcases idx8_cases hv.1.1.1 hv.1.1.2 with rfl | rfl | rfl | rfl | rfl | rfl | rfl | rfl <;>
    rcases idx8_cases hv.1.2 hv.2 with rfl | rfl | rfl | rfl | rfl | rfl | rfl | rfl <;> rfl

/-- The board `resetBoard` leaves has the view of the starting position. -/
theorem resetBoardFrom_sameView (b : ChessBoard) : sameView (resetBoardFrom b) resetBoard :=
  ⟨fun _ _ hv => resetBoardFrom_board b hv, rfl⟩

/-- The starting position, square by square, is the layout of the spec. -/
theorem resetBoard_board_eq {r c : Int} (hv : isValidPosition r c = true) :
    resetBoard.board r c = startingSquare r c := by
  simp only [isValidPosition, Bool.and_eq_true, decide_eq_true_eq] at hv
  rcases idx8_cases hv.1.1.1 hv.1.1.2 with rfl | rfl | rfl | rfl | rfl | rfl | rfl | rfl <;>
    rcases idx8_cases hv.1.2 hv.2 with rfl | rfl | rfl | rfl | rfl | rfl | rfl | rfl <;> rfl

/-- On an in-range square that holds a pawn, `promotePawn` stores a fresh piece of
the promoted type and of the colour of the pawn. -/
theorem promotePawn_of_pawn {b : ChessBoard} {row col : Int} {pawn : Piece} (t : PieceType)
    (hv : isValidPosition row col = true) (hp : b.board row col = some pawn)
    (ht : pawn.type = PieceType.PAWN) :
    promotePawn b row col t = storeAt b row col (some (newPiece (promotedType t) pawn.color)) := by
  unfold promotePawn
  simp only [hv, Bool.not_true, Bool.false_eq_true, if_false, getPieceAtPtr, if_true, hp, ht,
    bne_self_eq_false, setPieceAt]
  cases t <;> rfl

/-! ## Auxiliary facts about the game screen -/

theorem setPieceAt_enPassant (b : ChessBoard) (row col : Int) (piece : Option Piece) :
    (setPieceAt b row col piece).enPassantCol = b.enPassantCol ∧
      (setPieceAt b row col piece).enPassantRow = b.enPassantRow := by
  unfold setPieceAt
  split_ifs <;> simp

theorem promotePawn_enPassant (b : ChessBoard) (row col : Int) (t : PieceType) :
    (promotePawn b row col t).enPassantCol = b.enPassantCol ∧
      (promotePawn b row col t).enPassantRow = b.enPassantRow := by
  unfold promotePawn
  split_ifs
  · exact ⟨rfl, rfl⟩
  · cases getPieceAtPtr b row col with
    | none => exact ⟨rfl, rfl⟩
    | some piece =>
      simp only []
      split_ifs
      · exact ⟨rfl, rfl⟩
      · exact setPieceAt_enPassant _ _ _ _

theorem removePieceAt_enPassant (b : ChessBoard) (row col : Int) :
    (removePieceAt b row col).2.enPassantCol = b.enPassantCol ∧
      (removePieceAt b row col).2.enPassantRow = b.enPassantRow := by
  unfold removePieceAt
  split_ifs <;> simp

/-- A pawn changes its row by two only with the double step from its home row. -/
theorem pawn_two_rows {b : ChessBoard} {p : Piece} {row col r c : Int}
    (hm : (r, c) ∈ Pawn.getPossibleMoves p row col b) (h2 : (row - r).natAbs = 2) :
    c = col ∧ ((p.isWhite = true ∧ row = 6 ∧ r = 4) ∨ (p.isWhite = false ∧ row = 1 ∧ r = 3)) ∧
      (getPieceAt b ((row + r).tdiv 2) col).isEmpty = true ∧
      (getPieceAt b r col).isEmpty = true := by
  rw [pawn_mem_iff] at hm
  simp only [Prod.mk.injEq] at hm
  rcases hm with ⟨⟨hr, -⟩, -⟩ | ⟨⟨hr, hc⟩, hhome, he1, he2⟩ | ⟨o, -, ⟨hr, -⟩, -⟩ | ⟨⟨hr, -⟩, -⟩
  · exfalso; split_ifs at hr <;> omega
  · refine ⟨hc, ?_, ?_, ?_⟩
    · rcases hhome with ⟨hw, h6⟩ | ⟨hb, h1⟩
      · left; simp only [hw, if_true] at hr; exact ⟨hw, h6, by omega⟩
      · right
        have hw : p.isWhite = false := by
          simp only [Piece.isBlack, Piece.isWhite, beq_iff_eq] at hb ⊢
          simp [hb]
        simp only [hw, Bool.false_eq_true, if_false] at hr
        exact ⟨hw, h1, by omega⟩
    · rcases hhome with ⟨hw, h6⟩ | ⟨hb, h1⟩
      · simp only [hw, if_true] at hr he1
        subst h6 hr
        exact he1
      · have hw : p.isWhite = false := by
          simp only [Piece.isBlack, Piece.isWhite, beq_iff_eq] at hb ⊢
          simp [hb]
        simp only [hw, Bool.false_eq_true, if_false] at hr he1
        subst h1 hr
        exact he1
    · rw [hr]; exact he2
  · exfalso; split_ifs at hr <;> omega
  · exfalso; split_ifs at hr <;> omega

/-- An accepted `makeMove` leaves the en-passant fields within the invariant. -/
theorem makeMove_enPassantFieldsOk (b : ChessBoard) (fromRow fromCol toRow toCol : Int)
    (h : enPassantFieldsOk b) :
    enPassantFieldsOk (makeMove b fromRow fromCol toRow toCol).2 := by
  rcases makeMove_cases b fromRow fromCol toRow toCol with h0 | ⟨p, hvf, hvt, hp, hne, hm, h1 | h1⟩
  · rw [h0]; exact h
  · obtain ⟨hk, h2, -, -, -, heq⟩ := h1
    rw [heq]
    have hg : getPieceAt b fromRow fromCol = p := getPieceAt_of_board hvf hp
    have hgk : (getPieceAt b fromRow fromCol).type = PieceType.KING := by rw [hg]; exact hk
    rw [getPossibleMoves_king hgk] at hm
    have hrow := (king_two_columns hm h2).2.2.2.1
    have hep := completeMove_enPassant (relocateRook b fromRow (decide (toCol > fromCol))) p
      fromRow fromCol toRow toCol
    have hn : ¬ ((∃ q, (completeMove (relocateRook b fromRow (decide (toCol > fromCol))) p
        fromRow fromCol toRow toCol).board toRow toCol = some q ∧ q.type = PieceType.PAWN) ∧
        (fromRow - toRow).natAbs = 2) := by
      rintro ⟨-, h3⟩
      omega
    rw [if_neg hn] at hep
    simp only [Prod.mk.injEq] at hep
    simp only [enPassantFieldsOk, hep.1, hep.2]
    simp
  · obtain ⟨-, -, heq⟩ := h1
    rw [heq]
    have hep := completeMove_enPassant b p fromRow fromCol toRow toCol
    by_cases hc : (∃ q, (completeMove b p fromRow fromCol toRow toCol).board toRow toCol = some q ∧
        q.type = PieceType.PAWN) ∧ (fromRow - toRow).natAbs = 2
    · rw [if_pos hc] at hep
      simp only [Prod.mk.injEq] at hep
      obtain ⟨⟨q, hq, hqt⟩, h2⟩ := hc
      rw [completeMove_board] at hq
      simp only [and_self, if_true] at hq
      have hpt : p.type = PieceType.PAWN := by
        by_cases hpt : p.type = PieceType.PAWN
        · exact hpt
        · rw [removeEnPassantPawn_of_not_pawn hpt, hp] at hq
          simp only [Option.map_some', Option.some.injEq] at hq
          rw [← hq] at hqt
          exact absurd hqt hpt
      have hg : getPieceAt b fromRow fromCol = p := getPieceAt_of_board hvf hp
      have hm2 : (toRow, toCol) ∈ Pawn.getPossibleMoves p fromRow fromCol b := by
        unfold getPossibleMoves at hm
        rw [hg] at hm
        simp only [hne, Bool.not_false, if_true] at hm
        unfold Piece.getPossibleMoves at hm
        rw [hpt] at hm
        exact hm
      obtain ⟨-, hrows, -⟩ := pawn_two_rows hm2 h2
      simp only [isValidPosition, Bool.and_eq_true, decide_eq_true_eq] at hvt
      simp only [enPassantFieldsOk, hep.1, hep.2]
      rcases hrows with ⟨-, h6, h4⟩ | ⟨-, h1, h3⟩
      · subst h6 h4
        refine ⟨⟨fun h => by omega, fun h => absurd h (by decide)⟩, fun _ => ⟨by omega, by omega, ?_⟩⟩
        right; decide
      · subst h1 h3
        refine ⟨⟨fun h => by omega, fun h => absurd h (by decide)⟩, fun _ => ⟨by omega, by omega, ?_⟩⟩
        left; decide
    · rw [if_neg hc] at hep
      simp only [Prod.mk.injEq] at hep
      simp only [enPassantFieldsOk, hep.1, hep.2]
      simp

/-- The two king searches test the same condition. -/
theorem findPlayerKing_eq_findKing (b : ChessBoard) (w : Bool) :
    findPlayerKing b w = findKing b (sideColor w) := by
  unfold findPlayerKing findKing
  have : (fun s : Int × Int => (getPieceAt b s.1 s.2).type == PieceType.KING &&
        ((w && (getPieceAt b s.1 s.2).isWhite) || (!w && (getPieceAt b s.1 s.2).isBlack))) =
      (fun s : Int × Int => (getPieceAt b s.1 s.2).type == PieceType.KING &&
        (getPieceAt b s.1 s.2).color == sideColor w) := by
    funext s
    cases w <;> simp [Piece.isWhite, Piece.isBlack, sideColor]
  rw [this]

/-- The king search returns `(-1, -1)` or a square of the board. -/
theorem findKing_cases (b : ChessBoard) (kingColor : PieceColor) :
    findKing b kingColor = (-1, -1) ∨ isValidPosition (findKing b kingColor).1
      (findKing b kingColor).2 = true := by
  unfold findKing
  cases h : allSquares.find? (fun s => (getPieceAt b s.1 s.2).type == PieceType.KING &&
      (getPieceAt b s.1 s.2).color == kingColor) with
  | none => left; rfl
  | some s =>
    right
    exact mem_allSquares_iff.1 (List.mem_of_find?_eq_some h)

/-- Two predicates that agree on the members of a list give the same `any`. -/
theorem any_eq_of_forall_mem {α : Type} (f g : α → Bool) :
    ∀ l : List α, (∀ x ∈ l, f x = g x) → l.any f = l.any g
  | [], _ => rfl
  | a :: rest, h => by
    simp only [List.any_cons]
    rw [h a (List.mem_cons_self a rest),
      any_eq_of_forall_mem f g rest (fun x hx => h x (List.mem_cons_of_mem a hx))]

/-- The piece `removePieceAt` returns is what the non-const `getPieceAt` finds. -/
theorem removePieceAt_fst (b : ChessBoard) (row col : Int) :
    (removePieceAt b row col).1 = getPieceAtPtr b row col := by
  unfold removePieceAt getPieceAtPtr isValidPosition
  by_cases h : 0 ≤ row ∧ row < 8 ∧ 0 ≤ col ∧ col < 8
  · obtain ⟨h1, h2, h3, h4⟩ := h
    have hn : ¬ (row < 0 ∨ 8 ≤ row ∨ col < 0 ∨ 8 ≤ col) := by omega
    simp [h1, h2, h3, h4, hn, not_lt.2 h1, not_le.2 h2, not_lt.2 h3, not_le.2 h4]
  · have hn : (row < 0 ∨ 8 ≤ row) ∨ col < 0 ∨ 8 ≤ col := by omega
    have hn2 : ¬ (((0 ≤ row ∧ row < 8) ∧ 0 ≤ col) ∧ col < 8) := by omega
    simp only [Bool.or_eq_true, decide_eq_true_eq, ge_iff_le, Bool.and_eq_true]
    rw [if_pos (by omega), if_neg hn2]

/-- The squares after `removePieceAt`. -/
theorem removePieceAt_board (b : ChessBoard) (row col r c : Int) :
    (removePieceAt b row col).2.board r c =
      if isValidPosition row col = true ∧ r = row ∧ c = col then none else b.board r c := by
  unfold removePieceAt isValidPosition
  simp only [Bool.or_eq_true, decide_eq_true_eq, ge_iff_le, Bool.and_eq_true]
  by_cases h : ((0 ≤ row ∧ row < 8) ∧ 0 ≤ col) ∧ col < 8
  · rw [if_neg (by omega)]
    simp only [storeAt_board, h, true_and]
  · rw [if_pos (by omega)]
    simp [h]

/-- The squares after `setPieceAt`. -/
theorem setPieceAt_board (b : ChessBoard) (row col : Int) (v : Option Piece) (r c : Int) :
    (setPieceAt b row col v).board r c =
      if isValidPosition row col = true ∧ r = row ∧ c = col then v else b.board r c := by
  unfold setPieceAt
  by_cases h : isValidPosition row col = true
  · simp [h]
  · simp [h]

/-- A store of a null pointer into a square that holds none changes nothing. -/
theorem storeAt_none_of_none {b : ChessBoard} {row col : Int} (h : b.board row col = none) :
    storeAt b row col none = b := by
  cases b with
  | mk board f1 f2 f3 f4 f5 f6 e1 e2 =>
    simp only [storeAt, ChessBoard.mk.injEq, and_true]
    funext r c
    split_ifs with hrc
    · obtain ⟨rfl, rfl⟩ := hrc
      exact h.symm
    · rfl

/-- When `removePieceAt` returns a null pointer the board is unchanged. -/
theorem removePieceAt_snd_of_none {b : ChessBoard} {row col : Int}
    (h : (removePieceAt b row col).1 = none) : (removePieceAt b row col).2 = b := by
  unfold removePieceAt at h ⊢
  split_ifs at h ⊢ with hoob
  · rfl
  · exact storeAt_none_of_none h

/-- The result of `checkGameState` with the game still on is its argument. -/
theorem checkGameState_not_over {s s1 : GameScreen} (h : s.checkGameState = some s1)
    (hgo : s1.gameOver = false) : s1 = s := by
  unfold GameScreen.checkGameState at h
  cases hc : isCheckmate s.chessBoard s.currentPlayer with
  | none => simp [hc] at h
  | some v =>
    cases v with
    | true =>
      simp only [hc, Option.some.injEq] at h
      rw [← h] at hgo
      simp at hgo
    | false =>
      simp only [hc] at h
      cases hst : isStalemate s.chessBoard s.currentPlayer with
      | none => simp [hst] at h
      | some w =>
        cases w with
        | true =>
          simp only [hst, Option.some.injEq] at h
          rw [← h] at hgo
          simp at hgo
        | false =>
          simp only [hst, Option.some.injEq] at h
          exact h.symm

/-- The members `checkGameState` leaves alone. -/
theorem checkGameState_fields {s s1 : GameScreen} (h : s.checkGameState = some s1) :
    s1.chessBoard = s.chessBoard ∧ s1.moves = s.moves ∧ s1.currentPlayer = s.currentPlayer ∧
      s1.promotionActive = s.promotionActive := by
  unfold GameScreen.checkGameState at h
  cases hc : isCheckmate s.chessBoard s.currentPlayer with
  | none => simp [hc] at h
  | some v =>
    cases v with
    | true =>
      simp only [hc, Option.some.injEq] at h
      subst h
      exact ⟨rfl, rfl, rfl, rfl⟩
    | false =>
      simp only [hc] at h
      cases hst : isStalemate s.chessBoard s.currentPlayer with
      | none => simp [hst] at h
      | some w =>
        cases w with
        | true =>
          simp only [hst, Option.some.injEq] at h
          subst h
          exact ⟨rfl, rfl, rfl, rfl⟩
        | false =>
          simp only [hst, Option.some.injEq] at h
          subst h
          exact ⟨rfl, rfl, rfl, rfl⟩

/-- The outcomes of `GameScreen::makeMove` when `chessBoard.makeMove` accepts the
move: the promotion popup is shown, or a record is appended and the state of the
game checked. -/
theorem GameScreen_makeMove_accepted {s s1 : GameScreen} {fromRow fromCol toRow toCol : Int}
    (h : s.makeMove fromRow fromCol toRow toCol = some s1)
    (hacc : (ChessSFML.makeMove s.chessBoard fromRow fromCol toRow toCol).1 = true) :
    (GameScreen.needsPromotion (ChessSFML.makeMove s.chessBoard fromRow fromCol toRow toCol).2
        toRow toCol = true ∧
      s1 = (s.noteMove fromRow fromCol toRow toCol).awaitPromotion
        (ChessSFML.makeMove s.chessBoard fromRow fromCol toRow toCol).2 toRow toCol) ∨
    (GameScreen.needsPromotion (ChessSFML.makeMove s.chessBoard fromRow fromCol toRow toCol).2
        toRow toCol = false ∧
      ∃ moveNotation isCheck isCheckmate,
        GameScreen.moveText s.chessBoard
          (ChessSFML.makeMove s.chessBoard fromRow fromCol toRow toCol).2
          fromRow fromCol toRow toCol = some moveNotation ∧
        ((s.noteMove fromRow fromCol toRow toCol).recordMove
          (ChessSFML.makeMove s.chessBoard fromRow fromCol toRow toCol).2
          (GameScreen.moveRecord s.chessBoard fromRow fromCol toRow toCol moveNotation
            (!s.currentPlayer) isCheck isCheckmate
            (GameScreen.capturedInfo s.chessBoard fromRow fromCol toRow toCol))).checkGameState =
          some s1) := by
  unfold GameScreen.makeMove at h
  simp only [hacc, if_true] at h
  cases hn : GameScreen.moveText s.chessBoard
      (ChessSFML.makeMove s.chessBoard fromRow fromCol toRow toCol).2
      fromRow fromCol toRow toCol with
  | none => simp [hn] at h
  | some moveNotation =>
    cases hm : isCheckmate (ChessSFML.makeMove s.chessBoard fromRow fromCol toRow toCol).2
        (!s.currentPlayer) with
    | none => simp [hn, hm] at h
    | some mate =>
      simp only [hn, hm] at h
      by_cases hp : GameScreen.needsPromotion
          (ChessSFML.makeMove s.chessBoard fromRow fromCol toRow toCol).2 toRow toCol = true
      · left
        simp only [hp, if_true, Option.some.injEq] at h
        exact ⟨hp, h.symm⟩
      · right
        simp only [hp, Bool.false_eq_true, if_false] at h
        simp only [Bool.not_eq_true] at hp
        exact ⟨hp, moveNotation, _, mate, rfl, h⟩

/-- The outcome of a completed promotion. -/
theorem completePromotion_shape {s s1 : GameScreen} {chosenType : PieceType}
    (h : s.completePromotion chosenType = some s1) :
    ∃ moveNotation isCheck isCheckmate,
      ({ s with promotionActive := false }.recordMove
        (promotePawn s.chessBoard s.promotionSquare.1 s.promotionSquare.2 chosenType)
        (s.promotionRecord moveNotation (!s.currentPlayer) isCheck isCheckmate)).checkGameState =
        some s1 := by
  unfold GameScreen.completePromotion at h
  cases hn : GameScreen.generatePromotionNotation
      (promotePawn s.chessBoard s.promotionSquare.1 s.promotionSquare.2 chosenType)
      s.lastMoveFromCol s.promotionSquare.1 s.promotionSquare.2 chosenType with
  | none => simp [hn] at h
  | some moveNotation =>
    cases hm : isCheckmate
        (promotePawn s.chessBoard s.promotionSquare.1 s.promotionSquare.2 chosenType)
        (!s.currentPlayer) with
    | none => simp [hn, hm] at h
    | some mate =>
      simp only [hn, hm] at h
      exact ⟨moveNotation, _, mate, h⟩

/-- The last record of a history that ends with `m`. -/
theorem getLast_append_one (ms : List ChessMove) (m : ChessMove) :
    (ms ++ [m]).getLast? = some m := by
  simp

/-- What `GameScreen::undoLastMove` does with a game that is on and a history
that ends with the record `m`. -/
theorem undoLastMove_of_last {s : GameScreen} {m : ChessMove} (hgo : s.gameOver = false)
    (hm : s.moves.getLast? = some m) :
    s.undoLastMove =
      if m.wasCastling = true then some (s.finishUndo (undoCastling s.chessBoard m))
      else if m.wasEnPassant = true then
        some (s.finishUndo (undoEnPassant s.chessBoard m s.currentPlayer))
      else if m.wasPromotion = true then
        some (s.finishUndo (undoPromotion s.chessBoard m s.currentPlayer))
      else
        match plainCoords m.note with
        | none => none
        | some none => some s
        | some (some coords) =>
          if (undoPlain s.chessBoard m coords.1 coords.2.1 coords.2.2.1 coords.2.2.2).1 = true
          then some (s.finishUndo
            (undoPlain s.chessBoard m coords.1 coords.2.1 coords.2.2.1 coords.2.2.2).2)
          else some { s with chessBoard :=
            (undoPlain s.chessBoard m coords.1 coords.2.1 coords.2.2.1 coords.2.2.2).2 } := by
  have hne : s.moves.isEmpty = false := by
    cases hms : s.moves with
    | nil => rw [hms] at hm; simp at hm
    | cons a l => rfl
  have h0 : (s.gameOver || s.moves.isEmpty) = false := by rw [hgo, hne]; rfl
  unfold GameScreen.undoLastMove
  rw [h0, hm]
  rfl

/-- When the plain branch finds no piece on the destination it leaves the board
as it was. -/
theorem undoPlain_not_reversed {b : ChessBoard} {m : ChessMove} {fromRow fromCol toRow toCol : Int}
    (h : (undoPlain b m fromRow fromCol toRow toCol).1 = false) :
    (undoPlain b m fromRow fromCol toRow toCol).2 = b := by
  unfold undoPlain at h ⊢
  cases hp : (removePieceAt b toRow toCol).1 with
  | none =>
    simp only [hp]
    exact removePieceAt_snd_of_none hp
  | some piece => simp [hp] at h

/-- When `undoLastMove` pops, the history loses its last record and the player
to move flips. -/
theorem finishUndo_pops {s : GameScreen} {m : ChessMove} (hm : s.moves.getLast? = some m)
    (b : ChessBoard) :
    s.moves = (s.finishUndo b).moves ++ [m] ∧
      (s.finishUndo b).currentPlayer = !s.currentPlayer := by
  refine ⟨?_, rfl⟩
  unfold GameScreen.finishUndo
  simp only []
  exact (List.dropLast_append_getLast? m hm).symm

/-- A file letter read from `files` gives its column back. -/
theorem arrayAt_files {c : Int} {ch : Char} (h : arrayAt files c = some ch) :
    (ch.toNat : Int) - ('a'.toNat : Int) = c ∧ plainChar ch := by
  unfold arrayAt at h
  split_ifs at h with hneg
  have hlt : c.toNat < files.length := by
    by_contra hge
    rw [List.getElem?_eq_none (by omega)] at h
    simp at h
  have h8 : c < 8 := by
    have : files.length = 8 := rfl
    omega
  rcases idx8_cases (not_lt.1 hneg) h8 with rfl | rfl | rfl | rfl | rfl | rfl | rfl | rfl <;>
    (have h2 := Option.some.inj h
     subst h2
     exact ⟨by decide, by decide, by decide, by decide⟩)

/-- A rank digit read from `ranks` gives its row back. -/
theorem arrayAt_ranks {r : Int} {ch : Char} (h : arrayAt ranks r = some ch) :
    ('8'.toNat : Int) - (ch.toNat : Int) = r ∧ plainChar ch := by
  unfold arrayAt at h
  split_ifs at h with hneg
  have hlt : r.toNat < ranks.length := by
    by_contra hge
    rw [List.getElem?_eq_none (by omega)] at h
    simp at h
  have h8 : r < 8 := by
    have : ranks.length = 8 := rfl
    omega
  rcases idx8_cases (not_lt.1 hneg) h8 with rfl | rfl | rfl | rfl | rfl | rfl | rfl | rfl <;>
    (have h2 := Option.some.inj h
     subst h2
     exact ⟨by decide, by decide, by decide, by decide⟩)

/-- The parser of `undoLastMove` reads back the coordinates from a text of the
shape `generateMoveNotation` writes. -/
theorem plainCoords_of_shape (letter : List Char) (ff fk sep tf tk : Char)
    (hl : letter = [] ∨ ∃ L, letter = [L] ∧ isUpperCase L = true ∧ L ≠ '-' ∧ L ≠ 'x')
    (hs : sep = '-' ∨ sep = 'x') (h1 : plainChar ff) (h2 : plainChar fk) (h3 : plainChar tf)
    (h4 : plainChar tk) :
    plainCoords (letter ++ [ff, fk, sep, tf, tk]) =
      some (some (('8'.toNat : Int) - (fk.toNat : Int), (ff.toNat : Int) - ('a'.toNat : Int),
        ('8'.toNat : Int) - (tk.toNat : Int), (tf.toNat : Int) - ('a'.toNat : Int))) := by
  obtain ⟨a1, a2, a3⟩ := h1
  obtain ⟨b1, b2, -⟩ := h2
  obtain ⟨c1, c2, -⟩ := h3
  obtain ⟨d1, d2, -⟩ := h4
  rcases hl with rfl | ⟨L, rfl, hL, l1, l2⟩
  · rcases hs with rfl | rfl <;>
      simp [plainCoords, stringAt, stringFind, List.findIdx?_cons, a1, a2, a3, b1, b2, c1, c2,
        d1, d2]
  · rcases hs with rfl | rfl <;>
      simp [plainCoords, stringAt, stringFind, List.findIdx?_cons, a1, a2, b1, b2, c1, c2,
        d1, d2, hL, l1, l2]

/-- The parser of `undoLastMove` reads back the coordinates `generateMoveNotation`
wrote. -/
theorem plainCoords_generated {b1 : ChessBoard} {fromRow fromCol toRow toCol : Int}
    {n : List Char}
    (h : GameScreen.generateMoveNotation b1 fromRow fromCol toRow toCol = some n) :
    plainCoords n = some (some (fromRow, fromCol, toRow, toCol)) := by
  unfold GameScreen.generateMoveNotation at h
  cases h1 : arrayAt files fromCol with
  | none => simp [h1] at h
  | some ff =>
    cases h2 : arrayAt ranks fromRow with
    | none => simp [h1, h2] at h
    | some fk =>
      cases h3 : arrayAt files toCol with
      | none => simp [h1, h2, h3] at h
      | some tf =>
        cases h4 : arrayAt ranks toRow with
        | none => simp [h1, h2, h3, h4] at h
        | some tk =>
          simp only [h1, h2, h3, h4, Option.some.injEq] at h
          rw [← h, plainCoords_of_shape _ ff fk _ tf tk ?_ ?_ (arrayAt_files h1).2
            (arrayAt_ranks h2).2 (arrayAt_files h3).2 (arrayAt_ranks h4).2,
            (arrayAt_files h1).1, (arrayAt_ranks h2).1, (arrayAt_files h3).1,
            (arrayAt_ranks h4).1]
          · cases getPieceAtPtr b1 toRow toCol with
            | none => left; rfl
            | some piece =>
              cases hp : piece.type <;> simp [hp] <;> decide
          · cases getPieceAtPtr b1 toRow toCol with
            | none => left; rfl
            | some piece => cases he : piece.isEmpty <;> simp [he]

/-- What `handleBoardClick` knows of a square of the player to move. -/
theorem isCurrentPlayerPiece_iff {s : GameScreen} {row col : Int} :
    s.isCurrentPlayerPiece row col = true ↔
      isValidPosition row col = true ∧ ∃ piece, s.chessBoard.board row col = some piece ∧
        piece.isEmpty = false ∧ piece.color = sideColor s.currentPlayer := by
  unfold GameScreen.isCurrentPlayerPiece getPieceAtPtr
  by_cases hv : isValidPosition row col = true
  · simp only [hv, if_true, true_and]
    cases hb : s.chessBoard.board row col with
    | none => simp
    | some piece =>
      cases hcp : s.currentPlayer <;>
        simp [Piece.isWhite, Piece.isBlack, sideColor]
  · simp [hv]

/-- The members of the record `GameScreen::makeMove` appends. -/
theorem moveRecord_fields (b : ChessBoard) (fromRow fromCol toRow toCol : Int)
    (n : List Char) (player isCheck isCheckmate : Bool) (captured : PieceType × PieceColor) :
    let m := GameScreen.moveRecord b fromRow fromCol toRow toCol n player isCheck isCheckmate
      captured
    m.note = n ∧ m.isWhiteMove = player ∧ m.wasPromotion = false ∧
      m.sourceRow = fromRow ∧ m.sourceCol = fromCol ∧ m.destRow = toRow ∧ m.destCol = toCol ∧
      m.wasCastling = GameScreen.isCastlingMove b fromRow fromCol toCol ∧
      m.wasEnPassant = GameScreen.isEnPassantMove b fromRow fromCol toRow toCol ∧
      m.capturedPieceType = captured.1 ∧ m.capturedPieceColor = captured.2 ∧
      m.wasPieceCaptured = (captured.1 != PieceType.NONE) ∧
      (GameScreen.isCastlingMove b fromRow fromCol toCol = true →
        m.rookFromCol = (if toCol > fromCol then 7 else 0) ∧
        m.rookToCol = (if toCol > fromCol then 5 else 3)) ∧
      (GameScreen.isEnPassantMove b fromRow fromCol toRow toCol = true →
        m.enPassantCapturedRow = GameScreen.enPassantCapturedRow b fromRow fromCol ∧
        m.enPassantCapturedCol = toCol) := by
  intro m
  simp only [m, GameScreen.moveRecord]
  cases hc : GameScreen.isCastlingMove b fromRow fromCol toCol <;>
    cases he : GameScreen.isEnPassantMove b fromRow fromCol toRow toCol <;>
    by_cases hk : toCol > fromCol <;>
    simp [hk, ChessMove.new, ChessMove.setSourceCoords, ChessMove.setDestCoords,
      ChessMove.setEnPassantCapture, ChessMove.setCastling]

/-- The members of the record a completed promotion appends. -/
theorem promotionRecord_fields (s : GameScreen) (n : List Char) (white isCheck isCheckmate : Bool) :
    let m := s.promotionRecord n white isCheck isCheckmate
    m.isWhiteMove = white ∧ m.wasPromotion = true ∧ m.wasCastling = false ∧
      m.wasEnPassant = false ∧
      m.sourceRow = s.lastMoveFromRow ∧ m.sourceCol = s.lastMoveFromCol ∧
      m.destRow = s.promotionSquare.1 ∧ m.destCol = s.promotionSquare.2 ∧
      m.capturedPieceType = s.capturedPieceInfo.1 ∧
      m.capturedPieceColor = s.capturedPieceInfo.2 ∧
      m.wasPieceCaptured = (s.capturedPieceInfo.1 != PieceType.NONE) := by
  intro m
  simp [m, GameScreen.promotionRecord, ChessMove.new, ChessMove.setSourceCoords,
    ChessMove.setDestCoords]

/-- A ray never lists the square it starts from. -/
theorem ray_ne_origin {b : ChessBoard} {color : PieceColor} {row col : Int}
    {dirs : List (Int × Int)} (hd : ∀ d ∈ dirs, d ∈ queenDirections) {x : Int × Int}
    (h : x ∈ dirs.flatMap (fun dir => slide b color dir.1 dir.2 8 row col)) :
    x ≠ (row, col) := by
  rw [List.mem_flatMap] at h
  obtain ⟨⟨dr, dc⟩, hdir, hx⟩ := h
  rw [slide_mem_iff] at hx
  obtain ⟨n, hn1, -, hxn, -⟩ := hx
  obtain ⟨h1, h2, h3⟩ := queenDirections_cases (hd _ hdir)
  rw [hxn]
  simp only [ne_eq, Prod.mk.injEq, not_and]
  intro hr hc
  rcases h1 with rfl | rfl | rfl <;> rcases h2 with rfl | rfl | rfl <;> omega

/-- No piece lists the square it stands on. -/
theorem dest_ne_origin {b : ChessBoard} {row col : Int} {x : Int × Int}
    (h : x ∈ getPossibleMoves b row col) : x ≠ (row, col) := by
  unfold getPossibleMoves at h
  simp only [] at h
  split_ifs at h with he
  swap
  · simp at h
  unfold Piece.getPossibleMoves at h
  cases ht : (getPieceAt b row col).type <;> simp only [ht] at h
  · simp at h
  · exact ray_ne_origin (by decide) h
  · unfold Knight.getPossibleMoves at h
    simp only [List.mem_filter, List.mem_map] at h
    obtain ⟨⟨off, hoff, rfl⟩, -⟩ := h
    simp only [List.mem_cons, List.mem_singleton, List.not_mem_nil, or_false] at hoff
    simp only [ne_eq, Prod.mk.injEq, not_and]
    intro hr hc
    rcases hoff with rfl | rfl | rfl | rfl | rfl | rfl | rfl | rfl <;> simp at hr
  · exact ray_ne_origin (by decide) h
  · rw [king_mem_iff] at h
    rcases h with ⟨hoff, -⟩ | ⟨-, -, hc4, h | h⟩
    · rw [kingOffsets_iff] at hoff
      exact hoff.2.2
    · rw [h.1]
      simp only [ne_eq, Prod.mk.injEq, not_and]
      intro _ h6
      omega
    · rw [h.1]
      simp only [ne_eq, Prod.mk.injEq, not_and]
      intro _ h6
      omega
  · exact ray_ne_origin (fun d hd => hd) h
  · rw [pawn_mem_iff] at h
    simp only [ne_eq]
    rcases h with ⟨h, -⟩ | ⟨h, -⟩ | ⟨o, -, h, -⟩ | ⟨h, -⟩ <;> rw [h] <;>
      simp only [Prod.mk.injEq, not_and] <;> intro hr <;> split_ifs at hr <;> omega

/-- `getPieceAt` reads one square. -/
theorem getPieceAt_eq_of_board {b1 b2 : ChessBoard} {r c : Int}
    (h : b1.board r c = b2.board r c) : getPieceAt b1 r c = getPieceAt b2 r c := by
  unfold getPieceAt
  rw [h]

/-- The squares after the en-passant step of `makeMove`: the captured pawn's
square, which is in the mover's row and the destination column, is cleared when
the test succeeds. -/
theorem removeEnPassantPawn_board (b : ChessBoard) (piece : Piece) (fromRow toRow toCol r c : Int) :
    (removeEnPassantPawn b piece fromRow toRow toCol).board r c =
      if enPassantFires b piece fromRow toRow toCol = true ∧ r = fromRow ∧ c = toCol then none
      else b.board r c := by
  unfold removeEnPassantPawn enPassantFires
  simp only []
  by_cases hf : (piece.type == PieceType.PAWN && toCol == b.enPassantCol &&
      ((piece.isWhite && fromRow == 3 && toRow == 2) ||
        (!piece.isWhite && fromRow == 4 && toRow == 5))) = true
  · rw [if_pos hf]
    simp only [hf, true_and, storeAt_board]
    simp only [Bool.and_eq_true, beq_iff_eq, Bool.or_eq_true, Bool.not_eq_true'] at hf
    obtain ⟨⟨-, hcol⟩, hrow⟩ := hf
    have hr : (if piece.isWhite = true then (3 : Int) else 4) = fromRow := by
      rcases hrow with ⟨⟨hw, h3⟩, -⟩ | ⟨⟨hw, h4⟩, -⟩
      · rw [if_pos hw, h3]
      · rw [hw, h4]; rfl
    rw [hr, ← hcol]
  · rw [if_neg hf]
    simp [hf]

/-- The squares after an accepted move that is not a castling. -/
theorem completeMove_board_of_piece {b : ChessBoard} {p : Piece}
    {fromRow fromCol toRow toCol : Int} (hp : b.board fromRow fromCol = some p)
    (hcol : enPassantFires b p fromRow toRow toCol = true → toCol ≠ fromCol) (r c : Int) :
    (completeMove b p fromRow fromCol toRow toCol).board r c =
      if r = toRow ∧ c = toCol then some (p.setHasMoved true)
      else if r = fromRow ∧ c = fromCol then none
      else if enPassantFires b p fromRow toRow toCol = true ∧ r = fromRow ∧ c = toCol then none
      else b.board r c := by
  rw [completeMove_board]
  simp only [removeEnPassantPawn_board]
  have h1 : ¬ (enPassantFires b p fromRow toRow toCol = true ∧ True ∧ fromCol = toCol) := by
    rintro ⟨hf, -, hc⟩
    exact hcol hf hc.symm
  rw [if_neg h1, hp]
  rfl

/-- The flag `isEnPassantCapture` of `GameScreen::makeMove` for a piece on the
origin. -/
theorem isEnPassantMove_of_piece {b : ChessBoard} {p : Piece} {fromRow fromCol : Int}
    (hv : isValidPosition fromRow fromCol = true) (hp : b.board fromRow fromCol = some p)
    (toRow toCol : Int) :
    GameScreen.isEnPassantMove b fromRow fromCol toRow toCol =
      (enPassantFires b p fromRow toRow toCol && (fromCol - toCol).natAbs == 1) := by
  unfold GameScreen.isEnPassantMove getPieceAtPtr enPassantFires
  simp only [hv, if_true, hp]
  cases p.type == PieceType.PAWN <;> cases p.isWhite <;> cases fromRow == 3 <;>
    cases fromRow == 4 <;> cases toRow == 2 <;> cases toRow == 5 <;>
    cases toCol == b.enPassantCol <;> cases (fromCol - toCol).natAbs == 1 <;> rfl

/-- The flag `isCastling` of `GameScreen::makeMove` for a piece on the origin. -/
theorem isCastlingMove_of_piece {b : ChessBoard} {p : Piece} {fromRow fromCol : Int}
    (hv : isValidPosition fromRow fromCol = true) (hp : b.board fromRow fromCol = some p)
    (toCol : Int) :
    GameScreen.isCastlingMove b fromRow fromCol toCol =
      (p.type == PieceType.KING && (fromCol - toCol).natAbs == 2) := by
  unfold GameScreen.isCastlingMove getPieceAtPtr
  simp only [hv, if_true, hp]

/-- The pseudo-legal moves of a pawn on a square of the board. -/
theorem getPossibleMoves_pawn {b : ChessBoard} {p : Piece} {row col : Int}
    (hv : isValidPosition row col = true) (hp : b.board row col = some p)
    (ht : p.type = PieceType.PAWN) :
    getPossibleMoves b row col = Pawn.getPossibleMoves p row col b := by
  unfold getPossibleMoves
  rw [getPieceAt_of_board hv hp]
  have he : p.isEmpty = false := by simp [Piece.isEmpty, ht]
  simp only [he, Bool.not_false, if_true]
  unfold Piece.getPossibleMoves
  rw [ht]

/-- A piece of the player to move is white exactly when White is to move. -/
theorem isWhite_of_sideColor {p : Piece} {w : Bool} (h : p.color = sideColor w) :
    p.isWhite = w := by
  cases w <;> simp [Piece.isWhite, h, sideColor]

/-- With a consistent en-passant column, the board takes a move of the player
to move for an en-passant capture exactly when the screen does. -/
theorem enPassantFires_iff_flagged {b : ChessBoard} {w : Bool} {p : Piece}
    {fromRow fromCol toRow toCol : Int} (hc : enPassantConsistent b w)
    (hv : isValidPosition fromRow fromCol = true) (hvt : isValidPosition toRow toCol = true)
    (hp : b.board fromRow fromCol = some p) (hcol : p.color = sideColor w)
    (hm : (toRow, toCol) ∈ getPossibleMoves b fromRow fromCol) :
    enPassantFires b p fromRow toRow toCol = GameScreen.isEnPassantMove b fromRow fromCol toRow toCol ∧
      (enPassantFires b p fromRow toRow toCol = true → toCol ≠ fromCol ∧
        (getPieceAt b fromRow toCol).type = PieceType.PAWN ∧
        (getPieceAt b fromRow toCol).color = sideColor (!w) ∧
        (getPieceAt b toRow toCol).isEmpty = true) := by
  rw [isEnPassantMove_of_piece hv hp]
  cases hf : enPassantFires b p fromRow toRow toCol with
  | false => simp
  | true =>
    have hf2 := hf
    unfold enPassantFires at hf2
    simp only [Bool.and_eq_true, beq_iff_eq, Bool.or_eq_true, Bool.not_eq_true'] at hf2
    obtain ⟨⟨ht, htc⟩, hrows⟩ := hf2
    have hw := isWhite_of_sideColor hcol
    have hepv : b.enPassantCol ≠ -1 := by
      simp only [isValidPosition, Bool.and_eq_true, decide_eq_true_eq] at hvt
      omega
    obtain ⟨c1, c2, c3⟩ := hc hepv
    have hrow : (if w = true then (3 : Int) else 4) = fromRow ∧
        (if w = true then (2 : Int) else 5) = toRow := by
      rcases hrows with ⟨⟨hw1, h3⟩, h2⟩ | ⟨⟨hw1, h4⟩, h5⟩
      · rw [hw] at hw1; rw [if_pos hw1, if_pos hw1, h3, h2]; exact ⟨rfl, rfl⟩
      · rw [hw] at hw1; rw [hw1, h4, h5]; exact ⟨rfl, rfl⟩
    rw [hrow.1, ← htc] at c1 c2
    rw [hrow.2, ← htc] at c3
    have hne : toCol ≠ fromCol := by
      intro heq
      rw [heq, getPieceAt_of_board hv hp, hcol] at c2
      cases w <;> simp [sideColor] at c2
    refine ⟨?_, fun _ => ⟨hne, c1, c2, c3⟩⟩
    rw [getPossibleMoves_pawn hv hp ht, pawn_mem_iff] at hm
    simp only [Prod.mk.injEq] at hm
    have h1 : (fromCol - toCol).natAbs = 1 := by
      rcases hm with ⟨⟨-, h⟩, -⟩ | ⟨⟨hr, -⟩, -⟩ | ⟨o, ho, ⟨-, h⟩, -⟩ | ⟨⟨-, h⟩, -, -, ha⟩
      · exact absurd h hne
      · exfalso
        rcases hrows with ⟨⟨hw1, h3⟩, h2⟩ | ⟨⟨hw1, h4⟩, h5⟩
        · simp only [hw1, if_true] at hr; omega
        · simp only [hw1, Bool.false_eq_true, if_false] at hr; omega
      · rcases ho with rfl | rfl <;> omega
      · rw [← h] at ha; exact ha
    simp [h1]

/-- The view of a square of the board is the view of its content. -/
theorem squareView_eq_viewOf {b : ChessBoard} {r c : Int} (hv : isValidPosition r c = true) :
    squareView b r c = viewOf (b.board r c) := by
  unfold squareView getPieceAt viewOf
  simp only [hv, if_true]
  cases b.board r c with
  | none => rfl
  | some p => rfl

/-- The piece the `switch` of `undoLastMove` re-creates. -/
theorem recreateCaptured_eq (m : ChessMove) :
    recreateCaptured m =
      if m.capturedPieceType = PieceType.NONE then none
      else some (newPiece m.capturedPieceType m.capturedPieceColor) := by
  unfold recreateCaptured
  cases m.capturedPieceType <;> rfl

/-- The squares after the captured piece is put back. -/
theorem restoreCaptured_board (b : ChessBoard) (m : ChessMove) (toRow toCol r c : Int)
    (hv : isValidPosition toRow toCol = true)
    (hw : m.wasPieceCaptured = (m.capturedPieceType != PieceType.NONE)) :
    (restoreCaptured b m toRow toCol).board r c =
      if m.capturedPieceType ≠ PieceType.NONE ∧ r = toRow ∧ c = toCol then
        some (newPiece m.capturedPieceType m.capturedPieceColor)
      else b.board r c := by
  unfold restoreCaptured
  rw [hw, recreateCaptured_eq]
  by_cases ht : m.capturedPieceType = PieceType.NONE
  · simp [ht]
  · simp [ht, setPieceAt_board, hv]

/-- The value of `capturedPieceInfo` for a move the screen does not take for an
en-passant capture: type and colour of what stands on the destination. -/
theorem capturedInfo_plain {b : ChessBoard} {fromRow fromCol toRow toCol : Int}
    (hvt : isValidPosition toRow toCol = true)
    (he : GameScreen.isEnPassantMove b fromRow fromCol toRow toCol = false) :
    (GameScreen.capturedInfo b fromRow fromCol toRow toCol).1 ≠ PieceType.NONE →
      viewOf (b.board toRow toCol) = some (GameScreen.capturedInfo b fromRow fromCol toRow toCol) := by
  unfold GameScreen.capturedInfo getPieceAtPtr viewOf
  simp only [he, Bool.false_eq_true, if_false, hvt, if_true]
  cases b.board toRow toCol with
  | none => simp
  | some tp =>
    cases hte : tp.isEmpty <;> simp [hte]

/-- The value of `capturedPieceInfo` is (NONE, ·) exactly when the destination
shows nothing. -/
theorem capturedInfo_plain_none {b : ChessBoard} {fromRow fromCol toRow toCol : Int}
    (hvt : isValidPosition toRow toCol = true)
    (he : GameScreen.isEnPassantMove b fromRow fromCol toRow toCol = false) :
    (GameScreen.capturedInfo b fromRow fromCol toRow toCol).1 = PieceType.NONE →
      viewOf (b.board toRow toCol) = none := by
  unfold GameScreen.capturedInfo getPieceAtPtr viewOf
  simp only [he, Bool.false_eq_true, if_false, hvt, if_true]
  cases b.board toRow toCol with
  | none => simp
  | some tp =>
    cases hte : tp.isEmpty
    · simp only [hte, Bool.not_false, if_true, Bool.false_eq_true, if_false]
      intro h
      simp [Piece.isEmpty, h] at hte
    · simp [hte]

/-- The plain branch of `undoLastMove` run on the board after an accepted move
that was neither a castling nor taken for an en-passant capture by the board. -/
theorem undoPlain_after_move {b : ChessBoard} {p : Piece} {fromRow fromCol toRow toCol : Int}
    {m : ChessMove} (hvf : isValidPosition fromRow fromCol = true)
    (hvt : isValidPosition toRow toCol = true) (hp : b.board fromRow fromCol = some p)
    (hnf : enPassantFires b p fromRow toRow toCol = false)
    (hw : m.wasPieceCaptured = (m.capturedPieceType != PieceType.NONE)) :
    (undoPlain (completeMove b p fromRow fromCol toRow toCol) m fromRow fromCol toRow toCol).1 =
        true ∧
      ∀ r c : Int,
        (undoPlain (completeMove b p fromRow fromCol toRow toCol) m fromRow fromCol toRow
            toCol).2.board r c =
          if m.capturedPieceType ≠ PieceType.NONE ∧ r = toRow ∧ c = toCol then
            some (newPiece m.capturedPieceType m.capturedPieceColor)
          else if r = fromRow ∧ c = fromCol then some (p.setHasMoved true)
          else if r = toRow ∧ c = toCol then none
          else b.board r c := by
  have hb := @completeMove_board_of_piece b p fromRow fromCol toRow toCol hp
    (fun h => by rw [hnf] at h; simp at h)
  have hto : getPieceAtPtr (completeMove b p fromRow fromCol toRow toCol) toRow toCol =
      some (p.setHasMoved true) := by
    unfold getPieceAtPtr
    rw [if_pos hvt, hb]
    simp
  unfold undoPlain
  simp only [removePieceAt_fst, hto]
  refine ⟨trivial, fun r c => ?_⟩
  rw [restoreCaptured_board _ _ _ _ _ _ hvt hw]
  simp only [setPieceAt_board, removePieceAt_board, hb, hvf, hvt, hnf, true_and,
    Bool.false_eq_true, false_and, if_false]
  split_ifs <;> rfl

/-- The en-passant branch of `undoLastMove` run on the board after an accepted
en-passant capture. -/
theorem undoEnPassant_after_move {b : ChessBoard} {p : Piece}
    {fromRow fromCol toRow toCol : Int} {m : ChessMove}
    (hvf : isValidPosition fromRow fromCol = true) (hvt : isValidPosition toRow toCol = true)
    (hp : b.board fromRow fromCol = some p)
    (hf : enPassantFires b p fromRow toRow toCol = true) (hne : toCol ≠ fromCol)
    (h1 : m.sourceRow = fromRow) (h2 : m.sourceCol = fromCol) (h3 : m.destRow = toRow)
    (h4 : m.destCol = toCol) (h5 : m.enPassantCapturedRow = fromRow)
    (h6 : m.enPassantCapturedCol = toCol) (player : Bool) (r c : Int) :
    (undoEnPassant (completeMove b p fromRow fromCol toRow toCol) m player).board r c =
      if r = fromRow ∧ c = toCol then
        some (newPiece PieceType.PAWN (if player then PieceColor.WHITE else PieceColor.BLACK))
      else if r = fromRow ∧ c = fromCol then some (p.setHasMoved true)
      else if r = toRow ∧ c = toCol then none
      else b.board r c := by
  have hb := @completeMove_board_of_piece b p fromRow fromCol toRow toCol hp (fun _ => hne)
  have hto : getPieceAtPtr (completeMove b p fromRow fromCol toRow toCol) toRow toCol =
      some (p.setHasMoved true) := by
    unfold getPieceAtPtr
    rw [if_pos hvt, hb]
    simp
  have hvc : isValidPosition fromRow toCol = true := by
    simp only [isValidPosition, Bool.and_eq_true, decide_eq_true_eq] at hvf hvt ⊢
    omega
  unfold undoEnPassant
  simp only [h1, h2, h3, h4, h5, h6, removePieceAt_fst, hto, setPieceAt_board,
    removePieceAt_board, hb, hvf, hvt, hvc, hf, true_and]
  split_ifs <;> rfl

/-- The squares after an accepted castling. -/
theorem completeMove_castling_board {b : ChessBoard} {p : Piece} {row toCol : Int}
    (hp : b.board row 4 = some p) (hk : p.type = PieceType.KING) (htc : toCol = 6 ∨ toCol = 2)
    (r c : Int) :
    (completeMove (relocateRook b row (decide (toCol > 4))) p row 4 row toCol).board r c =
      if r = row ∧ c = toCol then some (p.setHasMoved true)
      else if r = row ∧ c = 4 then none
      else if r = row ∧ c = (if toCol > 4 then 5 else 3) then
        (b.board row (if toCol > 4 then 7 else 0)).map (fun q => q.setHasMoved true)
      else if r = row ∧ c = (if toCol > 4 then 7 else 0) then none
      else b.board r c := by
  have hne : PieceType.KING ≠ PieceType.PAWN := by decide
  rw [completeMove_board, removeEnPassantPawn_of_not_pawn (by rw [hk]; exact hne)]
  simp only [relocateRook_board]
  rcases htc with rfl | rfl
  · simp only [show ((6 : Int) > 4) from by decide, decide_True, if_true, hp]
    split_ifs <;> first | rfl | (exfalso; omega)
  · simp only [show ¬ ((2 : Int) > 4) from by decide, decide_False, Bool.false_eq_true,
      if_false, hp]
    split_ifs <;> first | rfl | (exfalso; omega)

/-- The castling branch of `undoLastMove` run on the board after an accepted
castling. -/
theorem undoCastling_after_move {b : ChessBoard} {p : Piece} {row toCol : Int} {m : ChessMove}
    (hv : isValidPosition row 4 = true) (hp : b.board row 4 = some p)
    (hk : p.type = PieceType.KING) (htc : toCol = 6 ∨ toCol = 2)
    (h1 : m.sourceRow = row) (h2 : m.sourceCol = 4) (h4 : m.destCol = toCol)
    (h5 : m.rookFromCol = if toCol > 4 then 7 else 0)
    (h6 : m.rookToCol = if toCol > 4 then 5 else 3) (r c : Int) :
    (undoCastling (completeMove (relocateRook b row (decide (toCol > 4))) p row 4 row toCol)
        m).board r c =
      if r = row ∧ c = 4 then some (p.setHasMoved false)
      else if r = row ∧ c = (if toCol > 4 then 7 else 0) then
        (b.board row (if toCol > 4 then 7 else 0)).map (fun q => q.setHasMoved false)
      else if r = row ∧ (c = toCol ∨ c = (if toCol > 4 then 5 else 3)) then none
      else b.board r c := by
  have hrow : 0 ≤ row ∧ row < 8 := by
    simp only [isValidPosition, Bool.and_eq_true, decide_eq_true_eq] at hv
    omega
  have hval : ∀ k : Int, 0 ≤ k → k < 8 → isValidPosition row k = true := by
    intro k h0 h8
    simp only [isValidPosition, Bool.and_eq_true, decide_eq_true_eq]
    omega
  unfold undoCastling
  simp only [h1, h2, h4, h5, h6, removePieceAt_fst, getPieceAtPtr, setPieceAt_board,
    removePieceAt_board, completeMove_castling_board hp hk htc]
  rcases htc with rfl | rfl
  · simp only [show ((6 : Int) > 4) from by decide, if_true, hval 6 (by decide) (by decide),
      hval 5 (by decide) (by decide), hval 7 (by decide) (by decide), hv, true_and]
    cases b.board row 7 <;> split_ifs <;> first | rfl | (exfalso; omega)
  · simp only [show ¬ ((2 : Int) > 4) from by decide, if_false,
      hval 2 (by decide) (by decide), hval 3 (by decide) (by decide),
      hval 0 (by decide) (by decide), hv, true_and]
    cases b.board row 0 <;> split_ifs <;> first | rfl | (exfalso; omega)

/-- The coordinates the promotion branch of `undoLastMove` works with are the
recorded ones when both rows are set. -/
theorem promotionCoords_recorded {m : ChessMove} (h1 : m.sourceRow ≠ -1) (h2 : m.destRow ≠ -1) :
    promotionCoords m = (m.sourceRow, m.sourceCol, m.destRow, m.destCol) := by
  unfold promotionCoords
  have : (m.sourceRow == -1 || m.destRow == -1) = false := by
    simp [h1, h2]
  rw [this]
  rfl

/-- The promotion branch of `undoLastMove` run on the board after an accepted
pawn move to the last row and the promotion of the pawn. -/
theorem undoPromotion_after_move {b : ChessBoard} {p : Piece}
    {fromRow fromCol toRow toCol : Int} {m : ChessMove} (t : PieceType)
    (hvf : isValidPosition fromRow fromCol = true) (hvt : isValidPosition toRow toCol = true)
    (hp : b.board fromRow fromCol = some p) (hpt : p.type = PieceType.PAWN)
    (hnf : enPassantFires b p fromRow toRow toCol = false)
    (h1 : m.sourceRow = fromRow) (h2 : m.sourceCol = fromCol) (h3 : m.destRow = toRow)
    (h4 : m.destCol = toCol)
    (hw : m.wasPieceCaptured = (m.capturedPieceType != PieceType.NONE)) (player : Bool)
    (r c : Int) :
    (undoPromotion (promotePawn (completeMove b p fromRow fromCol toRow toCol) toRow toCol t)
        m player).board r c =
      if m.capturedPieceType ≠ PieceType.NONE ∧ r = toRow ∧ c = toCol then
        some (newPiece m.capturedPieceType m.capturedPieceColor)
      else if r = fromRow ∧ c = fromCol then
        some (newPiece PieceType.PAWN (if player then PieceColor.BLACK else PieceColor.WHITE))
      else if r = toRow ∧ c = toCol then none
      else b.board r c := by
  have hb := @completeMove_board_of_piece b p fromRow fromCol toRow toCol hp
    (fun h => by rw [hnf] at h; simp at h)
  have hto : (completeMove b p fromRow fromCol toRow toCol).board toRow toCol =
      some (p.setHasMoved true) := by
    rw [hb]
    simp
  have hs1 : m.sourceRow ≠ -1 := by
    simp only [isValidPosition, Bool.and_eq_true, decide_eq_true_eq] at hvf
    omega
  have hs2 : m.destRow ≠ -1 := by
    simp only [isValidPosition, Bool.and_eq_true, decide_eq_true_eq] at hvt
    omega
  unfold undoPromotion
  simp only [promotionCoords_recorded hs1 hs2, h1, h2, h3, h4]
  rw [restoreCaptured_board _ _ _ _ _ _ hvt hw, promotePawn_of_pawn t hvt hto hpt]
  simp only [setPieceAt_board, removePieceAt_board, storeAt_board, hb, hvf, hvt, hnf, true_and,
    Bool.false_eq_true, false_and, if_false]
  split_ifs <;> rfl

/-- After an accepted move of the player `w` the en-passant column is set only
by a double step: the pawn then stands on row 4 (White) or 3 (Black) of that
column and the square it passed is empty. -/
theorem makeMove_enPassant_after {b : ChessBoard} {w : Bool} {p : Piece}
    {fromRow fromCol toRow toCol : Int}
    (hp : b.board fromRow fromCol = some p) (hcol : p.color = sideColor w)
    (hacc : (makeMove b fromRow fromCol toRow toCol).1 = true)
    (hep : (makeMove b fromRow fromCol toRow toCol).2.enPassantCol ≠ -1) :
    (makeMove b fromRow fromCol toRow toCol).2.enPassantCol = toCol ∧
      toRow = (if w then 4 else 3) ∧
      (makeMove b fromRow fromCol toRow toCol).2.board toRow toCol = some (p.setHasMoved true) ∧
      p.type = PieceType.PAWN ∧
      (getPieceAt (makeMove b fromRow fromCol toRow toCol).2 (if w then 5 else 2) toCol).isEmpty =
        true := by
  rcases makeMove_cases b fromRow fromCol toRow toCol with h0 | ⟨q, hvf, hvt, hq, hne, hm, h1 | h1⟩
  · rw [h0] at hacc; simp at hacc
  · exfalso
    rw [hp] at hq
    obtain rfl := Option.some.inj hq
    obtain ⟨hk, h2, -, -, -, heq⟩ := h1
    rw [heq] at hep
    have hg : getPieceAt b fromRow fromCol = p := getPieceAt_of_board hvf hp
    have hgk : (getPieceAt b fromRow fromCol).type = PieceType.KING := by rw [hg]; exact hk
    rw [getPossibleMoves_king hgk] at hm
    have hrow := (king_two_columns hm h2).2.2.2.1
    have hc := completeMove_enPassant (relocateRook b fromRow (decide (toCol > fromCol))) p
      fromRow fromCol toRow toCol
    have hn : ¬ ((∃ q, (completeMove (relocateRook b fromRow (decide (toCol > fromCol))) p
        fromRow fromCol toRow toCol).board toRow toCol = some q ∧ q.type = PieceType.PAWN) ∧
        (fromRow - toRow).natAbs = 2) := by
      rintro ⟨-, h3⟩
      omega
    rw [if_neg hn] at hc
    simp only [Prod.mk.injEq] at hc
    exact hep hc.1
  · rw [hp] at hq
    obtain rfl := Option.some.inj hq
    obtain ⟨-, -, heq⟩ := h1
    rw [heq] at hep ⊢
    simp only [] at hep ⊢
    have hc := completeMove_enPassant b p fromRow fromCol toRow toCol
    by_cases hcond : (∃ q, (completeMove b p fromRow fromCol toRow toCol).board toRow toCol =
        some q ∧ q.type = PieceType.PAWN) ∧ (fromRow - toRow).natAbs = 2
    swap
    · rw [if_neg hcond] at hc
      simp only [Prod.mk.injEq] at hc
      exact absurd hc.1 hep
    rw [if_pos hcond] at hc
    simp only [Prod.mk.injEq] at hc
    obtain ⟨⟨q, hq2, hqt⟩, h2⟩ := hcond
    have hpt : p.type = PieceType.PAWN := by
      by_cases hpt : p.type = PieceType.PAWN
      · exact hpt
      · rw [completeMove_board] at hq2
        simp only [and_self, if_true] at hq2
        rw [removeEnPassantPawn_of_not_pawn hpt, hp] at hq2
        simp only [Option.map_some', Option.some.injEq] at hq2
        rw [← hq2] at hqt
        exact absurd hqt hpt
    rw [getPossibleMoves_pawn hvf hp hpt] at hm
    obtain ⟨hcc, hrows, he1, he2⟩ := pawn_two_rows hm h2
    have hw := isWhite_of_sideColor hcol
    have hnf : enPassantFires b p fromRow toRow toCol = false := by
      unfold enPassantFires
      rcases hrows with ⟨-, h6, h4⟩ | ⟨-, h1, h3⟩
      · subst h6 h4; simp
      · subst h1 h3; simp
    have hb := @completeMove_board_of_piece b p fromRow fromCol toRow toCol hp
      (fun h => by rw [hnf] at h; simp at h)
    have hrow : toRow = (if w = true then 4 else 3) ∧
        (fromRow + toRow).tdiv 2 = (if w = true then 5 else 2) := by
      rcases hrows with ⟨hw1, h6, h4⟩ | ⟨hw1, h1, h3⟩
      · rw [hw] at hw1; subst hw1 h6 h4; exact ⟨rfl, by decide⟩
      · rw [hw] at hw1; subst hw1 h1 h3; exact ⟨rfl, by decide⟩
    refine ⟨hc.1, hrow.1, ?_, hpt, ?_⟩
    · rw [hb]; simp
    · rw [← hrow.2]
      have hsq : (completeMove b p fromRow fromCol toRow toCol).board
          ((fromRow + toRow).tdiv 2) toCol = b.board ((fromRow + toRow).tdiv 2) toCol := by
        rw [hb]
        have hn1 : ¬ ((fromRow + toRow).tdiv 2 = toRow ∧ toCol = toCol) := by
          rcases hrows with ⟨-, h6, h4⟩ | ⟨-, h1, h3⟩
          · subst h6 h4; rintro ⟨h, -⟩; exact absurd h (by decide)
          · subst h1 h3; rintro ⟨h, -⟩; exact absurd h (by decide)
        have hn2 : ¬ ((fromRow + toRow).tdiv 2 = fromRow ∧ toCol = fromCol) := by
          rcases hrows with ⟨-, h6, h4⟩ | ⟨-, h1, h3⟩
          · subst h6 h4; rintro ⟨h, -⟩; exact absurd h (by decide)
          · subst h1 h3; rintro ⟨h, -⟩; exact absurd h (by decide)
        rw [if_neg hn1, if_neg hn2, hnf]
        simp
      rw [getPieceAt_eq_of_board hsq, hcc]
      exact he1

/-- The board is left as it was when `chessBoard.makeMove` rejects the move. -/
theorem makeMove_rejected {b : ChessBoard} {fromRow fromCol toRow toCol : Int}
    (h : (makeMove b fromRow fromCol toRow toCol).1 = false) :
    (makeMove b fromRow fromCol toRow toCol).2 = b := by
  rcases makeMove_cases b fromRow fromCol toRow toCol with h0 | ⟨p, _, _, _, _, _, h1 | h1⟩
  · rw [h0]
  · rw [h1.2.2.2.2.2] at h; simp at h
  · rw [h1.2.2] at h; simp at h

/-- The pawn `needsPromotion` finds stands on row 0 or 7. -/
theorem needsPromotion_row {b : ChessBoard} {row col : Int}
    (h : GameScreen.needsPromotion b row col = true) : row = 0 ∨ row = 7 := by
  unfold GameScreen.needsPromotion at h
  cases hg : getPieceAtPtr b row col with
  | none => simp [hg] at h
  | some piece =>
    simp only [hg, Bool.and_eq_true, Bool.or_eq_true, beq_iff_eq] at h
    rcases h.2 with h | h
    · exact Or.inl h.2
    · exact Or.inr h.2

/-- A move through the screen keeps the en-passant invariant. -/
theorem GameScreen_makeMove_invariant {s s1 : GameScreen} {fromRow fromCol toRow toCol : Int}
    (hinv : s.enPassantInvariant) (hpa : s.promotionActive = false)
    (hown : s.isCurrentPlayerPiece fromRow fromCol = true)
    (h : s.makeMove fromRow fromCol toRow toCol = some s1) : s1.enPassantInvariant := by
  obtain ⟨hvf, p, hp, hne, hcol⟩ := isCurrentPlayerPiece_iff.1 hown
  by_cases hacc : (ChessSFML.makeMove s.chessBoard fromRow fromCol toRow toCol).1 = true
  swap
  · simp only [Bool.not_eq_true] at hacc
    unfold GameScreen.makeMove at h
    simp only [hacc, Bool.false_eq_true, if_false, Option.some.injEq] at h
    subst h
    simp only [GameScreen.enPassantInvariant, GameScreen.noteMove, makeMove_rejected hacc]
    exact hinv
  have hafter := @makeMove_enPassant_after s.chessBoard s.currentPlayer p fromRow fromCol toRow
    toCol hp hcol hacc
  rcases GameScreen_makeMove_accepted h hacc with ⟨hprom, rfl⟩ | ⟨-, n, chk, mate, -, hcg⟩
  · refine ⟨fun _ => ?_, fun hf => ?_⟩
    · by_contra hep
      have ha := hafter hep
      have hrow := needsPromotion_row hprom
      rw [ha.2.1] at hrow
      cases hw : s.currentPlayer <;> rw [hw] at hrow <;> simp at hrow
    · simp [GameScreen.awaitPromotion] at hf
  · obtain ⟨hb, -, hcp, hpa1⟩ := checkGameState_fields hcg
    refine ⟨fun hf => ?_, fun _ => ?_⟩
    · rw [hpa1] at hf
      simp only [GameScreen.recordMove, GameScreen.noteMove] at hf
      rw [hpa] at hf
      simp at hf
    · rw [hb, hcp]
      simp only [GameScreen.recordMove, GameScreen.noteMove]
      intro hep
      obtain ⟨a1, a2, a3, a4, a5⟩ := hafter hep
      have hvt := (makeMove_accepted_valid hacc).2
      rw [a1]
      cases hw : s.currentPlayer
      · rw [hw] at a2 a5 hcol
        simp only [Bool.false_eq_true, if_false] at a2 a5
        simp only [Bool.not_false, if_true]
        subst a2
        rw [getPieceAt_of_board hvt a3]
        exact ⟨a4, by rw [show (p.setHasMoved true).color = p.color from rfl, hcol]; rfl, a5⟩
      · rw [hw] at a2 a5 hcol
        simp only [if_true] at a2 a5
        simp only [Bool.not_true, Bool.false_eq_true, if_false]
        subst a2
        rw [getPieceAt_of_board hvt a3]
        exact ⟨a4, by rw [show (p.setHasMoved true).color = p.color from rfl, hcol]; rfl, a5⟩

/-- The choice of a promotion piece keeps the en-passant invariant. -/
theorem completePromotion_invariant {s s1 : GameScreen} {chosenType : PieceType}
    (hinv : s.enPassantInvariant) (hpa : s.promotionActive = true)
    (h : s.completePromotion chosenType = some s1) : s1.enPassantInvariant := by
  obtain ⟨n, chk, mate, hcg⟩ := completePromotion_shape h
  obtain ⟨hb, -, -, hpa1⟩ := checkGameState_fields hcg
  refine ⟨fun hf => ?_, fun _ => ?_⟩
  · rw [hpa1] at hf
    simp [GameScreen.recordMove] at hf
  · rw [hb]
    simp only [GameScreen.recordMove]
    intro hep
    exact absurd ((promotePawn_enPassant _ _ _ _).1.trans (hinv.1 hpa)) hep

/-- Every state of a played game has the en-passant invariant. -/
theorem Played_invariant {s : GameScreen} (h : Played s) : s.enPassantInvariant := by
  induction h with
  | start =>
    refine ⟨fun _ => rfl, fun _ hep => ?_⟩
    exact absurd rfl hep
  | move fromRow fromCol toRow toCol _ _ hpa hown hm ih =>
    exact GameScreen_makeMove_invariant ih hpa hown hm
  | promote chosenType _ hpa _ hc ih => exact completePromotion_invariant ih hpa hc

/-- What `needsPromotion` finds on the square. -/
theorem needsPromotion_pawn {b : ChessBoard} {row col : Int}
    (h : GameScreen.needsPromotion b row col = true) :
    ∃ q, getPieceAtPtr b row col = some q ∧ q.type = PieceType.PAWN := by
  unfold GameScreen.needsPromotion at h
  cases hg : getPieceAtPtr b row col with
  | none => simp [hg] at h
  | some piece =>
    simp only [hg, Bool.and_eq_true, beq_iff_eq] at h
    exact ⟨piece, rfl, h.1⟩

/-- A move the board accepts, that needs no promotion and leaves the game on:
the state is the old one with the board after the move, the record appended
and the player flipped. -/
theorem makeMove_recorded {s s1 : GameScreen} {fromRow fromCol toRow toCol : Int}
    (h : s.makeMove fromRow fromCol toRow toCol = some s1)
    (hacc : (ChessSFML.makeMove s.chessBoard fromRow fromCol toRow toCol).1 = true)
    (hnp : GameScreen.needsPromotion
      (ChessSFML.makeMove s.chessBoard fromRow fromCol toRow toCol).2 toRow toCol = false)
    (hgo : s1.gameOver = false) :
    ∃ n isCheck isCheckmate,
      GameScreen.moveText s.chessBoard
        (ChessSFML.makeMove s.chessBoard fromRow fromCol toRow toCol).2
        fromRow fromCol toRow toCol = some n ∧
      s1 = (s.noteMove fromRow fromCol toRow toCol).recordMove
        (ChessSFML.makeMove s.chessBoard fromRow fromCol toRow toCol).2
        (GameScreen.moveRecord s.chessBoard fromRow fromCol toRow toCol n
          (!s.currentPlayer) isCheck isCheckmate
          (GameScreen.capturedInfo s.chessBoard fromRow fromCol toRow toCol)) := by
  rcases GameScreen_makeMove_accepted h hacc with ⟨hprom, -⟩ | ⟨-, n, chk, mate, hn, hcg⟩
  · rw [hnp] at hprom; simp at hprom
  · exact ⟨n, chk, mate, hn, checkGameState_not_over hcg hgo⟩

/-- What `undoLastMove` does with the state a recorded move leaves. -/
theorem undoLastMove_recorded (s : GameScreen) (b1 : ChessBoard) (m : ChessMove)
    (hgo : (s.recordMove b1 m).gameOver = false) :
    (s.recordMove b1 m).undoLastMove =
      if m.wasCastling = true then some ((s.recordMove b1 m).finishUndo (undoCastling b1 m))
      else if m.wasEnPassant = true then
        some ((s.recordMove b1 m).finishUndo (undoEnPassant b1 m (!s.currentPlayer)))
      else if m.wasPromotion = true then
        some ((s.recordMove b1 m).finishUndo (undoPromotion b1 m (!s.currentPlayer)))
      else
        match plainCoords m.note with
        | none => none
        | some none => some (s.recordMove b1 m)
        | some (some coords) =>
          if (undoPlain b1 m coords.1 coords.2.1 coords.2.2.1 coords.2.2.2).1 = true
          then some ((s.recordMove b1 m).finishUndo
            (undoPlain b1 m coords.1 coords.2.1 coords.2.2.1 coords.2.2.2).2)
          else some { s.recordMove b1 m with chessBoard :=
            (undoPlain b1 m coords.1 coords.2.1 coords.2.2.1 coords.2.2.2).2 } :=
  undoLastMove_of_last hgo (getLast_append_one s.moves m)

/-- The board's test for an en-passant capture fails for a piece that is not a
pawn. -/
theorem enPassantFires_of_not_pawn {b : ChessBoard} {p : Piece} {fromRow toRow toCol : Int}
    (h : p.type ≠ PieceType.PAWN) : enPassantFires b p fromRow toRow toCol = false := by
  unfold enPassantFires
  simp [h]

/-- The board after an accepted move that is not a castling. -/
theorem makeMove_plain_eq {b : ChessBoard} {p : Piece} {fromRow fromCol toRow toCol : Int}
    (hp : b.board fromRow fromCol = some p)
    (hacc : (makeMove b fromRow fromCol toRow toCol).1 = true)
    (hnc : ¬ (p.type = PieceType.KING ∧ (fromCol - toCol).natAbs = 2)) :
    isValidPosition fromRow fromCol = true ∧ isValidPosition toRow toCol = true ∧
      (toRow, toCol) ∈ getPossibleMoves b fromRow fromCol ∧
      (makeMove b fromRow fromCol toRow toCol).2 = completeMove b p fromRow fromCol toRow toCol := by
  rcases makeMove_cases b fromRow fromCol toRow toCol with
    h0 | ⟨q, hvf, hvt, hq, hne, hm, h1 | h1⟩
  · rw [h0] at hacc; simp at hacc
  · rw [hp] at hq
    obtain rfl := Option.some.inj hq
    exact absurd ⟨h1.1, h1.2.1⟩ hnc
  · rw [hp] at hq
    obtain rfl := Option.some.inj hq
    refine ⟨hvf, hvt, hm, ?_⟩
    rw [h1.2.2]

/-- The history and the player after `finishUndo` on the state a recorded move
left. -/
theorem finishUndo_recordMove (s : GameScreen) (b1 b2 : ChessBoard) (m : ChessMove) :
    ((s.recordMove b1 m).finishUndo b2).moves = s.moves ∧
      ((s.recordMove b1 m).finishUndo b2).currentPlayer = s.currentPlayer ∧
      ((s.recordMove b1 m).finishUndo b2).chessBoard = b2 := by
  simp [GameScreen.finishUndo, GameScreen.recordMove]

/-- Undo after an accepted castling that leaves the game on: the squares of the
board. -/
theorem undo_after_castling {s s1 : GameScreen} {king : Piece}
    {fromRow fromCol toRow toCol : Int}
    (hk : s.chessBoard.board fromRow fromCol = some king) (hkt : king.type = PieceType.KING)
    (h2 : (fromCol - toCol).natAbs = 2)
    (hacc : (ChessSFML.makeMove s.chessBoard fromRow fromCol toRow toCol).1 = true)
    (h : s.makeMove fromRow fromCol toRow toCol = some s1) (hgo : s1.gameOver = false) :
    fromCol = 4 ∧ toRow = fromRow ∧
      ((toCol = 6 ∧ (getPieceAt s.chessBoard fromRow 5).isEmpty = true ∧
          (getPieceAt s.chessBoard fromRow 6).isEmpty = true ∧
          (getPieceAt s.chessBoard fromRow 7).type = PieceType.ROOK ∧
          (getPieceAt s.chessBoard fromRow 7).color = king.color) ∨
       (toCol = 2 ∧ (getPieceAt s.chessBoard fromRow 2).isEmpty = true ∧
          (getPieceAt s.chessBoard fromRow 3).isEmpty = true ∧
          (getPieceAt s.chessBoard fromRow 0).type = PieceType.ROOK ∧
          (getPieceAt s.chessBoard fromRow 0).color = king.color)) ∧
      ∃ s2, s1.undoLastMove = some s2 ∧ s2.moves = s.moves ∧
        s2.currentPlayer = s.currentPlayer ∧
        ∀ r c : Int, s2.chessBoard.board r c =
          if r = fromRow ∧ c = 4 then some (king.setHasMoved false)
          else if r = fromRow ∧ c = (if toCol > 4 then 7 else 0) then
            (s.chessBoard.board fromRow (if toCol > 4 then 7 else 0)).map
              (fun q => q.setHasMoved false)
          else if r = fromRow ∧ (c = toCol ∨ c = (if toCol > 4 then 5 else 3)) then none
          else s.chessBoard.board r c := by
  rcases makeMove_cases s.chessBoard fromRow fromCol toRow toCol with
    h0 | ⟨q, hvf, hvt, hq, hne, hm, h1 | h1⟩
  · rw [h0] at hacc; simp at hacc
  swap
  · exact absurd ⟨by rw [hk] at hq; rw [← Option.some.inj hq]; exact hkt, h2⟩ h1.1
  rw [hk] at hq
  obtain rfl := Option.some.inj hq
  obtain ⟨-, -, -, -, -, heq⟩ := h1
  have hg : getPieceAt s.chessBoard fromRow fromCol = king := getPieceAt_of_board hvf hk
  have hgk : (getPieceAt s.chessBoard fromRow fromCol).type = PieceType.KING := by
    rw [hg]; exact hkt
  rw [getPossibleMoves_king hgk, hg] at hm
  obtain ⟨-, -, hc4, hrow, hside⟩ := king_two_columns hm h2
  subst hc4 hrow
  have htc : toCol = 6 ∨ toCol = 2 := by
    rcases hside with h | h
    · exact Or.inl h.1
    · exact Or.inr h.1
  refine ⟨rfl, rfl, ?_, ?_⟩
  · rcases hside with ⟨a, b, c, d, e, -⟩ | ⟨a, -, b, c, d, e, -⟩
    · exact Or.inl ⟨a, b, c, d, e⟩
    · exact Or.inr ⟨a, b, c, d, e⟩
  have hb := @completeMove_castling_board s.chessBoard king toRow toCol hk hkt htc
  have hnp : GameScreen.needsPromotion
      (ChessSFML.makeMove s.chessBoard toRow 4 toRow toCol).2 toRow toCol = false := by
    rw [← Bool.not_eq_true]
    intro hp
    obtain ⟨q, hq1, hq2⟩ := needsPromotion_pawn hp
    rw [heq] at hq1
    simp only [getPieceAtPtr, hvt, if_true, hb, and_self] at hq1
    rw [← Option.some.inj hq1] at hq2
    rw [show (king.setHasMoved true).type = king.type from rfl, hkt] at hq2
    exact absurd hq2 (by decide)
  obtain ⟨n, chk, mate, -, rfl⟩ := makeMove_recorded h hacc hnp hgo
  have hf := moveRecord_fields s.chessBoard toRow 4 toRow toCol n (!s.currentPlayer) chk mate
    (GameScreen.capturedInfo s.chessBoard toRow 4 toRow toCol)
  simp only [] at hf
  obtain ⟨-, -, -, f1, f2, -, f4, f5, -, -, -, -, f6, -⟩ := hf
  have hcast : GameScreen.isCastlingMove s.chessBoard toRow 4 toCol = true := by
    rw [isCastlingMove_of_piece hvf hk, hkt]
    simp [h2]
  rw [hcast] at f5
  obtain ⟨f7, f8⟩ := f6 hcast
  rw [undoLastMove_recorded _ _ _ hgo, if_pos f5]
  refine ⟨_, rfl, (finishUndo_recordMove _ _ _ _).1, (finishUndo_recordMove _ _ _ _).2.1, ?_⟩
  intro r c
  rw [(finishUndo_recordMove _ _ _ _).2.2, heq]
  exact @undoCastling_after_move s.chessBoard king toRow toCol _ hvf hk hkt htc f1 f2 f4 f7 f8
    r c

/-- Undo after an accepted en-passant capture that leaves the game on: the
squares of the board. -/
theorem undo_after_en_passant {s s1 : GameScreen} {pawn : Piece}
    {fromRow fromCol toRow toCol : Int}
    (hvf : isValidPosition fromRow fromCol = true)
    (hp : s.chessBoard.board fromRow fromCol = some pawn)
    (hep : GameScreen.isEnPassantMove s.chessBoard fromRow fromCol toRow toCol = true)
    (hacc : (ChessSFML.makeMove s.chessBoard fromRow fromCol toRow toCol).1 = true)
    (h : s.makeMove fromRow fromCol toRow toCol = some s1) (hgo : s1.gameOver = false) :
    pawn.type = PieceType.PAWN ∧ toCol ≠ fromCol ∧
      ((pawn.isWhite = true ∧ fromRow = 3 ∧ toRow = 2) ∨
        (pawn.isWhite = false ∧ fromRow = 4 ∧ toRow = 5)) ∧
      ∃ s2, s1.undoLastMove = some s2 ∧ s2.moves = s.moves ∧
        s2.currentPlayer = s.currentPlayer ∧
        ∀ r c : Int, s2.chessBoard.board r c =
          if r = fromRow ∧ c = toCol then
            some (newPiece PieceType.PAWN
              (if (!s.currentPlayer) = true then PieceColor.WHITE else PieceColor.BLACK))
          else if r = fromRow ∧ c = fromCol then some (pawn.setHasMoved true)
          else if r = toRow ∧ c = toCol then none
          else s.chessBoard.board r c := by
  have hep2 := hep
  rw [isEnPassantMove_of_piece hvf hp] at hep2
  simp only [Bool.and_eq_true, beq_iff_eq] at hep2
  obtain ⟨hf, hd⟩ := hep2
  have hf2 := hf
  unfold enPassantFires at hf2
  simp only [Bool.and_eq_true, beq_iff_eq, Bool.or_eq_true, Bool.not_eq_true'] at hf2
  obtain ⟨⟨ht, -⟩, hrows⟩ := hf2
  have hne : toCol ≠ fromCol := by
    intro heq
    rw [heq] at hd
    simp at hd
  have hnc : ¬ (pawn.type = PieceType.KING ∧ (fromCol - toCol).natAbs = 2) := by
    rw [ht]
    rintro ⟨hk, -⟩
    exact absurd hk (by decide)
  obtain ⟨-, hvt, -, heq⟩ := makeMove_plain_eq hp hacc hnc
  have hnp : GameScreen.needsPromotion
      (ChessSFML.makeMove s.chessBoard fromRow fromCol toRow toCol).2 toRow toCol = false := by
    rw [← Bool.not_eq_true]
    intro hpr
    have hr := needsPromotion_row hpr
    rcases hrows with ⟨-, h2⟩ | ⟨-, h5⟩ <;> omega
  obtain ⟨n, chk, mate, -, rfl⟩ := makeMove_recorded h hacc hnp hgo
  have hfl := moveRecord_fields s.chessBoard fromRow fromCol toRow toCol n (!s.currentPlayer) chk
    mate (GameScreen.capturedInfo s.chessBoard fromRow fromCol toRow toCol)
  simp only [] at hfl
  obtain ⟨-, -, -, f1, f2, f3, f4, f5, f6, -, -, -, -, f7⟩ := hfl
  have hcast : GameScreen.isCastlingMove s.chessBoard fromRow fromCol toCol = false := by
    rw [isCastlingMove_of_piece hvf hp, ht]
    rfl
  rw [hcast] at f5
  rw [hep] at f6
  obtain ⟨f8, f9⟩ := f7 hep
  have hcr : GameScreen.enPassantCapturedRow s.chessBoard fromRow fromCol = fromRow := by
    unfold GameScreen.enPassantCapturedRow getPieceAtPtr
    simp only [hvf, if_true, hp]
    rcases hrows with ⟨⟨hw, h3⟩, -⟩ | ⟨⟨hw, h4⟩, -⟩
    · rw [if_pos hw, h3]
    · rw [hw, h4]; rfl
  rw [hcr] at f8
  refine ⟨ht, hne, ?_, ?_⟩
  · rcases hrows with ⟨⟨hw, h3⟩, h2⟩ | ⟨⟨hw, h4⟩, h5⟩
    · exact Or.inl ⟨hw, h3, h2⟩
    · exact Or.inr ⟨hw, h4, h5⟩
  rw [undoLastMove_recorded _ _ _ hgo, if_neg (by rw [f5]; simp), if_pos f6]
  refine ⟨_, rfl, (finishUndo_recordMove _ _ _ _).1, (finishUndo_recordMove _ _ _ _).2.1, ?_⟩
  intro r c
  rw [(finishUndo_recordMove _ _ _ _).2.2, heq]
  exact @undoEnPassant_after_move s.chessBoard pawn fromRow fromCol toRow toCol _ hvf hvt hp
    hf hne f1 f2 f3 f4 f8 f9 (!(s.noteMove fromRow fromCol toRow toCol).currentPlayer) r c

/-- Undo after an accepted move that is neither a castling, nor an en-passant
capture, nor a move that needs a promotion, and that leaves the game on: the
squares of the board. -/
theorem undo_after_plain {s s1 : GameScreen} {piece : Piece}
    {fromRow fromCol toRow toCol : Int}
    (hp : s.chessBoard.board fromRow fromCol = some piece)
    (hnc : ¬ (piece.type = PieceType.KING ∧ (fromCol - toCol).natAbs = 2))
    (hnf : enPassantFires s.chessBoard piece fromRow toRow toCol = false)
    (hnp : GameScreen.needsPromotion
      (ChessSFML.makeMove s.chessBoard fromRow fromCol toRow toCol).2 toRow toCol = false)
    (hacc : (ChessSFML.makeMove s.chessBoard fromRow fromCol toRow toCol).1 = true)
    (h : s.makeMove fromRow fromCol toRow toCol = some s1) (hgo : s1.gameOver = false) :
    ∃ s2, s1.undoLastMove = some s2 ∧ s2.moves = s.moves ∧
      s2.currentPlayer = s.currentPlayer ∧
      ∀ r c : Int, s2.chessBoard.board r c =
        if (GameScreen.capturedInfo s.chessBoard fromRow fromCol toRow toCol).1 ≠
            PieceType.NONE ∧ r = toRow ∧ c = toCol then
          some (newPiece (GameScreen.capturedInfo s.chessBoard fromRow fromCol toRow toCol).1
            (GameScreen.capturedInfo s.chessBoard fromRow fromCol toRow toCol).2)
        else if r = fromRow ∧ c = fromCol then some (piece.setHasMoved true)
        else if r = toRow ∧ c = toCol then none
        else s.chessBoard.board r c := by
  obtain ⟨hvf, hvt, hm, heq⟩ := makeMove_plain_eq hp hacc hnc
  obtain ⟨n, chk, mate, hn, rfl⟩ := makeMove_recorded h hacc hnp hgo
  have hfl := moveRecord_fields s.chessBoard fromRow fromCol toRow toCol n (!s.currentPlayer) chk
    mate (GameScreen.capturedInfo s.chessBoard fromRow fromCol toRow toCol)
  simp only [] at hfl
  obtain ⟨f0, -, fp, -, -, -, -, f5, f6, f8, f9, f7, -, -⟩ := hfl
  have hcast : GameScreen.isCastlingMove s.chessBoard fromRow fromCol toCol = false := by
    rw [isCastlingMove_of_piece hvf hp, ← Bool.not_eq_true]
    simp only [Bool.and_eq_true, beq_iff_eq]
    exact hnc
  have hepf : GameScreen.isEnPassantMove s.chessBoard fromRow fromCol toRow toCol = false := by
    rw [isEnPassantMove_of_piece hvf hp, hnf]
    rfl
  rw [hcast] at f5
  rw [hepf] at f6
  have hcoords : plainCoords n = some (some (fromRow, fromCol, toRow, toCol)) := by
    unfold GameScreen.moveText at hn
    rw [hcast] at hn
    simp only [Bool.false_eq_true, if_false] at hn
    exact plainCoords_generated hn
  have hw : (GameScreen.moveRecord s.chessBoard fromRow fromCol toRow toCol n (!s.currentPlayer)
      chk mate (GameScreen.capturedInfo s.chessBoard fromRow fromCol toRow toCol)).wasPieceCaptured =
      ((GameScreen.moveRecord s.chessBoard fromRow fromCol toRow toCol n (!s.currentPlayer)
      chk mate (GameScreen.capturedInfo s.chessBoard fromRow fromCol toRow
        toCol)).capturedPieceType != PieceType.NONE) := by
    rw [f7, f8]
  obtain ⟨hu1, hu2⟩ := @undoPlain_after_move s.chessBoard piece fromRow fromCol toRow toCol _
    hvf hvt hp hnf hw
  rw [undoLastMove_recorded _ _ _ hgo, if_neg (by rw [f5]; simp), if_neg (by rw [f6]; simp),
    if_neg (by rw [fp]; simp), f0, hcoords]
  simp only []
  rw [heq, if_pos hu1]
  refine ⟨_, rfl, (finishUndo_recordMove _ _ _ _).1, (finishUndo_recordMove _ _ _ _).2.1, ?_⟩
  intro r c
  rw [(finishUndo_recordMove _ _ _ _).2.2, hu2, f8, f9]

/-- Undo after an accepted pawn move to the last row, the promotion of the pawn,
and with the game still on: the squares of the board. -/
theorem undo_after_promotion {s s1 s2 : GameScreen} {pawn : Piece}
    {fromRow fromCol toRow toCol : Int} {chosenType : PieceType}
    (hp : s.chessBoard.board fromRow fromCol = some pawn) (hpt : pawn.type = PieceType.PAWN)
    (hnf : enPassantFires s.chessBoard pawn fromRow toRow toCol = false)
    (hprom : GameScreen.needsPromotion
      (ChessSFML.makeMove s.chessBoard fromRow fromCol toRow toCol).2 toRow toCol = true)
    (hacc : (ChessSFML.makeMove s.chessBoard fromRow fromCol toRow toCol).1 = true)
    (h1 : s.makeMove fromRow fromCol toRow toCol = some s1)
    (h2 : s1.completePromotion chosenType = some s2) (hgo : s2.gameOver = false) :
    ∃ s3, s2.undoLastMove = some s3 ∧ s3.moves = s.moves ∧
      s3.currentPlayer = s.currentPlayer ∧
      ∀ r c : Int, s3.chessBoard.board r c =
        if (GameScreen.capturedInfo s.chessBoard fromRow fromCol toRow toCol).1 ≠
            PieceType.NONE ∧ r = toRow ∧ c = toCol then
          some (newPiece (GameScreen.capturedInfo s.chessBoard fromRow fromCol toRow toCol).1
            (GameScreen.capturedInfo s.chessBoard fromRow fromCol toRow toCol).2)
        else if r = fromRow ∧ c = fromCol then
          some (newPiece PieceType.PAWN
            (if (!s.currentPlayer) = true then PieceColor.BLACK else PieceColor.WHITE))
        else if r = toRow ∧ c = toCol then none
        else s.chessBoard.board r c := by
  have hnc : ¬ (pawn.type = PieceType.KING ∧ (fromCol - toCol).natAbs = 2) := by
    rw [hpt]
    rintro ⟨hk, -⟩
    exact absurd hk (by decide)
  obtain ⟨hvf, hvt, hm, heq⟩ := makeMove_plain_eq hp hacc hnc
  rcases GameScreen_makeMove_accepted h1 hacc with ⟨-, hs1⟩ | ⟨hno, -⟩
  swap
  · rw [hprom] at hno; simp at hno
  have e1 : s1.chessBoard = (ChessSFML.makeMove s.chessBoard fromRow fromCol toRow toCol).2 := by
    rw [hs1]; rfl
  have e2 : s1.promotionSquare = (toRow, toCol) := by rw [hs1]; rfl
  have e3 : s1.lastMoveFromRow = fromRow := by rw [hs1]; rfl
  have e4 : s1.lastMoveFromCol = fromCol := by rw [hs1]; rfl
  have e5 : s1.currentPlayer = s.currentPlayer := by rw [hs1]; rfl
  have e6 : s1.moves = s.moves := by rw [hs1]; rfl
  have e7 : s1.capturedPieceInfo =
      GameScreen.capturedInfo s.chessBoard fromRow fromCol toRow toCol := by rw [hs1]; rfl
  clear hs1 h1
  obtain ⟨n, chk, mate, hcg⟩ := completePromotion_shape h2
  have hs2 := checkGameState_not_over hcg hgo
  subst hs2
  have hfl := promotionRecord_fields s1 n (!s1.currentPlayer) chk mate
  simp only [] at hfl
  obtain ⟨-, f1, f2, f3, f4, f5, f6, f7, f8, f9, f10⟩ := hfl
  rw [e3] at f4
  rw [e4] at f5
  rw [e2] at f6 f7
  rw [e7] at f8 f9 f10
  simp only [] at f6 f7
  have hw : (s1.promotionRecord n (!s1.currentPlayer) chk mate).wasPieceCaptured =
      ((s1.promotionRecord n (!s1.currentPlayer) chk mate).capturedPieceType !=
        PieceType.NONE) := by
    rw [f10, f8]
  rw [undoLastMove_recorded _ _ _ hgo, if_neg (by rw [f2]; simp), if_neg (by rw [f3]; simp),
    if_pos f1]
  refine ⟨_, rfl, ((finishUndo_recordMove _ _ _ _).1).trans e6,
    ((finishUndo_recordMove _ _ _ _).2.1).trans e5, ?_⟩
  intro r c
  rw [(finishUndo_recordMove _ _ _ _).2.2, e1, e2]
  simp only []
  rw [heq, ← e5]
  have key := @undoPromotion_after_move s.chessBoard pawn fromRow fromCol toRow toCol _
    chosenType hvf hvt hp hpt hnf f4 f5 f6 f7 hw (!s1.currentPlayer) r c
  rw [f8, f9] at key
  exact key

/-- The view of a square whose piece is known through `getPieceAt`. -/
theorem viewOf_board_eq {b : ChessBoard} {r c : Int} (hv : isValidPosition r c = true) :
    viewOf (b.board r c) =
      if (getPieceAt b r c).isEmpty = true then none
      else some ((getPieceAt b r c).type, (getPieceAt b r c).color) := by
  rw [← squareView_eq_viewOf hv]
  unfold squareView
  rfl

/-- An accepted move of a piece that is not a pawn needs no promotion. -/
theorem needsPromotion_of_not_pawn {b : ChessBoard} {piece : Piece}
    {fromRow fromCol toRow toCol : Int} (hp : b.board fromRow fromCol = some piece)
    (hnpawn : piece.type ≠ PieceType.PAWN)
    (hnc : ¬ (piece.type = PieceType.KING ∧ (fromCol - toCol).natAbs = 2))
    (hacc : (makeMove b fromRow fromCol toRow toCol).1 = true) :
    GameScreen.needsPromotion (makeMove b fromRow fromCol toRow toCol).2 toRow toCol = false := by
  obtain ⟨-, hvt, -, heq⟩ := makeMove_plain_eq hp hacc hnc
  have hb := @completeMove_board_of_piece b piece fromRow fromCol toRow toCol hp
    (fun hx => by rw [enPassantFires_of_not_pawn hnpawn] at hx; simp at hx)
  rw [← Bool.not_eq_true]
  intro hpr
  obtain ⟨q, hq1, hq2⟩ := needsPromotion_pawn hpr
  rw [heq] at hq1
  simp only [getPieceAtPtr, hvt, if_true, hb, and_self] at hq1
  rw [← Option.some.inj hq1] at hq2
  exact hnpawn hq2

/-- An option that holds a value is that value. -/
theorem eq_some_getD {α : Type} {o : Option α} (d : α) (h : o.isSome = true) :
    o = some (o.getD d) := by
  cases o with
  | none => simp at h
  | some a => rfl

/-! ## The claims -/

set_option maxRecDepth 100000

/-- C1: a `makeMove` call that returns false leaves the board exactly as it
was: every square, the six moved-flags and both en-passant fields. -/
theorem makeMove_rejected_unchanged (b : ChessBoard) (fromRow fromCol toRow toCol : Int)
    (h : (makeMove b fromRow fromCol toRow toCol).1 = false) :
    (makeMove b fromRow fromCol toRow toCol).2 = b := by
  rcases makeMove_cases b fromRow fromCol toRow toCol with h0 | ⟨p, _, _, _, _, _, h1 | h1⟩
  · rw [h0]
  · rw [h1.2.2.2.2.2] at h; simp at h
  · rw [h1.2.2] at h; simp at h

/-- Witness for C1: in the position `castleOutOfCheck` the castling attempt
(7,4) to (7,6) is rejected, and the board is unchanged. -/
theorem makeMove_rejected_unchanged_witness :
    (makeMove castleOutOfCheck 7 4 7 6).1 = false ∧
      (makeMove castleOutOfCheck 7 4 7 6).2 = castleOutOfCheck :=
  ⟨by decide, makeMove_rejected_unchanged castleOutOfCheck 7 4 7 6 (by decide)⟩

/-- C2, evaluated where the code departs from it: in `stalePushPosition` the
legality filter accepts the pawn push (3,1) to (2,1), which would interpose on
row 2, and `makeMove` returns true; but the push is onto the en-passant file, so
`makeMove` clears (3,1), the pusher itself, and the resulting board has no pawn
on (2,1) and the white king still in check. -/
theorem makeMove_leaves_king_in_check_after_push :
    wouldMoveExposeKing stalePushPosition 3 1 2 1 true = false ∧
      (makeMove stalePushPosition 3 1 2 1).1 = true ∧
      (makeMove stalePushPosition 3 1 2 1).2.board 2 1 = none ∧
      isKingInCheck (makeMove stalePushPosition 3 1 2 1).2 PieceColor.WHITE = true := by
  decide

/-- C3: `makeMove` returns false when the source or the destination is out of
range, when the source square is empty, and when the destination is not among
`getPossibleMoves` of the source. -/
theorem makeMove_rejects_invalid (b : ChessBoard) (fromRow fromCol toRow toCol : Int)
    (h : isValidPosition fromRow fromCol = false ∨ isValidPosition toRow toCol = false ∨
      (getPieceAt b fromRow fromCol).isEmpty = true ∨
      (toRow, toCol) ∉ getPossibleMoves b fromRow fromCol) :
    (makeMove b fromRow fromCol toRow toCol).1 = false := by
  rcases makeMove_cases b fromRow fromCol toRow toCol with h0 | ⟨p, hv1, hv2, hp, he, hm, _⟩
  · rw [h0]
  · exfalso
    rcases h with h | h | h | h
    · simp [hv1] at h
    · simp [hv2] at h
    · simp [getPieceAt, hv1, hp, he] at h
    · exact h hm

/-- Witness for C3, one input per rejected case, on the starting position. -/
theorem makeMove_rejects_invalid_witness :
    (makeMove resetBoard (-1) 0 0 0).1 = false ∧ (makeMove resetBoard 6 0 8 0).1 = false ∧
      (makeMove resetBoard 4 4 3 4).1 = false ∧ (makeMove resetBoard 7 4 5 4).1 = false :=
  ⟨makeMove_rejects_invalid resetBoard (-1) 0 0 0 (Or.inl (by decide)),
    makeMove_rejects_invalid resetBoard 6 0 8 0 (Or.inr (Or.inl (by decide))),
    makeMove_rejects_invalid resetBoard 4 4 3 4 (Or.inr (Or.inr (Or.inl (by decide)))),
    makeMove_rejects_invalid resetBoard 7 4 5 4 (Or.inr (Or.inr (Or.inr (by decide))))⟩

/-- C4: a move of a king by two columns along its row is rejected when the king
has moved; when the square in the corner of the castling side (column 7 for a
move to the right, column 0 for a move to the left) does not hold an unmoved rook
of the king's colour; when a square strictly between king and corner is occupied;
when the king is in check; or when the legality filter reports the king attacked
on the midpoint square (column 5 or 3) or on the destination. The colour tested
is `sideColor king.isWhite`, the king's own colour for a white or black king. -/
theorem castling_rejected (b : ChessBoard) (row fromCol toCol : Int) (king : Piece)
    (hking : getPieceAt b row fromCol = king) (hk : king.type = PieceType.KING)
    (h2 : (fromCol - toCol).natAbs = 2)
    (h : king.hasMoved = true ∨
      (getPieceAt b row (if toCol > fromCol then 7 else 0)).type ≠ PieceType.ROOK ∨
      (getPieceAt b row (if toCol > fromCol then 7 else 0)).color ≠ king.color ∨
      (getPieceAt b row (if toCol > fromCol then 7 else 0)).hasMoved = true ∨
      (∃ c : Int, ((toCol > fromCol ∧ fromCol < c ∧ c < 7) ∨ (¬ toCol > fromCol ∧ 0 < c ∧ c < fromCol)) ∧
        (getPieceAt b row c).isEmpty = false) ∨
      isKingInCheck b (sideColor king.isWhite) = true ∨
      wouldMoveExposeKing b row fromCol row (if toCol > fromCol then 5 else 3) king.isWhite = true ∨
      wouldMoveExposeKing b row fromCol row toCol king.isWhite = true) :
    (makeMove b row fromCol row toCol).1 = false := by
  rcases makeMove_cases b row fromCol row toCol with h0 | ⟨p, hv1, hv2, hp, he, hm, hb⟩
  · rw [h0]
  exfalso
  have hpk : getPieceAt b row fromCol = p := getPieceAt_of_board hv1 hp
  rw [hking] at hpk
  subst hpk
  rcases hb with ⟨-, -, hc, hw1, hw2, -⟩ | ⟨hn, -⟩
  swap
  · exact hn ⟨hk, h2⟩
  rw [getPossibleMoves_king (by rw [hking]; exact hk), hking] at hm
  obtain ⟨hmv, -, hcol, -, hside⟩ := king_two_columns hm h2
  subst hcol
  rcases hside with ⟨rfl, e5, e6, ht, hcl, hh⟩ | ⟨rfl, e1, e2, e3, ht, hcl, hh⟩
  · simp only [show ((6 : Int) > 4) from by decide, if_true, decide_True] at h hw1
    rcases h with h | h | h | h | ⟨c, hc', hne⟩ | h | h | h
    · simp [hmv] at h
    · exact h ht
    · exact h hcl
    · simp [hh] at h
    · rcases hc' with ⟨-, h4, h7⟩ | ⟨hf, -⟩
      · have : c = 5 ∨ c = 6 := by omega
        rcases this with rfl | rfl
        · simp [e5] at hne
        · simp [e6] at hne
      · exact hf (by decide)
    · simp [hc] at h
    · simp [hw1] at h
    · simp [hw2] at h
  · simp only [show ¬ ((2 : Int) > 4) from by decide, if_false, decide_False] at h hw1
    rcases h with h | h | h | h | ⟨c, hc', hne⟩ | h | h | h
    · simp [hmv] at h
    · exact h ht
    · exact h hcl
    · simp [hh] at h
    · rcases hc' with ⟨hf, -⟩ | ⟨-, h0, h4⟩
      · exact absurd hf (by decide)
      · have : c = 1 ∨ c = 2 ∨ c = 3 := by omega
        rcases this with rfl | rfl | rfl
        · simp [e1] at hne
        · simp [e2] at hne
        · simp [e3] at hne
    · simp [hc] at h
    · simp only [Bool.false_eq_true, if_false] at hw1
      simp [hw1] at h
    · simp [hw2] at h

/-- Witness for C4. In `castleOutOfCheck` the castling destination (7,6) is
listed by the king, the king is in check, and the castling is rejected. In
`castleThroughCheck` the destination is listed and the king is not in check, but
it would be attacked on the midpoint (7,5), and the castling is rejected. -/
theorem castling_rejected_witness :
    ((7, 6) ∈ getPossibleMoves castleOutOfCheck 7 4 ∧
      isKingInCheck castleOutOfCheck PieceColor.WHITE = true ∧
      (makeMove castleOutOfCheck 7 4 7 6).1 = false) ∧
    ((7, 6) ∈ getPossibleMoves castleThroughCheck 7 4 ∧
      isKingInCheck castleThroughCheck PieceColor.WHITE = false ∧
      wouldMoveExposeKing castleThroughCheck 7 4 7 5 true = true ∧
      (makeMove castleThroughCheck 7 4 7 6).1 = false) :=
  ⟨⟨by decide, by decide,
    castling_rejected castleOutOfCheck 7 4 6 ⟨PieceType.KING, PieceColor.WHITE, false⟩
      (by decide) rfl (by decide)
      (Or.inr (Or.inr (Or.inr (Or.inr (Or.inr (Or.inl (by decide)))))))⟩,
   ⟨by decide, by decide, by decide,
    castling_rejected castleThroughCheck 7 4 6 ⟨PieceType.KING, PieceColor.WHITE, false⟩
      (by decide) rfl (by decide)
      (Or.inr (Or.inr (Or.inr (Or.inr (Or.inr (Or.inr (Or.inl (by decide))))))))⟩⟩

/-- C5: when `makeMove` of a king from (row,4) to (row,6) [resp. (row,2)]
returns true, the resulting board has that king on (row,6) [resp. (row,2)] and
the rook of the king's colour that stood on (row,7) [resp. (row,0)] on (row,5)
[resp. (row,3)], both with `hasMoved = true`; (row,4) and the rook's corner are
empty; every other square is unchanged. -/
theorem castling_result (b : ChessBoard) (row toCol rookFromCol rookToCol : Int) (king : Piece)
    (hside : (toCol = 6 ∧ rookFromCol = 7 ∧ rookToCol = 5) ∨
      (toCol = 2 ∧ rookFromCol = 0 ∧ rookToCol = 3))
    (hking : b.board row 4 = some king) (hk : king.type = PieceType.KING)
    (hok : (makeMove b row 4 row toCol).1 = true) :
    ∃ rook, b.board row rookFromCol = some rook ∧ rook.type = PieceType.ROOK ∧
      rook.color = king.color ∧
      (makeMove b row 4 row toCol).2.board row toCol = some (king.setHasMoved true) ∧
      (makeMove b row 4 row toCol).2.board row rookToCol = some (rook.setHasMoved true) ∧
      (makeMove b row 4 row toCol).2.board row 4 = none ∧
      (makeMove b row 4 row toCol).2.board row rookFromCol = none ∧
      ∀ r c : Int, ¬ (r = row ∧ (c = 4 ∨ c = toCol ∨ c = rookFromCol ∨ c = rookToCol)) →
        (makeMove b row 4 row toCol).2.board r c = b.board r c := by
  have h2 : ((4 : Int) - toCol).natAbs = 2 := by
    rcases hside with ⟨rfl, -, -⟩ | ⟨rfl, -, -⟩ <;> decide
  rcases makeMove_cases b row 4 row toCol with h0 | ⟨p, hv1, hv2, hp, he, hm, hb⟩
  · rw [h0] at hok; simp at hok
  rw [hking] at hp
  simp only [Option.some.injEq] at hp
  subst hp
  rcases hb with ⟨-, -, -, -, -, hres⟩ | ⟨hn, -⟩
  swap
  · exact absurd ⟨hk, h2⟩ hn
  have hg : getPieceAt b row 4 = king := getPieceAt_of_board hv1 hking
  rw [getPossibleMoves_king (by rw [hg]; exact hk), hg] at hm
  obtain ⟨-, -, -, -, hs⟩ := king_two_columns hm h2
  have hnp : king.type ≠ PieceType.PAWN := by rw [hk]; decide
  rw [hres]
  simp only [completeMove_board, removeEnPassantPawn_of_not_pawn hnp, relocateRook_board]
  rcases hside with ⟨rfl, rfl, rfl⟩ | ⟨rfl, rfl, rfl⟩
  · rcases hs with ⟨-, -, -, ht, hcl, -⟩ | ⟨h, -⟩
    swap
    · exact absurd h (by decide)
    have hr : b.board row 7 = some (getPieceAt b row 7) :=
      board_of_getPieceAt_type (by rw [ht]; decide)
    refine ⟨getPieceAt b row 7, hr, ht, hcl, ?_, ?_, ?_, ?_, ?_⟩
    · simp [hking]
    · simp [hr]
    · simp
    · simp
    · intro r c hrc
      simp only [not_and, not_or] at hrc
      by_cases hrr : r = row
      · obtain ⟨h4, h6, h7, h5⟩ := hrc hrr
        simp [hrr, h4, h5, h6, h7]
      · simp [hrr]
  · rcases hs with ⟨h, -⟩ | ⟨-, -, -, -, ht, hcl, -⟩
    · exact absurd h (by decide)
    have hr : b.board row 0 = some (getPieceAt b row 0) :=
      board_of_getPieceAt_type (by rw [ht]; decide)
    refine ⟨getPieceAt b row 0, hr, ht, hcl, ?_, ?_, ?_, ?_, ?_⟩
    · simp [hking]
    · simp [hr]
    · simp
    · simp
    · intro r c hrc
      simp only [not_and, not_or] at hrc
      by_cases hrr : r = row
      · obtain ⟨h4, h6, h7, h5⟩ := hrc hrr
        simp [hrr, h4, h5, h6, h7]
      · simp [hrr]

/-- Witness for C5: kingside castling in `castleReady`. -/
theorem castling_result_witness :
    (makeMove castleReady 7 4 7 6).1 = true ∧
    ∃ rook, castleReady.board 7 7 = some rook ∧ rook.type = PieceType.ROOK ∧
      rook.color = PieceColor.WHITE ∧
      (makeMove castleReady 7 4 7 6).2.board 7 6 =
        some ⟨PieceType.KING, PieceColor.WHITE, true⟩ ∧
      (makeMove castleReady 7 4 7 6).2.board 7 5 = some (rook.setHasMoved true) ∧
      (makeMove castleReady 7 4 7 6).2.board 7 4 = none ∧
      (makeMove castleReady 7 4 7 6).2.board 7 7 = none ∧
      ∀ r c : Int, ¬ (r = 7 ∧ (c = 4 ∨ c = 6 ∨ c = 7 ∨ c = 5)) →
        (makeMove castleReady 7 4 7 6).2.board r c = castleReady.board r c :=
  ⟨by decide,
    castling_result castleReady 7 6 7 5 ⟨PieceType.KING, PieceColor.WHITE, false⟩
      (Or.inl ⟨rfl, rfl, rfl⟩) (by decide) rfl (by decide)⟩

/-- C6, evaluated where the code departs from it: on `pushOnEnPassantFile` the
push of the white pawn from (3,0) to (2,0) is accepted, and afterwards (2,0)
holds no piece: the en-passant test of `makeMove` only compares the destination
column with `enPassantCol`, so it clears (3,0), the square of the pusher. -/
theorem makeMove_drops_pawn_pushed_on_en_passant_file :
    movesAccepted resetBoard
        [((6, 1), (4, 1)), ((1, 0), (3, 0)), ((4, 1), (3, 0)), ((6, 0), (4, 0))] = true ∧
      pushOnEnPassantFile.board 3 0 = some ⟨PieceType.PAWN, PieceColor.WHITE, true⟩ ∧
      pushOnEnPassantFile.enPassantCol = 0 ∧
      (makeMove pushOnEnPassantFile 3 0 2 0).1 = true ∧
      (makeMove pushOnEnPassantFile 3 0 2 0).2.board 2 0 = none ∧
      (makeMove pushOnEnPassantFile 3 0 2 0).2.board 3 0 = none := by
  decide

/-- C7: with the en-passant target on (2,c) [resp. (5,c)], when a white pawn on
(3,c±1) [resp. a black pawn on (4,c±1)] is moved onto the target and `makeMove`
returns true, the pawn stands on the target (marked as moved), its origin is
empty, and the square (3,c) [resp. (4,c)] behind the target is empty. -/
theorem en_passant_capture_result (b : ChessBoard) (fromRow fromCol toRow c : Int) (pawn : Piece)
    (hside : (pawn.color = PieceColor.WHITE ∧ fromRow = 3 ∧ toRow = 2) ∨
      (pawn.color = PieceColor.BLACK ∧ fromRow = 4 ∧ toRow = 5))
    (hep : b.enPassantCol = c ∧ b.enPassantRow = toRow)
    (hadj : fromCol = c + 1 ∨ fromCol = c - 1)
    (hpawn : b.board fromRow fromCol = some pawn) (ht : pawn.type = PieceType.PAWN)
    (hok : (makeMove b fromRow fromCol toRow c).1 = true) :
    (makeMove b fromRow fromCol toRow c).2.board toRow c = some (pawn.setHasMoved true) ∧
      (makeMove b fromRow fromCol toRow c).2.board fromRow fromCol = none ∧
      (makeMove b fromRow fromCol toRow c).2.board fromRow c = none := by
  rcases makeMove_cases b fromRow fromCol toRow c with h0 | ⟨p, hv1, hv2, hp, he, hm, hb⟩
  · rw [h0] at hok; simp at hok
  rw [hpawn] at hp
  simp only [Option.some.injEq] at hp
  subst hp
  rcases hb with ⟨hk, -⟩ | ⟨-, -, hres⟩
  · rw [ht] at hk; exact absurd hk (by decide)
  have hne : fromCol ≠ c := by omega
  have hrows : fromRow ≠ toRow := by
    rcases hside with ⟨-, rfl, rfl⟩ | ⟨-, rfl, rfl⟩ <;> decide
  have hrem : removeEnPassantPawn b pawn fromRow toRow c = storeAt b fromRow c none := by
    rcases hside with ⟨hc, rfl, rfl⟩ | ⟨hc, rfl, rfl⟩ <;>
      simp [removeEnPassantPawn, ht, hep.1, Piece.isWhite, hc]
  rw [hres]
  simp only [completeMove_board, hrem, storeAt_board]
  refine ⟨?_, ?_, ?_⟩
  · simp [hne, hpawn]
  · simp [hne, hrows]
  · simp [hne.symm, hrows]

/-- Witness for C7: in `enPassantReady` the white pawn on (3,4) captures the
black pawn on (3,3) by moving to (2,3). -/
theorem en_passant_capture_result_witness :
    enPassantReady.board 3 3 = some ⟨PieceType.PAWN, PieceColor.BLACK, true⟩ ∧
      (makeMove enPassantReady 3 4 2 3).1 = true ∧
      (makeMove enPassantReady 3 4 2 3).2.board 2 3 =
        some ⟨PieceType.PAWN, PieceColor.WHITE, true⟩ ∧
      (makeMove enPassantReady 3 4 2 3).2.board 3 4 = none ∧
      (makeMove enPassantReady 3 4 2 3).2.board 3 3 = none :=
  ⟨by decide, by decide,
    en_passant_capture_result enPassantReady 3 4 2 3 ⟨PieceType.PAWN, PieceColor.WHITE, true⟩
      (Or.inl ⟨rfl, rfl, rfl⟩) (by decide) (Or.inl (by decide)) (by decide) rfl (by decide)⟩

/-- C8: after a successful `makeMove`, if the piece that stood on `from` is a
pawn and the rows differ by two, then `enPassantCol = toCol` and
`enPassantRow = (fromRow + toRow) / 2`; in every other case both fields are -1. -/
theorem en_passant_fields_after_move (b : ChessBoard) (fromRow fromCol toRow toCol : Int)
    (piece : Piece) (hp : b.board fromRow fromCol = some piece)
    (hok : (makeMove b fromRow fromCol toRow toCol).1 = true) :
    (piece.type = PieceType.PAWN ∧ (fromRow - toRow).natAbs = 2 →
        (makeMove b fromRow fromCol toRow toCol).2.enPassantCol = toCol ∧
        (makeMove b fromRow fromCol toRow toCol).2.enPassantRow = (fromRow + toRow) / 2) ∧
    (¬ (piece.type = PieceType.PAWN ∧ (fromRow - toRow).natAbs = 2) →
        (makeMove b fromRow fromCol toRow toCol).2.enPassantCol = -1 ∧
        (makeMove b fromRow fromCol toRow toCol).2.enPassantRow = -1) := by
  rcases makeMove_cases b fromRow fromCol toRow toCol with h0 | ⟨p, hv1, hv2, hp', he, hm, hb⟩
  · rw [h0] at hok; simp at hok
  rw [hp] at hp'
  simp only [Option.some.injEq] at hp'
  subst hp'
  have hdiv : (fromRow + toRow).tdiv 2 = (fromRow + toRow) / 2 := by
    simp only [isValidPosition, Bool.and_eq_true, decide_eq_true_eq] at hv1 hv2
    exact Int.tdiv_eq_ediv (by omega) (by decide)
  rcases hb with ⟨hk, h2, -, -, -, hres⟩ | ⟨-, -, hres⟩
  · -- castling: the king stays on its row and is no pawn
    have hg : getPieceAt b fromRow fromCol = piece := getPieceAt_of_board hv1 hp
    rw [getPossibleMoves_king (by rw [hg]; exact hk), hg] at hm
    obtain ⟨-, -, -, hrow, -⟩ := king_two_columns hm h2
    have hpair := completeMove_enPassant (relocateRook b fromRow (decide (toCol > fromCol)))
      piece fromRow fromCol toRow toCol
    have hn : (fromRow - toRow).natAbs ≠ 2 := by rw [hrow]; simp
    rw [if_neg (fun h => hn h.2)] at hpair
    simp only [Prod.mk.injEq] at hpair
    rw [hres]
    refine ⟨fun h => absurd h.2 hn, fun _ => hpair⟩
  · have hpair := completeMove_enPassant b piece fromRow fromCol toRow toCol
    rw [hres]
    by_cases h2 : (fromRow - toRow).natAbs = 2
    · have hrem : removeEnPassantPawn b piece fromRow toRow toCol = b := by
        unfold removeEnPassantPawn
        rw [if_neg]
        simp only [Bool.and_eq_true, Bool.or_eq_true, beq_iff_eq, not_and, not_or]
        intro _
        constructor
        · rintro ⟨-, h3⟩ h4; rw [h3, h4] at h2; simp at h2
        · rintro ⟨-, h3⟩ h4; rw [h3, h4] at h2; simp at h2
      have hto : (completeMove b piece fromRow fromCol toRow toCol).board toRow toCol =
          some (piece.setHasMoved true) := by
        simp [completeMove_board, hrem, hp]
      rw [hto] at hpair
      by_cases hty : piece.type = PieceType.PAWN
      · rw [if_pos ⟨⟨_, rfl, hty⟩, h2⟩] at hpair
        simp only [Prod.mk.injEq] at hpair
        refine ⟨fun _ => ⟨hpair.1, hpair.2.trans hdiv⟩, fun h => absurd ⟨hty, h2⟩ h⟩
      · rw [if_neg] at hpair
        · simp only [Prod.mk.injEq] at hpair
          exact ⟨fun h => absurd h.1 hty, fun _ => hpair⟩
        · rintro ⟨⟨q, hq, hqt⟩, -⟩
          simp only [Option.some.injEq] at hq
          subst hq
          exact hty hqt
    · rw [if_neg (fun h => h2 h.2)] at hpair
      simp only [Prod.mk.injEq] at hpair
      exact ⟨fun h => absurd h.2 h2, fun _ => hpair⟩

/-- Witness for C8 on the starting position: the double step (6,4) to (4,4)
sets the fields to column 4, row 5; the knight move (7,1) to (5,2) clears them. -/
theorem en_passant_fields_after_move_witness :
    ((makeMove resetBoard 6 4 4 4).1 = true ∧
      (makeMove resetBoard 6 4 4 4).2.enPassantCol = 4 ∧
      (makeMove resetBoard 6 4 4 4).2.enPassantRow = (6 + 4) / 2) ∧
    ((makeMove resetBoard 7 1 5 2).1 = true ∧
      (makeMove resetBoard 7 1 5 2).2.enPassantCol = -1 ∧
      (makeMove resetBoard 7 1 5 2).2.enPassantRow = -1) :=
  ⟨⟨by decide,
      (en_passant_fields_after_move resetBoard 6 4 4 4
        ⟨PieceType.PAWN, PieceColor.WHITE, false⟩ rfl (by decide)).1 ⟨rfl, by decide⟩⟩,
    ⟨by decide,
      (en_passant_fields_after_move resetBoard 7 1 5 2
        ⟨PieceType.KNIGHT, PieceColor.WHITE, false⟩ rfl (by decide)).2 (by decide)⟩⟩

/-- C9: when `isCheckmate` returns true for a side, `makeMove` returns false for
every source square holding a piece of that side and every destination,
castling attempts included. -/
theorem checkmate_rejects_every_move (b : ChessBoard) (isWhiteTurn : Bool)
    (fromRow fromCol toRow toCol : Int)
    (hmate : isCheckmate b isWhiteTurn = some true)
    (hcolor : (getPieceAt b fromRow fromCol).color = sideColor isWhiteTurn) :
    (makeMove b fromRow fromCol toRow toCol).1 = false := by
  rcases makeMove_cases b fromRow fromCol toRow toCol with h0 | ⟨p, hv1, hv2, hp, he, hm, hb⟩
  · rw [h0]
  exfalso
  have hg : getPieceAt b fromRow fromCol = p := getPieceAt_of_board hv1 hp
  rw [hg] at hcolor
  have hw : p.isWhite = isWhiteTurn := by
    cases isWhiteTurn <;> simp [Piece.isWhite, hcolor, sideColor]
  unfold isCheckmate at hmate
  simp only [] at hmate
  split_ifs at hmate with hchk
  · simp at hmate
  simp only [Bool.not_eq_true', Bool.not_eq_false] at hchk
  rcases hb with ⟨-, -, hc, -⟩ | ⟨-, hw2, -⟩
  · rw [hw, hchk] at hc; simp at hc
  · have hmem : ((fromRow, fromCol), (toRow, toCol)) ∈ ownCandidates b (sideColor isWhiteTurn) :=
      mem_ownCandidates hv1 (by rw [hg]; exact he) (by rw [hg]; exact hcolor) hm
    have := searchEscape_true hmate _ hmem
    simp only [] at this
    rw [hw, this] at hw2
    simp at hw2

/-- Witness for C9: after 1. f3 e5 2. g4 Qh4 White is checkmated; the pawn move
(6,4) to (5,4) and the king move (7,4) to (6,5) are rejected. -/
theorem checkmate_rejects_every_move_witness :
    isCheckmate foolsMate true = some true ∧ (makeMove foolsMate 6 4 5 4).1 = false ∧
      (makeMove foolsMate 7 4 6 5).1 = false :=
  ⟨by decide, checkmate_rejects_every_move foolsMate true 6 4 5 4 (by decide) (by decide),
    checkmate_rejects_every_move foolsMate true 7 4 6 5 (by decide) (by decide)⟩

/-- C10, evaluated where the code departs from it: in `castleOutOfCheck` the
white king is in check and `isCheckmate` returns false, because the castling
destination (7,6) passes the legality filter; yet `makeMove` rejects every move
of a white piece, the castling included, since the king is in check. -/
theorem castling_counted_as_escape :
    isKingInCheck castleOutOfCheck PieceColor.WHITE = true ∧
      isCheckmate castleOutOfCheck true = some false ∧
      wouldMoveExposeKing castleOutOfCheck 7 4 7 6 true = false ∧
      ∀ fromRow fromCol toRow toCol : Int,
        (getPieceAt castleOutOfCheck fromRow fromCol).color = PieceColor.WHITE →
          (makeMove castleOutOfCheck fromRow fromCol toRow toCol).1 = false := by
  refine ⟨by decide, by decide, by decide, ?_⟩
  have hall : ∀ s ∈ allSquares, ∀ t ∈ allSquares,
      (getPieceAt castleOutOfCheck s.1 s.2).color = PieceColor.WHITE →
        (makeMove castleOutOfCheck s.1 s.2 t.1 t.2).1 = false := by decide
  intro fromRow fromCol toRow toCol hc
  by_contra hne
  simp only [Bool.not_eq_false] at hne
  obtain ⟨hv1, hv2⟩ := makeMove_accepted_valid hne
  have := hall (fromRow, fromCol) (mem_allSquares hv1) (toRow, toCol) (mem_allSquares hv2) hc
  simp only [] at this
  rw [this] at hne
  simp at hne

/-- C11, evaluated where the code departs from it: after the nine accepted moves
of `pawnOnLastRankMoves` a white pawn stands on (0,0) and lists the destination
(-1,0), which is outside the board. White is not in check, so `isStalemate(true)`
enters the search, whose first candidate is that move: `wouldMoveExposeKing`
stores outside the array and the call has no result. -/
theorem stalemate_search_stores_outside_board :
    movesAccepted resetBoard pawnOnLastRankMoves = true ∧
      pawnOnLastRank.board 0 0 = some ⟨PieceType.PAWN, PieceColor.WHITE, true⟩ ∧
      getPossibleMoves pawnOnLastRank 0 0 = [(-1, 0)] ∧
      isValidPosition (-1) 0 = false ∧
      isKingInCheck pawnOnLastRank PieceColor.WHITE = false ∧
      (ownCandidates pawnOnLastRank PieceColor.WHITE).head? = some ((0, 0), (-1, 0)) ∧
      isStalemate pawnOnLastRank true = none := by
  refine ⟨by decide, by decide, by decide, by decide, by decide, by decide, by decide⟩

/-- The searches on the boards where they have a result. Let N say that
`wouldMoveExposeKing` is true for every destination in `getPossibleMoves` of
every piece of the side. A result of `isCheckmate` is true exactly when the king
is in check and N holds; a result of `isStalemate` is true exactly when the king
is not in check and N holds. Both queries have a result whenever every
destination listed for the side is in range, and they are never both true. -/
theorem checkmate_stalemate_search (b : ChessBoard) (isWhiteTurn : Bool) :
    (∀ v, isCheckmate b isWhiteTurn = some v →
      (v = true ↔ (isKingInCheck b (sideColor isWhiteTurn) = true ∧
        ∀ row col : Int, isValidPosition row col = true →
          (getPieceAt b row col).isEmpty = false →
          (getPieceAt b row col).color = sideColor isWhiteTurn →
          ∀ move ∈ getPossibleMoves b row col,
            wouldMoveExposeKing b row col move.1 move.2 isWhiteTurn = true))) ∧
    (∀ v, isStalemate b isWhiteTurn = some v →
      (v = true ↔ (isKingInCheck b (sideColor isWhiteTurn) = false ∧
        ∀ row col : Int, isValidPosition row col = true →
          (getPieceAt b row col).isEmpty = false →
          (getPieceAt b row col).color = sideColor isWhiteTurn →
          ∀ move ∈ getPossibleMoves b row col,
            wouldMoveExposeKing b row col move.1 move.2 isWhiteTurn = true))) ∧
    ((∀ row col : Int, isValidPosition row col = true →
          (getPieceAt b row col).isEmpty = false →
          (getPieceAt b row col).color = sideColor isWhiteTurn →
          ∀ move ∈ getPossibleMoves b row col, isValidPosition move.1 move.2 = true) →
      (∃ v, isCheckmate b isWhiteTurn = some v) ∧ (∃ v, isStalemate b isWhiteTurn = some v)) ∧
    ¬ (isCheckmate b isWhiteTurn = some true ∧ isStalemate b isWhiteTurn = some true) := by
  have hN : (∀ x ∈ ownCandidates b (sideColor isWhiteTurn),
        wouldMoveExposeKing b x.1.1 x.1.2 x.2.1 x.2.2 isWhiteTurn = true) ↔
      (∀ row col : Int, isValidPosition row col = true →
          (getPieceAt b row col).isEmpty = false →
          (getPieceAt b row col).color = sideColor isWhiteTurn →
          ∀ move ∈ getPossibleMoves b row col,
            wouldMoveExposeKing b row col move.1 move.2 isWhiteTurn = true) := by
    constructor
    · intro h row col hv he hc move hm
      exact h ((row, col), move) (mem_ownCandidates_iff.2 ⟨hv, he, hc, hm⟩)
    · intro h x hx
      obtain ⟨hv, he, hc, hm⟩ := mem_ownCandidates_iff.1 hx
      exact h x.1.1 x.1.2 hv he hc x.2 hm
  have hmate : ∀ v, isCheckmate b isWhiteTurn = some v →
      (v = true ↔ (isKingInCheck b (sideColor isWhiteTurn) = true ∧
        ∀ x ∈ ownCandidates b (sideColor isWhiteTurn),
          wouldMoveExposeKing b x.1.1 x.1.2 x.2.1 x.2.2 isWhiteTurn = true)) := by
    intro v hv
    unfold isCheckmate at hv
    simp only [] at hv
    split_ifs at hv with hc
    · simp only [Bool.not_eq_true'] at hc
      simp only [Option.some.injEq] at hv
      simp [← hv, hc]
    · simp only [Bool.not_eq_true', Bool.not_eq_false] at hc
      rw [searchEscape_some_iff hv]
      simp [hc]
  have hstale : ∀ v, isStalemate b isWhiteTurn = some v →
      (v = true ↔ (isKingInCheck b (sideColor isWhiteTurn) = false ∧
        ∀ x ∈ ownCandidates b (sideColor isWhiteTurn),
          wouldMoveExposeKing b x.1.1 x.1.2 x.2.1 x.2.2 isWhiteTurn = true)) := by
    intro v hv
    unfold isStalemate at hv
    simp only [] at hv
    split_ifs at hv with hc
    · simp only [Option.some.injEq] at hv
      simp [← hv, hc]
    · simp only [Bool.not_eq_true] at hc
      rw [searchEscape_some_iff hv]
      simp [hc]
  refine ⟨?_, ?_, ?_, ?_⟩
  · intro v hv
    rw [← hN]
    exact hmate v hv
  · intro v hv
    rw [← hN]
    exact hstale v hv
  · intro hdef
    have hd : ∀ x ∈ ownCandidates b (sideColor isWhiteTurn),
        isValidPosition x.2.1 x.2.2 = true := by
      intro x hx
      obtain ⟨hv, he, hc, hm⟩ := mem_ownCandidates_iff.1 hx
      exact hdef x.1.1 x.1.2 hv he hc x.2 hm
    obtain ⟨v, hv⟩ :=
      @searchEscape_defined b isWhiteTurn (ownCandidates b (sideColor isWhiteTurn)) hd
    unfold isCheckmate isStalemate
    simp only []
    constructor
    · split_ifs
      · exact ⟨false, rfl⟩
      · exact ⟨v, hv⟩
    · split_ifs
      · exact ⟨false, rfl⟩
      · exact ⟨v, hv⟩
  · rintro ⟨h1, h2⟩
    have c1 := ((hmate true h1).1 rfl).1
    have c2 := ((hstale true h2).1 rfl).1
    rw [c1] at c2
    simp at c2

/-- Two instances of `checkmate_stalemate_search`: Black is stalemated and not
checkmated in `stalematePosition`, where the black king is not in check; White
is checkmated in `foolsMate`, where the white king is in check. -/
theorem checkmate_stalemate_search_witness :
    isStalemate stalematePosition false = some true ∧
      isCheckmate stalematePosition false = some false ∧
      isKingInCheck stalematePosition (sideColor false) = false ∧
      isCheckmate foolsMate true = some true ∧
      isKingInCheck foolsMate (sideColor true) = true :=
  ⟨by decide, by decide,
    (((checkmate_stalemate_search stalematePosition false).2.1 true (by decide)).1 rfl).1,
    by decide,
    (((checkmate_stalemate_search foolsMate true).1 true (by decide)).1 rfl).1⟩

/-- C12: on a board without a king of the side, `isInCheck` and `isKingInCheck`
return false, `isCheckmate` returns false, and `wouldMoveExposeKing` returns
false for every move between in-range squares of a piece of the side. -/
theorem queries_without_king (b : ChessBoard) (isWhiteTurn : Bool)
    (hno : ∀ row col : Int, isValidPosition row col = true →
      ¬ ((getPieceAt b row col).type = PieceType.KING ∧
        (getPieceAt b row col).color = sideColor isWhiteTurn)) :
    isInCheck b isWhiteTurn = false ∧
    isKingInCheck b (sideColor isWhiteTurn) = false ∧
    isCheckmate b isWhiteTurn = some false ∧
    ∀ fromRow fromCol toRow toCol : Int,
      isValidPosition fromRow fromCol = true → isValidPosition toRow toCol = true →
      (getPieceAt b fromRow fromCol).color = sideColor isWhiteTurn →
      wouldMoveExposeKing b fromRow fromCol toRow toCol isWhiteTurn = false := by
  refine ⟨?_, isKingInCheck_of_no_king hno, ?_, ?_⟩
  · unfold isInCheck
    simp only [findPlayerKing_of_no_king hno]
    rw [← Bool.not_eq_true, List.any_eq_true]
    rintro ⟨s, hs, hc⟩
    simp only [Bool.and_eq_true] at hc
    obtain ⟨-, hm⟩ := hc
    rw [any_dest_iff] at hm
    exact sentinel_not_mem_getPossibleMoves (mem_allSquares_iff.1 hs) hm
  · unfold isCheckmate
    simp [isKingInCheck_of_no_king hno]
  · intro fromRow fromCol toRow toCol _ _ _
    exact wouldMoveExposeKing_of_no_king hno fromRow fromCol toRow toCol

/-- Witness for C12: `kinglessPosition` has no white king; the four queries
return false for White, the last one for the queen capturing on (0,3). -/
theorem queries_without_king_witness :
    isInCheck kinglessPosition true = false ∧
    isKingInCheck kinglessPosition (sideColor true) = false ∧
    isCheckmate kinglessPosition true = some false ∧
    wouldMoveExposeKing kinglessPosition 7 3 0 3 true = false :=
  have h := queries_without_king kinglessPosition true
    (fun row col hv => (by decide : ∀ s ∈ allSquares,
        ¬ ((getPieceAt kinglessPosition s.1 s.2).type = PieceType.KING ∧
          (getPieceAt kinglessPosition s.1 s.2).color = sideColor true))
      (row, col) (mem_allSquares hv))
  ⟨h.1, h.2.1, h.2.2.1, h.2.2.2 7 3 0 3 (by decide) (by decide) (by decide)⟩

/-- C13: run on any board, `resetBoard` leaves the starting layout on the 64
squares (black back rank on row 0, black pawns on row 1, white pawns on row 6,
white back rank on row 7, rows 2 to 5 empty, every piece unmoved), 16 white and
16 black pieces, the six moved-flags false and both en-passant fields -1; on
that board `isCheckmate` and `isStalemate` are false for both sides. -/
theorem resetBoard_starting_position (b : ChessBoard) :
    (∀ r c : Int, isValidPosition r c = true →
      (resetBoardFrom b).board r c = startingSquare r c) ∧
    (allSquares.filter (fun s =>
      (getPieceAt (resetBoardFrom b) s.1 s.2).color == PieceColor.WHITE)).length = 16 ∧
    (allSquares.filter (fun s =>
      (getPieceAt (resetBoardFrom b) s.1 s.2).color == PieceColor.BLACK)).length = 16 ∧
    (resetBoardFrom b).whiteKingMoved = false ∧ (resetBoardFrom b).blackKingMoved = false ∧
    (resetBoardFrom b).whiteRook1Moved = false ∧ (resetBoardFrom b).whiteRook2Moved = false ∧
    (resetBoardFrom b).blackRook1Moved = false ∧ (resetBoardFrom b).blackRook2Moved = false ∧
    (resetBoardFrom b).enPassantCol = -1 ∧ (resetBoardFrom b).enPassantRow = -1 ∧
    isCheckmate (resetBoardFrom b) true = some false ∧
    isCheckmate (resetBoardFrom b) false = some false ∧
    isStalemate (resetBoardFrom b) true = some false ∧
    isStalemate (resetBoardFrom b) false = some false := by
  have hsv := resetBoardFrom_sameView b
  have hg := getPieceAt_congr hsv
  refine ⟨fun r c hv => (resetBoardFrom_board b hv).trans (resetBoard_board_eq hv), ?_, ?_,
    rfl, rfl, rfl, rfl, rfl, rfl, rfl, rfl, ?_, ?_, ?_, ?_⟩
  · rw [hg]; decide
  · rw [hg]; decide
  · rw [(isCheckmate_congr hsv true).1]; decide
  · rw [(isCheckmate_congr hsv false).1]; decide
  · rw [(isCheckmate_congr hsv true).2]; decide
  · rw [(isCheckmate_congr hsv false).2]; decide

/-- Witness for C13: `resetBoard` run on the position `foolsMate` puts the black
queen back on (0,3) and the white king on (7,4), and empties (4,7). -/
theorem resetBoard_starting_position_witness :
    (resetBoardFrom foolsMate).board 0 3 = some ⟨PieceType.QUEEN, PieceColor.BLACK, false⟩ ∧
      (resetBoardFrom foolsMate).board 7 4 = some ⟨PieceType.KING, PieceColor.WHITE, false⟩ ∧
      (resetBoardFrom foolsMate).board 4 7 = none ∧
      isCheckmate (resetBoardFrom foolsMate) true = some false :=
  ⟨(resetBoard_starting_position foolsMate).1 0 3 (by decide),
    (resetBoard_starting_position foolsMate).1 7 4 (by decide),
    (resetBoard_starting_position foolsMate).1 4 7 (by decide),
    (resetBoard_starting_position foolsMate).2.2.2.2.2.2.2.2.2.2.2.1⟩

/-- C14: on an in-range square that holds a pawn, `promotePawn` with request `t`
leaves a piece of the colour of the pawn whose type is `t` for QUEEN, ROOK,
BISHOP and KNIGHT and QUEEN for every other request; every other square, the six
moved-flags and both en-passant fields are unchanged. -/
theorem promotePawn_result (b : ChessBoard) (row col : Int) (pawn : Piece) (t : PieceType)
    (hv : isValidPosition row col = true) (hp : b.board row col = some pawn)
    (ht : pawn.type = PieceType.PAWN) :
    (∃ q, (promotePawn b row col t).board row col = some q ∧ q.color = pawn.color ∧
      q.type = (if t = PieceType.QUEEN ∨ t = PieceType.ROOK ∨ t = PieceType.BISHOP ∨
        t = PieceType.KNIGHT then t else PieceType.QUEEN)) ∧
    (∀ r c : Int, ¬ (r = row ∧ c = col) →
      (promotePawn b row col t).board r c = b.board r c) ∧
    (promotePawn b row col t).whiteKingMoved = b.whiteKingMoved ∧
    (promotePawn b row col t).blackKingMoved = b.blackKingMoved ∧
    (promotePawn b row col t).whiteRook1Moved = b.whiteRook1Moved ∧
    (promotePawn b row col t).whiteRook2Moved = b.whiteRook2Moved ∧
    (promotePawn b row col t).blackRook1Moved = b.blackRook1Moved ∧
    (promotePawn b row col t).blackRook2Moved = b.blackRook2Moved ∧
    (promotePawn b row col t).enPassantCol = b.enPassantCol ∧
    (promotePawn b row col t).enPassantRow = b.enPassantRow := by
  rw [promotePawn_of_pawn t hv hp ht]
  refine ⟨⟨newPiece (promotedType t) pawn.color, by simp, rfl, rfl⟩, ?_, rfl, rfl, rfl, rfl,
    rfl, rfl, rfl, rfl⟩
  intro r c hrc
  simp [hrc]

/-- Witness for C14: the white pawn on (0,0) of `pawnOnLastRank` becomes a white
knight on request KNIGHT and a white queen on request KING. -/
theorem promotePawn_result_witness :
    (∃ q, (promotePawn pawnOnLastRank 0 0 PieceType.KNIGHT).board 0 0 = some q ∧
      q.color = PieceColor.WHITE ∧ q.type = PieceType.KNIGHT) ∧
    (∃ q, (promotePawn pawnOnLastRank 0 0 PieceType.KING).board 0 0 = some q ∧
      q.color = PieceColor.WHITE ∧ q.type = PieceType.QUEEN) :=
  ⟨(promotePawn_result pawnOnLastRank 0 0 ⟨PieceType.PAWN, PieceColor.WHITE, true⟩
      PieceType.KNIGHT (by decide) (by decide) rfl).1,
    (promotePawn_result pawnOnLastRank 0 0 ⟨PieceType.PAWN, PieceColor.WHITE, true⟩
      PieceType.KING (by decide) (by decide) rfl).1⟩

/-- C15: `promotePawn` returns the board unchanged when the square is out of
range, when it is empty, and when its occupant is not a pawn. -/
theorem promotePawn_noop (b : ChessBoard) (row col : Int) (t : PieceType)
    (h : isValidPosition row col = false ∨ b.board row col = none ∨
      (getPieceAt b row col).type ≠ PieceType.PAWN) :
    promotePawn b row col t = b := by
  unfold promotePawn
  by_cases hv : isValidPosition row col = true
  swap
  · simp [hv]
  simp only [hv, Bool.not_true, Bool.false_eq_true, if_false, getPieceAtPtr, if_true]
  cases hb : b.board row col with
  | none => rfl
  | some piece =>
    rcases h with h | h | h
    · simp [hv] at h
    · simp [hb] at h
    · simp only [getPieceAt, hv, if_true, hb] at h
      simp [h]

/-- Witness for C15: on the starting position `promotePawn` changes nothing for
the out-of-range square (8,0), the empty square (4,4) and the queen on (7,3). -/
theorem promotePawn_noop_witness :
    promotePawn resetBoard 8 0 PieceType.QUEEN = resetBoard ∧
      promotePawn resetBoard 4 4 PieceType.QUEEN = resetBoard ∧
      promotePawn resetBoard 7 3 PieceType.ROOK = resetBoard :=
  ⟨promotePawn_noop resetBoard 8 0 PieceType.QUEEN (Or.inl (by decide)),
    promotePawn_noop resetBoard 4 4 PieceType.QUEEN (Or.inr (Or.inl (by decide))),
    promotePawn_noop resetBoard 7 3 PieceType.ROOK (Or.inr (Or.inr (by decide)))⟩

/-- C16 as stated fails for the non-const overload of `getPieceAt`: on the
starting position it returns `nullptr`, not the sentinel, for the empty square
(4,4) and for the out-of-range square (8,0). -/
theorem getPieceAt_non_const_returns_null :
    getPieceAtPtr resetBoard 4 4 = none ∧ getPieceAtPtr resetBoard 8 0 = none ∧
      getPieceAtPtr resetBoard 4 4 ≠ some emptyPiece ∧
      getPieceAtPtr resetBoard 8 0 ≠ some emptyPiece := by
  decide

/-- C16, amended: for an out-of-range square and for an in-range empty square the
const overload of `getPieceAt` returns the empty sentinel (type NONE, colour
NONE, `isEmpty` true) and the non-const overload returns `nullptr`; for an
in-range occupied square both return the occupant. -/
theorem getPieceAt_sentinel (b : ChessBoard) (row col : Int) :
    ((isValidPosition row col = false ∨ b.board row col = none) →
      getPieceAt b row col = emptyPiece ∧ getPieceAtPtr b row col = none) ∧
    (∀ p, isValidPosition row col = true → b.board row col = some p →
      getPieceAt b row col = p ∧ getPieceAtPtr b row col = some p) ∧
    emptyPiece.type = PieceType.NONE ∧ emptyPiece.color = PieceColor.NONE ∧
    emptyPiece.isEmpty = true := by
  refine ⟨?_, ?_, rfl, rfl, rfl⟩
  · rintro (h | h)
    · simp [getPieceAt, getPieceAtPtr, h]
    · by_cases hv : isValidPosition row col = true <;> simp [getPieceAt, getPieceAtPtr, h, hv]
  · intro p hv hp
    simp [getPieceAt, getPieceAtPtr, hv, hp]

/-- Witness for C16: the two overloads on the starting position, for the
out-of-range square (8,0), the empty square (4,4) and the white queen on (7,3). -/
theorem getPieceAt_sentinel_witness :
    getPieceAt resetBoard 8 0 = emptyPiece ∧ getPieceAt resetBoard 4 4 = emptyPiece ∧
      getPieceAt resetBoard 7 3 = ⟨PieceType.QUEEN, PieceColor.WHITE, false⟩ ∧
      getPieceAtPtr resetBoard 7 3 = some ⟨PieceType.QUEEN, PieceColor.WHITE, false⟩ :=
  ⟨((getPieceAt_sentinel resetBoard 8 0).1 (Or.inl (by decide))).1,
    ((getPieceAt_sentinel resetBoard 4 4).1 (Or.inr (by decide))).1,
    ((getPieceAt_sentinel resetBoard 7 3).2.1 _ (by decide) (by decide)).1,
    ((getPieceAt_sentinel resetBoard 7 3).2.1 _ (by decide) (by decide)).2⟩

/-- C17, evaluated where the code departs from it. The nine calls of
`pawnOnLastRankMoves` are accepted and leave a white pawn on (0,0), for which
`getPossibleMoves` lists (-1,0), a square out of range. The eleven calls of
`ownPieceOnEnPassantTargetMoves` are accepted and leave a white pawn on (3,3)
for which `getPossibleMoves` lists (2,4), the square of the white queen. -/
theorem pawn_lists_off_board_and_own_square :
    (movesAccepted resetBoard pawnOnLastRankMoves = true ∧
      pawnOnLastRank.board 0 0 = some ⟨PieceType.PAWN, PieceColor.WHITE, true⟩ ∧
      (-1, 0) ∈ getPossibleMoves pawnOnLastRank 0 0 ∧ isValidPosition (-1) 0 = false) ∧
    (movesAccepted resetBoard ownPieceOnEnPassantTargetMoves = true ∧
      ownPieceOnEnPassantTarget.board 3 3 = some ⟨PieceType.PAWN, PieceColor.WHITE, true⟩ ∧
      (2, 4) ∈ getPossibleMoves ownPieceOnEnPassantTarget 3 3 ∧
      ownPieceOnEnPassantTarget.board 2 4 =
        some ⟨PieceType.QUEEN, PieceColor.WHITE, true⟩) :=
  ⟨by decide, by decide⟩

/-- C18: for a queen on an in-range square `(row, col)`, a square `(r, k)` is in
`Queen::getPossibleMoves` exactly when it is in range, differs from
`(row, col)`, shares its row, column or a diagonal, every square strictly
between the two is empty, and `(r, k)` is empty or holds a piece of another
colour; the list holds no square twice. -/
theorem queen_destinations (b : ChessBoard) (queen : Piece) (row col r k : Int)
    (hv : isValidPosition row col = true) :
    ((r, k) ∈ Queen.getPossibleMoves queen row col b ↔
      (isValidPosition r k = true ∧ (r, k) ≠ (row, col) ∧
        (r = row ∨ k = col ∨ (r - row).natAbs = (k - col).natAbs) ∧
        (∀ x y : Int, onLineBetween row col r k x y = true →
          (getPieceAt b x y).isEmpty = true) ∧
        ((getPieceAt b r k).isEmpty = true ∨ (getPieceAt b r k).color ≠ queen.color))) ∧
    (Queen.getPossibleMoves queen row col b).Nodup := by
  constructor
  · unfold Queen.getPossibleMoves
    rw [List.mem_flatMap]
    constructor
    · rintro ⟨⟨dr, dc⟩, hd, hx⟩
      rw [slide_mem_iff] at hx
      obtain ⟨n, hn1, -, hxn, hval, hemp, hend⟩ := hx
      exact ray_to_line hd hn1 hxn hval hemp hend
    · rintro ⟨hrk, hne, hline, hbet, hend⟩
      obtain ⟨dir, hd, n, hn1, hn8, hx, hval, hemp⟩ := line_to_ray hv hrk hne hline hbet
      refine ⟨dir, hd, ?_⟩
      rw [slide_mem_iff]
      exact ⟨n, hn1, hn8, hx, hval, hemp, hend⟩
  · unfold Queen.getPossibleMoves
    rw [List.nodup_flatMap]
    refine ⟨fun dir hd => slide_nodup b queen.color hd 8 row col, ?_⟩
    have hnd : queenDirections.Nodup := by decide
    exact List.Pairwise.imp_of_mem
      (fun ha hb hne => slide_disjoint b queen.color row col ha hb hne) hnd

/-- Witness for C18: the black queen on (0,4) of `castleOutOfCheck` reaches
(7,4), the square of the white king; the squares between are empty, and her
list holds no square twice. -/
theorem queen_destinations_witness :
    isValidPosition 0 4 = true ∧
      (7, 4) ∈ Queen.getPossibleMoves ⟨PieceType.QUEEN, PieceColor.BLACK, true⟩ 0 4
        castleOutOfCheck ∧
      (∀ x y : Int, onLineBetween 0 4 7 4 x y = true →
        (getPieceAt castleOutOfCheck x y).isEmpty = true) ∧
      (Queen.getPossibleMoves ⟨PieceType.QUEEN, PieceColor.BLACK, true⟩ 0 4
        castleOutOfCheck).Nodup :=
  ⟨by decide, by decide,
    ((queen_destinations castleOutOfCheck ⟨PieceType.QUEEN, PieceColor.BLACK, true⟩ 0 4 7 4
      (by decide)).1.1 (by decide)).2.2.2.1,
    (queen_destinations castleOutOfCheck ⟨PieceType.QUEEN, PieceColor.BLACK, true⟩ 0 4 7 4
      (by decide)).2⟩

/-- C19: with `h` the home row of the king (7 for white, 0 for black), the list
of `King::getPossibleMoves` holds `(h, 6)` two columns from the king exactly
when the king has not moved, stands on `(h, 4)`, `(h, 5)` and `(h, 6)` are empty
and `(h, 7)` holds an unmoved rook of the colour of the king; it holds `(h, 2)`
two columns from the king exactly when the king has not moved, stands on
`(h, 4)`, `(h, 1)`, `(h, 2)`, `(h, 3)` are empty and `(h, 0)` holds such a rook.
Every other destination is an in-range adjacent square that is empty or holds a
piece of another colour, and every such square is listed. -/
theorem king_destinations (b : ChessBoard) (king : Piece) (row col : Int) :
    (((if king.color = PieceColor.WHITE then (7 : Int) else 0, (6 : Int)) ∈
          King.getPossibleMoves king row col b ∧ (col - 6).natAbs = 2) ↔
      (king.hasMoved = false ∧ row = (if king.color = PieceColor.WHITE then 7 else 0) ∧ col = 4 ∧
        (getPieceAt b row 5).isEmpty = true ∧ (getPieceAt b row 6).isEmpty = true ∧
        (getPieceAt b row 7).type = PieceType.ROOK ∧
        (getPieceAt b row 7).color = king.color ∧ (getPieceAt b row 7).hasMoved = false)) ∧
    (((if king.color = PieceColor.WHITE then (7 : Int) else 0, (2 : Int)) ∈
          King.getPossibleMoves king row col b ∧ (col - 2).natAbs = 2) ↔
      (king.hasMoved = false ∧ row = (if king.color = PieceColor.WHITE then 7 else 0) ∧ col = 4 ∧
        (getPieceAt b row 1).isEmpty = true ∧ (getPieceAt b row 2).isEmpty = true ∧
        (getPieceAt b row 3).isEmpty = true ∧
        (getPieceAt b row 0).type = PieceType.ROOK ∧
        (getPieceAt b row 0).color = king.color ∧ (getPieceAt b row 0).hasMoved = false)) ∧
    (∀ x ∈ King.getPossibleMoves king row col b,
      ((col - x.2).natAbs = 2 ∧
        (x = (if king.color = PieceColor.WHITE then (7 : Int) else 0, (6 : Int)) ∨
          x = (if king.color = PieceColor.WHITE then (7 : Int) else 0, (2 : Int)))) ∨
      ((x.1 - row).natAbs ≤ 1 ∧ (x.2 - col).natAbs ≤ 1 ∧ x ≠ (row, col) ∧
        isValidPosition x.1 x.2 = true ∧
        ((getPieceAt b x.1 x.2).isEmpty = true ∨ (getPieceAt b x.1 x.2).color ≠ king.color))) ∧
    (∀ x : Int × Int, (x.1 - row).natAbs ≤ 1 → (x.2 - col).natAbs ≤ 1 → x ≠ (row, col) →
      isValidPosition x.1 x.2 = true →
      ((getPieceAt b x.1 x.2).isEmpty = true ∨ (getPieceAt b x.1 x.2).color ≠ king.color) →
      x ∈ King.getPossibleMoves king row col b) := by
  refine ⟨?_, ?_, ?_, ?_⟩
  · rw [king_mem_iff, kingOffsets_iff]
    constructor
    · rintro ⟨(⟨⟨-, h2, -⟩, -⟩ | ⟨hm, hrow, hcol, hs⟩), h6⟩
      · exfalso; simp only at h2; omega
      · rcases hs with ⟨-, e5, e6, ht, hc, hh⟩ | ⟨hx, -⟩
        · exact ⟨hm, hrow, hcol, e5, e6, ht, hc, hh⟩
        · simp only [Prod.mk.injEq] at hx; omega
    · rintro ⟨hm, hrow, hcol, e5, e6, ht, hc, hh⟩
      subst hcol
      refine ⟨Or.inr ⟨hm, hrow, rfl, Or.inl ⟨?_, e5, e6, ht, hc, hh⟩⟩, by decide⟩
      rw [← hrow]
  · rw [king_mem_iff, kingOffsets_iff]
    constructor
    · rintro ⟨(⟨⟨-, h2, -⟩, -⟩ | ⟨hm, hrow, hcol, hs⟩), h6⟩
      · exfalso; simp only at h2; omega
      · rcases hs with ⟨hx, -⟩ | ⟨-, e1, e2, e3, ht, hc, hh⟩
        · simp only [Prod.mk.injEq] at hx; omega
        · exact ⟨hm, hrow, hcol, e1, e2, e3, ht, hc, hh⟩
    · rintro ⟨hm, hrow, hcol, e1, e2, e3, ht, hc, hh⟩
      subst hcol
      refine ⟨Or.inr ⟨hm, hrow, rfl, Or.inr ⟨?_, e1, e2, e3, ht, hc, hh⟩⟩, by decide⟩
      rw [← hrow]
  · intro x hx
    rw [king_mem_iff, kingOffsets_iff] at hx
    rcases hx with ⟨⟨h1, h2, h3⟩, hv, he⟩ | ⟨-, hrow, hcol, hs⟩
    · exact Or.inr ⟨h1, h2, h3, hv, he⟩
    · left
      subst hcol
      rcases hs with ⟨rfl, -⟩ | ⟨rfl, -⟩
      · exact ⟨(by decide : ((4 : Int) - 6).natAbs = 2), Or.inl (by rw [← hrow])⟩
      · exact ⟨(by decide : ((4 : Int) - 2).natAbs = 2), Or.inr (by rw [← hrow])⟩
  · intro x h1 h2 h3 hv he
    rw [king_mem_iff, kingOffsets_iff]
    exact Or.inl ⟨⟨h1, h2, h3⟩, hv, he⟩

/-- Witness for C19: the unmoved white king on (7,4) lists (7,6) in
`castleReady`, and does not list it on the starting position, where (7,5) is
occupied. -/
theorem king_destinations_witness :
    ((7 : Int), (6 : Int)) ∈
        King.getPossibleMoves ⟨PieceType.KING, PieceColor.WHITE, false⟩ 7 4 castleReady ∧
      ((7 : Int), (6 : Int)) ∉
        King.getPossibleMoves ⟨PieceType.KING, PieceColor.WHITE, false⟩ 7 4 resetBoard :=
  ⟨((king_destinations castleReady ⟨PieceType.KING, PieceColor.WHITE, false⟩ 7 4).1.2
      (by decide)).1,
    fun h => absurd (((king_destinations resetBoard ⟨PieceType.KING, PieceColor.WHITE, false⟩
      7 4).1.1 ⟨h, by decide⟩).2.2.2.1) (by decide)⟩

/-- C20: with `d` the forward direction of the pawn (-1 for white, 1 for
black), the destinations of `Pawn::getPossibleMoves` in the column of the pawn
are `(row + d, col)` when that square is empty, and `(row + 2 * d, col)` when
the pawn is on its home row (6 for white, 1 for black) and both `(row + d, col)`
and `(row + 2 * d, col)` are empty; there are no others. -/
theorem pawn_same_column_destinations (b : ChessBoard) (p : Piece) (row col x : Int) :
    (x, col) ∈ Pawn.getPossibleMoves p row col b ↔
      (x = row + (if p.isWhite then -1 else 1) ∧
        (getPieceAt b (row + (if p.isWhite then -1 else 1)) col).isEmpty = true) ∨
      (x = row + 2 * (if p.isWhite then -1 else 1) ∧
        ((p.isWhite = true ∧ row = 6) ∨ (p.isBlack = true ∧ row = 1)) ∧
        (getPieceAt b (row + (if p.isWhite then -1 else 1)) col).isEmpty = true ∧
        (getPieceAt b (row + 2 * (if p.isWhite then -1 else 1)) col).isEmpty = true) := by
  rw [pawn_mem_iff]
  simp only [Prod.mk.injEq, and_true]
  constructor
  · rintro (h | h | ⟨o, ho, ⟨-, hc⟩, -⟩ | ⟨⟨-, hc⟩, -, -, ha⟩)
    · exact Or.inl h
    · exact Or.inr h
    · exfalso; rcases ho with rfl | rfl <;> omega
    · exfalso; rw [← hc] at ha; simp at ha
  · rintro (h | h)
    · exact Or.inl h
    · exact Or.inr (Or.inl h)

/-- Witness for C20: on the starting position the white pawn on (6,4) has the
double step to (4,4) and no step to (3,4); the black pawn on (1,4) has no step
back to (0,4). -/
theorem pawn_same_column_destinations_witness :
    (4, 4) ∈ Pawn.getPossibleMoves ⟨PieceType.PAWN, PieceColor.WHITE, false⟩ 6 4 resetBoard ∧
      (3, 4) ∉ Pawn.getPossibleMoves ⟨PieceType.PAWN, PieceColor.WHITE, false⟩ 6 4 resetBoard ∧
      (0, 4) ∉ Pawn.getPossibleMoves ⟨PieceType.PAWN, PieceColor.BLACK, false⟩ 1 4 resetBoard :=
  ⟨(pawn_same_column_destinations resetBoard ⟨PieceType.PAWN, PieceColor.WHITE, false⟩ 6 4 4).2
      (Or.inr ⟨by decide, by decide, by decide, by decide⟩),
    fun h => absurd ((pawn_same_column_destinations resetBoard
      ⟨PieceType.PAWN, PieceColor.WHITE, false⟩ 6 4 3).1 h) (by decide),
    fun h => absurd ((pawn_same_column_destinations resetBoard
      ⟨PieceType.PAWN, PieceColor.BLACK, false⟩ 1 4 0).1 h) (by decide)⟩

/-- C21, evaluated where the code departs from it: after `makeMove` (6,3,4,3),
(1,0,2,0), (4,3,3,3), (2,0,3,0), (6,4,4,4) on the starting position, all accepted,
the white pawn on (3,3) lists the diagonal destination (2,4), although that
square is empty and the en-passant target is (5,4). -/
theorem pawn_lists_diagonal_beside_own_double_step :
    movesAccepted resetBoard
        [((6, 3), (4, 3)), ((1, 0), (2, 0)), ((4, 3), (3, 3)), ((2, 0), (3, 0)),
          ((6, 4), (4, 4))] = true ∧
      ownDoubleStepBesidePawn.board 3 3 = some ⟨PieceType.PAWN, PieceColor.WHITE, true⟩ ∧
      (2, 4) ∈ Pawn.getPossibleMoves ⟨PieceType.PAWN, PieceColor.WHITE, true⟩ 3 3
        ownDoubleStepBesidePawn ∧
      (getPieceAt ownDoubleStepBesidePawn 2 4).isEmpty = true ∧
      ownDoubleStepBesidePawn.enPassantCol = 4 ∧ ownDoubleStepBesidePawn.enPassantRow = 5 := by
  decide

/-- C22 does not hold for a move that ends the game. In a new game the moves
(6,5) to (5,5), (1,4) to (3,4), (6,6) to (4,6) leave the black queen on (0,3) and
(4,7) empty; the mating move (0,3) to (4,7) sets `gameOver`, and `undoLastMove`
then leaves (0,3) empty and the queen on (4,7). -/
theorem undo_after_checkmate_changes_nothing :
    (newGame.play [((6, 5), (5, 5)), ((1, 4), (3, 4)), ((6, 6), (4, 6))]).map
        (fun s => (squareView s.chessBoard 0 3, squareView s.chessBoard 4 7)) =
      some (some (PieceType.QUEEN, PieceColor.BLACK), none) ∧
    (newGame.play [((6, 5), (5, 5)), ((1, 4), (3, 4)), ((6, 6), (4, 6)), ((0, 3), (4, 7))]).map
        (fun s => (s.gameOver, s.moves.length)) = some (true, 4) ∧
    ((newGame.play [((6, 5), (5, 5)), ((1, 4), (3, 4)), ((6, 6), (4, 6)), ((0, 3), (4, 7))]).bind
        GameScreen.undoLastMove).map
        (fun s => (squareView s.chessBoard 0 3, squareView s.chessBoard 4 7)) =
      some (none, some (PieceType.QUEEN, PieceColor.BLACK)) :=
  ⟨by decide, by decide, by decide⟩

/-- C22, amended: in a game played through the screen, take a legal move of the
player to move, with its promotion completed when it needs one. When the move
does not end the game, `undoLastMove` gives back the history, the player to
move, and on every square a piece of the same type and colour as before the
move, or an empty square. When the move ends the game, `undoLastMove` changes
nothing. -/
theorem undo_restores_layout (s s1 s2 : GameScreen) (fromRow fromCol toRow toCol : Int)
    (chosenType : PieceType) (hs : Played s) (hpa : s.promotionActive = false)
    (hown : s.isCurrentPlayerPiece fromRow fromCol = true)
    (hacc : (ChessSFML.makeMove s.chessBoard fromRow fromCol toRow toCol).1 = true)
    (h1 : s.makeMove fromRow fromCol toRow toCol = some s1)
    (h2 : if s1.promotionActive = true then s1.completePromotion chosenType = some s2
      else s2 = s1) :
    (s2.gameOver = false →
      ∃ s3, s2.undoLastMove = some s3 ∧ s3.moves = s.moves ∧
        s3.currentPlayer = s.currentPlayer ∧
        ∀ r c : Int, isValidPosition r c = true →
          squareView s3.chessBoard r c = squareView s.chessBoard r c) ∧
    (s2.gameOver = true → s2.undoLastMove = some s2) := by
  refine ⟨fun hgo => ?_, fun hover => by unfold GameScreen.undoLastMove; simp [hover]⟩
  obtain ⟨hvf, p, hp, hne, hcol⟩ := isCurrentPlayerPiece_iff.1 hown
  have hinv := (Played_invariant hs).2 hpa
  have hvt := (makeMove_accepted_valid hacc).2
  have hvalid : ∀ a b : Int, isValidPosition a 0 = true → isValidPosition 0 b = true →
      isValidPosition a b = true := by
    intro a b ha hb
    simp only [isValidPosition, Bool.and_eq_true, decide_eq_true_eq] at ha hb ⊢
    omega
  -- the promotion popup is shown exactly when the move needs a promotion
  have hpa1 : s1.promotionActive = GameScreen.needsPromotion
      (ChessSFML.makeMove s.chessBoard fromRow fromCol toRow toCol).2 toRow toCol := by
    rcases GameScreen_makeMove_accepted h1 hacc with ⟨hprom, rfl⟩ | ⟨hno, n, chk, mate, -, hcg⟩
    · rw [hprom]; rfl
    · rw [hno, (checkGameState_fields hcg).2.2.2]
      exact hpa
  by_cases hkc : p.type = PieceType.KING ∧ (fromCol - toCol).natAbs = 2
  · -- castling
    have hb' : (ChessSFML.makeMove s.chessBoard fromRow fromCol toRow toCol).2.board toRow toCol =
        some (p.setHasMoved true) := by
      rcases makeMove_cases s.chessBoard fromRow fromCol toRow toCol with
        h0 | ⟨q, -, -, hq, -, -, h3 | h3⟩
      · rw [h0] at hacc; simp at hacc
      · rw [hp] at hq
        obtain rfl := Option.some.inj hq
        rw [h3.2.2.2.2.2, completeMove_board,
          removeEnPassantPawn_of_not_pawn (by rw [hkc.1]; decide), relocateRook_board]
        simp only [and_self, if_true]
        have hg : getPieceAt s.chessBoard fromRow fromCol = p := getPieceAt_of_board hvf hp
        have hm := h3.1
        have h4 : fromCol = 4 := by
          have hmem : (toRow, toCol) ∈ getPossibleMoves s.chessBoard fromRow fromCol := by
            rcases makeMove_cases s.chessBoard fromRow fromCol toRow toCol with
              h0 | ⟨q, -, -, -, -, hm, -⟩
            · rw [h0] at hacc; simp at hacc
            · exact hm
          rw [getPossibleMoves_king (by rw [hg]; exact hkc.1), hg] at hmem
          exact (king_two_columns hmem hkc.2).2.2.1
        subst h4
        rw [if_neg, if_neg, hp]
        · rfl
        · rintro ⟨-, hc⟩; split_ifs at hc <;> omega
        · rintro ⟨-, hc⟩; split_ifs at hc <;> omega
      · rw [hp] at hq
        obtain rfl := Option.some.inj hq
        exact absurd hkc h3.1
    have hnp : s1.promotionActive = false := by
      rw [hpa1, ← Bool.not_eq_true]
      intro hpr
      obtain ⟨q, hq1, hq2⟩ := needsPromotion_pawn hpr
      simp only [getPieceAtPtr, hvt, if_true, hb'] at hq1
      rw [← Option.some.inj hq1] at hq2
      rw [show (p.setHasMoved true).type = p.type from rfl, hkc.1] at hq2
      exact absurd hq2 (by decide)
    rw [hnp] at h2
    simp only [Bool.false_eq_true, if_false] at h2
    subst h2
    obtain ⟨rfl, rfl, hside, s3, hu, hm, hcp, hbd⟩ := undo_after_castling hp hkc.1 hkc.2 hacc h1 hgo
    refine ⟨s3, hu, hm, hcp, fun r c hv => ?_⟩
    rw [squareView_eq_viewOf hv, squareView_eq_viewOf hv, hbd]
    have hrow : isValidPosition toRow 0 = true := hvalid _ _ (hvalid _ _ (by
      simp only [isValidPosition, Bool.and_eq_true, decide_eq_true_eq] at hvf ⊢; omega)
      (by decide)) (by decide)
    have hval : ∀ k : Int, 0 ≤ k → k < 8 → isValidPosition toRow k = true := by
      intro k h0 h8
      simp only [isValidPosition, Bool.and_eq_true, decide_eq_true_eq] at hrow ⊢
      omega
    rcases hside with ⟨rfl, e5, e6, -, -⟩ | ⟨rfl, e2, e3, -, -⟩
    · simp only [show ((6 : Int) > 4) from by decide, if_true]
      split_ifs with c1 c2 c3
      · obtain ⟨rfl, rfl⟩ := c1
        rw [hp]; rfl
      · obtain ⟨rfl, rfl⟩ := c2
        cases s.chessBoard.board r 7 <;> rfl
      · obtain ⟨rfl, rfl | rfl⟩ := c3
        · rw [viewOf_board_eq (hval 6 (by decide) (by decide)), if_pos e6]; rfl
        · rw [viewOf_board_eq (hval 5 (by decide) (by decide)), if_pos e5]; rfl
      · rfl
    · simp only [show ¬ ((2 : Int) > 4) from by decide, if_false]
      split_ifs with c1 c2 c3
      · obtain ⟨rfl, rfl⟩ := c1
        rw [hp]; rfl
      · obtain ⟨rfl, rfl⟩ := c2
        cases s.chessBoard.board r 0 <;> rfl
      · obtain ⟨rfl, rfl | rfl⟩ := c3
        · rw [viewOf_board_eq (hval 2 (by decide) (by decide)), if_pos e2]; rfl
        · rw [viewOf_board_eq (hval 3 (by decide) (by decide)), if_pos e3]; rfl
      · rfl
  obtain ⟨-, -, hmem, heq⟩ := makeMove_plain_eq hp hacc hkc
  obtain ⟨hflag, hfacts⟩ := enPassantFires_iff_flagged hinv hvf hvt hp hcol hmem
  cases hf : enPassantFires s.chessBoard p fromRow toRow toCol with
  | true =>
    -- en-passant capture
    rw [hf] at hflag
    obtain ⟨hne2, g1, g2, g3⟩ := hfacts hf
    have hnp : s1.promotionActive = false := by
      rw [hpa1, ← Bool.not_eq_true]
      intro hpr
      have hr := needsPromotion_row hpr
      unfold enPassantFires at hf
      simp only [Bool.and_eq_true, beq_iff_eq, Bool.or_eq_true, Bool.not_eq_true'] at hf
      rcases hf.2 with ⟨-, h2⟩ | ⟨-, h5⟩ <;> omega
    rw [hnp] at h2
    simp only [Bool.false_eq_true, if_false] at h2
    subst h2
    obtain ⟨hpt, -, hrows, s3, hu, hm, hcp, hbd⟩ :=
      undo_after_en_passant hvf hp hflag.symm hacc h1 hgo
    refine ⟨s3, hu, hm, hcp, fun r c hv => ?_⟩
    have hsc : (if (!s.currentPlayer) = true then PieceColor.WHITE else PieceColor.BLACK) =
        sideColor (!s.currentPlayer) := rfl
    rw [squareView_eq_viewOf hv, squareView_eq_viewOf hv, hbd, hsc]
    have hge : (getPieceAt s.chessBoard fromRow toCol).isEmpty = false := by
      simp [Piece.isEmpty, g1]
    split_ifs with c1 c2 c3
    · obtain ⟨rfl, rfl⟩ := c1
      rw [viewOf_board_eq hv, g1, g2, hge]
      rfl
    · obtain ⟨rfl, rfl⟩ := c2
      rw [hp]; rfl
    · obtain ⟨rfl, rfl⟩ := c3
      rw [viewOf_board_eq hv, if_pos g3]; rfl
    · rfl
  | false =>
    rw [hf] at hflag
    cases hpr : GameScreen.needsPromotion
        (ChessSFML.makeMove s.chessBoard fromRow fromCol toRow toCol).2 toRow toCol with
    | false =>
      -- plain move
      rw [hpr] at hpa1
      rw [hpa1] at h2
      simp only [Bool.false_eq_true, if_false] at h2
      subst h2
      obtain ⟨s3, hu, hm, hcp, hbd⟩ := undo_after_plain hp hkc hf hpr hacc h1 hgo
      refine ⟨s3, hu, hm, hcp, fun r c hv => ?_⟩
      rw [squareView_eq_viewOf hv, squareView_eq_viewOf hv, hbd]
      have hne3 := dest_ne_origin hmem
      split_ifs with c1 c2 c3
      · obtain ⟨hcap, rfl, rfl⟩ := c1
        rw [capturedInfo_plain hvt hflag.symm hcap]
        unfold viewOf newPiece Piece.isEmpty
        simp [hcap]
      · obtain ⟨rfl, rfl⟩ := c2
        rw [hp]; rfl
      · obtain ⟨rfl, rfl⟩ := c3
        have hcap : (GameScreen.capturedInfo s.chessBoard fromRow fromCol r c).1 =
            PieceType.NONE := by
          by_contra hx
          exact c1 ⟨hx, rfl, rfl⟩
        rw [capturedInfo_plain_none hvt hflag.symm hcap]; rfl
      · rfl
    | true =>
      -- promotion
      rw [hpr] at hpa1
      rw [hpa1] at h2
      simp only [if_true] at h2
      have hpt : p.type = PieceType.PAWN := by
        obtain ⟨q, hq1, hq2⟩ := needsPromotion_pawn hpr
        rw [heq] at hq1
        have hb := @completeMove_board_of_piece s.chessBoard p fromRow fromCol toRow toCol hp
          (fun hx => by rw [hf] at hx; simp at hx)
        simp only [getPieceAtPtr, hvt, if_true, hb, and_self] at hq1
        rw [← Option.some.inj hq1] at hq2
        exact hq2
      obtain ⟨s3, hu, hm, hcp, hbd⟩ := undo_after_promotion hp hpt hf hpr hacc h1 h2 hgo
      refine ⟨s3, hu, hm, hcp, fun r c hv => ?_⟩
      have hsc : (if (!s.currentPlayer) = true then PieceColor.BLACK else PieceColor.WHITE) =
          sideColor s.currentPlayer := by
        cases s.currentPlayer <;> rfl
      rw [squareView_eq_viewOf hv, squareView_eq_viewOf hv, hbd, hsc]
      split_ifs with c1 c2 c3
      · obtain ⟨hcap, rfl, rfl⟩ := c1
        rw [capturedInfo_plain hvt hflag.symm hcap]
        unfold viewOf newPiece Piece.isEmpty
        simp [hcap]
      · obtain ⟨rfl, rfl⟩ := c2
        rw [hp]
        unfold viewOf newPiece Piece.isEmpty
        simp [hpt, hcol]
      · obtain ⟨rfl, rfl⟩ := c3
        have hcap : (GameScreen.capturedInfo s.chessBoard fromRow fromCol r c).1 =
            PieceType.NONE := by
          by_contra hx
          exact c1 ⟨hx, rfl, rfl⟩
        rw [capturedInfo_plain_none hvt hflag.symm hcap]; rfl
      · rfl

/-- The state `beforeMate` belongs to a played game: three moves, each of a
piece of the player to move. -/
theorem beforeMate_played : Played beforeMate :=
  @Played.move ((newGame.afterMove 6 5 5 5).afterMove 1 4 3 4) beforeMate 6 6 4 6
    (@Played.move (newGame.afterMove 6 5 5 5) ((newGame.afterMove 6 5 5 5).afterMove 1 4 3 4)
      1 4 3 4
      (@Played.move newGame (newGame.afterMove 6 5 5 5) 6 5 5 5 Played.start rfl rfl
        (by decide) (eq_some_getD newGame (by decide)))
      (by decide) (by decide) (by decide)
      (eq_some_getD (newGame.afterMove 6 5 5 5) (by decide)))
    (by decide) (by decide) (by decide)
    (eq_some_getD ((newGame.afterMove 6 5 5 5).afterMove 1 4 3 4) (by decide))

/-- Witness for the amended C22. The move (6,4) to (4,4) of a new game does not
end the game and is undone. The mating move (0,3) to (4,7) after (6,5) to (5,5),
(1,4) to (3,4), (6,6) to (4,6) ends the game, and `undoLastMove` leaves the state
as it is. -/
theorem undo_restores_layout_witness :
    (∃ s3, (newGame.afterMove 6 4 4 4).undoLastMove = some s3 ∧ s3.moves = newGame.moves ∧
      s3.currentPlayer = newGame.currentPlayer ∧
      ∀ r c : Int, isValidPosition r c = true →
        squareView s3.chessBoard r c = squareView newGame.chessBoard r c) ∧
    (beforeMate.afterMove 0 3 4 7).gameOver = true ∧
    (beforeMate.afterMove 0 3 4 7).undoLastMove = some (beforeMate.afterMove 0 3 4 7) :=
  ⟨(undo_restores_layout newGame (newGame.afterMove 6 4 4 4) (newGame.afterMove 6 4 4 4) 6 4 4 4
      PieceType.QUEEN Played.start rfl (by decide) (by decide)
      (eq_some_getD newGame (by decide)) (by rw [if_neg (by decide)])).1 (by decide),
    by decide,
    (undo_restores_layout beforeMate (beforeMate.afterMove 0 3 4 7)
      (beforeMate.afterMove 0 3 4 7) 0 3 4 7 PieceType.QUEEN beforeMate_played
      (by decide) (by decide) (by decide)
      (eq_some_getD beforeMate (by decide)) (by rw [if_neg (by decide)])).2 (by decide)⟩

/-- C23: `undoLastMove` with an empty history leaves the whole state, so the
board, the player to move and the history, as it is. -/
theorem undo_with_empty_history (s : GameScreen) (h : s.moves = []) :
    s.undoLastMove = some s := by
  unfold GameScreen.undoLastMove
  rw [h]
  simp

/-- Witness for C23: a new game. -/
theorem undo_with_empty_history_witness :
    newGame.moves = [] ∧ newGame.undoLastMove = some newGame :=
  ⟨rfl, undo_with_empty_history newGame rfl⟩

/-- C24: when a plain move of a king or a rook, accepted by the board and not
ending the game, is undone, the piece is back on its origin square with
`hasMoved` still set. An undone king then lists no destination two columns
away; after an undone move of a rook from column 7 (column 0) no king lists the
castling destination of column 6 (column 2) of that row. -/
theorem undone_move_keeps_castling_disabled (s s1 : GameScreen) (piece : Piece)
    (fromRow fromCol toRow toCol : Int)
    (hp : s.chessBoard.board fromRow fromCol = some piece)
    (ht : piece.type = PieceType.KING ∨ piece.type = PieceType.ROOK)
    (hnc : ¬ (piece.type = PieceType.KING ∧ (fromCol - toCol).natAbs = 2))
    (hacc : (ChessSFML.makeMove s.chessBoard fromRow fromCol toRow toCol).1 = true)
    (h : s.makeMove fromRow fromCol toRow toCol = some s1) (hgo : s1.gameOver = false) :
    ∃ s2, s1.undoLastMove = some s2 ∧
      s2.chessBoard.board fromRow fromCol = some (piece.setHasMoved true) ∧
      (piece.type = PieceType.KING →
        ∀ x ∈ King.getPossibleMoves (piece.setHasMoved true) fromRow fromCol s2.chessBoard,
          (fromCol - x.2).natAbs ≠ 2) ∧
      (piece.type = PieceType.ROOK → ∀ (king : Piece) (row col : Int),
        (fromCol = 7 → ¬ ((fromRow, (6 : Int)) ∈ King.getPossibleMoves king row col s2.chessBoard ∧
          (col - 6).natAbs = 2)) ∧
        (fromCol = 0 → ¬ ((fromRow, (2 : Int)) ∈ King.getPossibleMoves king row col s2.chessBoard ∧
          (col - 2).natAbs = 2))) := by
  obtain ⟨hvf, -, hm, -⟩ := makeMove_plain_eq hp hacc hnc
  have hnpawn : piece.type ≠ PieceType.PAWN := by
    rcases ht with ht | ht <;> rw [ht] <;> decide
  obtain ⟨s2, hu, -, -, hbd⟩ := undo_after_plain hp hnc (enPassantFires_of_not_pawn hnpawn)
    (needsPromotion_of_not_pawn hp hnpawn hnc hacc) hacc h hgo
  have hne := dest_ne_origin hm
  have hfrom : s2.chessBoard.board fromRow fromCol = some (piece.setHasMoved true) := by
    rw [hbd, if_neg, if_pos ⟨rfl, rfl⟩]
    rintro ⟨-, hr, hc⟩
    exact hne (by rw [hr, hc])
  refine ⟨s2, hu, hfrom, ?_, ?_⟩
  · intro _ x hx hx2
    have hk := king_two_columns hx hx2
    simp [Piece.setHasMoved] at hk
  · intro _ king row col
    constructor
    · intro h7
      rintro ⟨hx, hx2⟩
      obtain ⟨-, -, -, hrow, hside⟩ := king_two_columns hx hx2
      rcases hside with ⟨-, -, -, -, -, hmv⟩ | ⟨h6, -⟩
      · rw [← hrow, ← h7, getPieceAt_of_board hvf hfrom] at hmv
        simp [Piece.setHasMoved] at hmv
      · exact absurd h6 (by decide)
    · intro h0
      rintro ⟨hx, hx2⟩
      obtain ⟨-, -, -, hrow, hside⟩ := king_two_columns hx hx2
      rcases hside with ⟨h6, -⟩ | ⟨-, -, -, -, -, -, hmv⟩
      · exact absurd h6 (by decide)
      · rw [← hrow, ← h0, getPieceAt_of_board hvf hfrom] at hmv
        simp [Piece.setHasMoved] at hmv

/-- Witness for C24: in `castleReady` the white king steps (7,4) to (6,4) and
the move is undone. -/
theorem undone_move_keeps_castling_disabled_witness :
    ∃ s2, ((gameOn castleReady).afterMove 7 4 6 4).undoLastMove = some s2 ∧
      s2.chessBoard.board 7 4 = some ⟨PieceType.KING, PieceColor.WHITE, true⟩ ∧
      ∀ x ∈ King.getPossibleMoves ⟨PieceType.KING, PieceColor.WHITE, true⟩ 7 4 s2.chessBoard,
        ((4 : Int) - x.2).natAbs ≠ 2 := by
  obtain ⟨s2, h1, h2, h3, -⟩ :=
    undone_move_keeps_castling_disabled (gameOn castleReady)
      ((gameOn castleReady).afterMove 7 4 6 4) ⟨PieceType.KING, PieceColor.WHITE, false⟩ 7 4 6 4
      (by decide) (Or.inl rfl) (by decide) (by decide) (eq_some_getD _ (by decide)) (by decide)
  exact ⟨s2, h1, h2, h3 rfl⟩

/-- C25, evaluated where the code departs from it: the record of White's first
move (6,4) to (4,4) in a new game has `isWhiteMove` false; so has the record of
the promotion of the white pawn that captures from (1,1) to (0,0) after the
eight moves of `beforePromotion`. -/
theorem move_record_has_colour_of_next_player :
    (newGame.currentPlayer = true ∧
      newGame.chessBoard.board 6 4 = some ⟨PieceType.PAWN, PieceColor.WHITE, false⟩ ∧
      (newGame.makeMove 6 4 4 4).map (fun s => s.moves.map (fun m => m.isWhiteMove)) =
        some [false]) ∧
    (beforePromotion.map (fun s => (s.currentPlayer, s.chessBoard.board 1 1)) =
        some (true, some ⟨PieceType.PAWN, PieceColor.WHITE, true⟩) ∧
      ((beforePromotion.bind (fun s => s.makeMove 1 1 0 0)).bind
        (fun s => s.completePromotion PieceType.QUEEN)).map
          (fun s => (s.moves.length, s.moves.getLast?.map (fun m => m.isWhiteMove))) =
        some (9, some false)) := by
  refine ⟨⟨rfl, rfl, by decide⟩, by decide, by decide⟩

/-- C26: after a castling move accepted by the board that does not end the
game, `undoLastMove` leaves the king on column 4 and the rook on its corner
(column 7 kingside, column 0 queenside) of the king's row, both with `hasMoved`
false, and the squares the two pieces had after castling empty. -/
theorem undo_castling_restores (s s1 : GameScreen) (king : Piece)
    (fromRow fromCol toRow toCol : Int)
    (hk : s.chessBoard.board fromRow fromCol = some king) (hkt : king.type = PieceType.KING)
    (h2 : (fromCol - toCol).natAbs = 2)
    (hacc : (ChessSFML.makeMove s.chessBoard fromRow fromCol toRow toCol).1 = true)
    (h : s.makeMove fromRow fromCol toRow toCol = some s1) (hgo : s1.gameOver = false) :
    fromCol = 4 ∧ toRow = fromRow ∧ (toCol = 6 ∨ toCol = 2) ∧
      ∃ s2, s1.undoLastMove = some s2 ∧
        s2.chessBoard.board fromRow 4 = some ⟨PieceType.KING, king.color, false⟩ ∧
        s2.chessBoard.board fromRow (if toCol = 6 then 7 else 0) =
          some ⟨PieceType.ROOK, king.color, false⟩ ∧
        s2.chessBoard.board fromRow toCol = none ∧
        s2.chessBoard.board fromRow (if toCol = 6 then 5 else 3) = none := by
  obtain ⟨h4, hrow, hside, s2, hu, -, -, hbd⟩ := undo_after_castling hk hkt h2 hacc h hgo
  refine ⟨h4, hrow, ?_, s2, hu, ?_⟩
  · rcases hside with hx | hx
    · exact Or.inl hx.1
    · exact Or.inr hx.1
  simp only [hbd]
  rcases hside with ⟨rfl, -, -, r1, r2⟩ | ⟨rfl, -, -, r1, r2⟩
  · have hrook : s.chessBoard.board fromRow 7 = some (getPieceAt s.chessBoard fromRow 7) :=
      board_of_getPieceAt_type (by rw [r1]; decide)
    simp only [show ((6 : Int) > 4) from by decide, if_true, hrook]
    refine ⟨?_, ?_, ?_, ?_⟩
    · simp [Piece.setHasMoved, hkt]
    · simp [Piece.setHasMoved, r1, r2]
    · simp
    · simp
  · have hrook : s.chessBoard.board fromRow 0 = some (getPieceAt s.chessBoard fromRow 0) :=
      board_of_getPieceAt_type (by rw [r1]; decide)
    simp only [show ¬ ((2 : Int) > 4) from by decide, if_false, hrook,
      show ¬ ((2 : Int) = 6) from by decide]
    refine ⟨?_, ?_, ?_, ?_⟩
    · simp [Piece.setHasMoved, hkt]
    · simp [Piece.setHasMoved, r1, r2]
    · simp
    · simp

/-- Witness for C26: kingside castling of White in `castleReady`. -/
theorem undo_castling_restores_witness :
    ∃ s2, ((gameOn castleReady).afterMove 7 4 7 6).undoLastMove = some s2 ∧
      s2.chessBoard.board 7 4 = some ⟨PieceType.KING, PieceColor.WHITE, false⟩ ∧
      s2.chessBoard.board 7 7 = some ⟨PieceType.ROOK, PieceColor.WHITE, false⟩ ∧
      s2.chessBoard.board 7 6 = none ∧ s2.chessBoard.board 7 5 = none :=
  (undo_castling_restores (gameOn castleReady) ((gameOn castleReady).afterMove 7 4 7 6)
    ⟨PieceType.KING, PieceColor.WHITE, false⟩ 7 4 7 6 (by decide) rfl (by decide) (by decide)
    (eq_some_getD _ (by decide)) (by decide)).2.2.2

/-- C27 does not hold for a capture made out of turn, which
`GameScreen::makeMove` does not refuse. After the calls (6,0) to (5,0), (1,3) to
(3,3), (3,3) to (4,3), (6,4) to (4,4) on a new game it is White's turn by
`currentPlayer`, a black pawn stands on (4,3) beside the white pawn that has just
made its double step to (4,4). The call (4,3) to (5,4) is recorded as an
en-passant capture of that white pawn, and `undoLastMove` then puts a black pawn
on (4,4). -/
theorem undo_en_passant_out_of_turn_restores_capturer_colour :
    (newGame.play [((6, 0), (5, 0)), ((1, 3), (3, 3)), ((3, 3), (4, 3)), ((6, 4), (4, 4))]).map
        (fun s => (s.currentPlayer, s.chessBoard.board 4 3, s.chessBoard.board 4 4)) =
      some (true, some ⟨PieceType.PAWN, PieceColor.BLACK, true⟩,
        some ⟨PieceType.PAWN, PieceColor.WHITE, true⟩) ∧
    (newGame.play [((6, 0), (5, 0)), ((1, 3), (3, 3)), ((3, 3), (4, 3)), ((6, 4), (4, 4)),
        ((4, 3), (5, 4))]).map
        (fun s => (s.gameOver, s.moves.length, s.lastRecord.wasEnPassant,
          s.lastRecord.capturedPieceColor)) =
      some (false, 5, true, PieceColor.WHITE) ∧
    (newGame.play [((6, 0), (5, 0)), ((1, 3), (3, 3)), ((3, 3), (4, 3)), ((6, 4), (4, 4)),
        ((4, 3), (5, 4))]).map
        (fun s => (s.chessBoard.board 5 4, s.chessBoard.board 4 4)) =
      some (some ⟨PieceType.PAWN, PieceColor.BLACK, true⟩, none) ∧
    ((newGame.play [((6, 0), (5, 0)), ((1, 3), (3, 3)), ((3, 3), (4, 3)), ((6, 4), (4, 4)),
        ((4, 3), (5, 4))]).bind GameScreen.undoLastMove).map
        (fun s => (s.moves.length, s.chessBoard.board 4 3, s.chessBoard.board 4 4)) =
      some (4, some ⟨PieceType.PAWN, PieceColor.BLACK, true⟩,
        some ⟨PieceType.PAWN, PieceColor.BLACK, false⟩) :=
  ⟨by decide, by decide, by decide, by decide⟩

/-- C27, amended: after an en-passant capture by a pawn of the player to move,
accepted by the board and not ending the game, `undoLastMove` puts the capturing
pawn back on its origin, leaves the destination empty, and puts a fresh pawn of
the other colour on row 3 (white capturer) or row 4 (black capturer) of the
destination column. -/
theorem undo_en_passant_restores (s s1 : GameScreen) (pawn : Piece)
    (fromRow fromCol toRow toCol : Int)
    (hown : s.isCurrentPlayerPiece fromRow fromCol = true)
    (hp : s.chessBoard.board fromRow fromCol = some pawn)
    (hep : GameScreen.isEnPassantMove s.chessBoard fromRow fromCol toRow toCol = true)
    (hacc : (ChessSFML.makeMove s.chessBoard fromRow fromCol toRow toCol).1 = true)
    (h : s.makeMove fromRow fromCol toRow toCol = some s1) (hgo : s1.gameOver = false) :
    pawn.type = PieceType.PAWN ∧
      ∃ s2, s1.undoLastMove = some s2 ∧
        s2.chessBoard.board fromRow fromCol = some (pawn.setHasMoved true) ∧
        s2.chessBoard.board toRow toCol = none ∧
        ((pawn.color = PieceColor.WHITE ∧ fromRow = 3 ∧
            s2.chessBoard.board 3 toCol = some (newPiece PieceType.PAWN PieceColor.BLACK)) ∨
          (pawn.color = PieceColor.BLACK ∧ fromRow = 4 ∧
            s2.chessBoard.board 4 toCol = some (newPiece PieceType.PAWN PieceColor.WHITE))) := by
  obtain ⟨hvf, p, hp2, -, hcol⟩ := isCurrentPlayerPiece_iff.1 hown
  rw [hp] at hp2
  obtain rfl := Option.some.inj hp2
  obtain ⟨ht, hne, hrows, s2, hu, -, -, hbd⟩ := undo_after_en_passant hvf hp hep hacc h hgo
  refine ⟨ht, s2, hu, ?_⟩
  simp only [hbd]
  have hw := isWhite_of_sideColor hcol
  have hrne : toRow ≠ fromRow := by
    rcases hrows with ⟨-, h3, h2⟩ | ⟨-, h4, h5⟩ <;> omega
  refine ⟨?_, ?_, ?_⟩
  · simp [Ne.symm hne]
  · simp [hrne]
  · rcases hrows with ⟨hw1, h3, -⟩ | ⟨hw1, h4, -⟩
    · left
      rw [hw] at hw1
      rw [hw1] at hcol
      subst h3
      refine ⟨hcol, rfl, ?_⟩
      simp [hw1]
    · right
      rw [hw] at hw1
      rw [hw1] at hcol
      subst h4
      refine ⟨hcol, rfl, ?_⟩
      simp [hw1]

/-- Witness for the amended C27: in `enPassantReady` the white pawn on (3,4) captures to
(2,3) and the capture is undone. -/
theorem undo_en_passant_restores_witness :
    ∃ s2, ((gameOn enPassantReady).afterMove 3 4 2 3).undoLastMove = some s2 ∧
      s2.chessBoard.board 3 4 = some ⟨PieceType.PAWN, PieceColor.WHITE, true⟩ ∧
      s2.chessBoard.board 2 3 = none ∧
      s2.chessBoard.board 3 3 = some ⟨PieceType.PAWN, PieceColor.BLACK, false⟩ := by
  obtain ⟨-, s2, h1, h2, h3, h4⟩ :=
    undo_en_passant_restores (gameOn enPassantReady) ((gameOn enPassantReady).afterMove 3 4 2 3)
      ⟨PieceType.PAWN, PieceColor.WHITE, true⟩ 3 4 2 3 (by decide) (by decide) (by decide)
      (by decide) (eq_some_getD _ (by decide)) (by decide)
  refine ⟨s2, h1, h2, h3, ?_⟩
  rcases h4 with ⟨-, -, h⟩ | ⟨h, -⟩
  · exact h
  · exact absurd h (by decide)

/-- C28: with a last record `m` and the game not over, `undoLastMove` either
leaves the state as it is, or leaves the history without its last record, the
earlier records unchanged, and flips the player to move. It does the latter for
a castling, en-passant or promotion record, and for a plain record whose text
parses when the parsed destination holds a piece. -/
theorem undo_removes_one_record (s : GameScreen) (m : ChessMove)
    (hm : s.moves.getLast? = some m) (hgo : s.gameOver = false) :
    (∀ s1, s.undoLastMove = some s1 →
      (s.moves = s1.moves ++ [m] ∧ s1.currentPlayer = !s.currentPlayer) ∨ s1 = s) ∧
    ((m.wasCastling = true ∨ m.wasEnPassant = true ∨ m.wasPromotion = true) →
      ∃ s1, s.undoLastMove = some s1 ∧ s.moves = s1.moves ++ [m] ∧
        s1.currentPlayer = !s.currentPlayer) ∧
    (∀ coords : Int × Int × Int × Int, plainCoords m.note = some (some coords) →
      getPieceAtPtr s.chessBoard coords.2.2.1 coords.2.2.2 ≠ none →
      ∃ s1, s.undoLastMove = some s1 ∧ s.moves = s1.moves ++ [m] ∧
        s1.currentPlayer = !s.currentPlayer) := by
  rw [undoLastMove_of_last hgo hm]
  refine ⟨?_, ?_, ?_⟩
  · intro s1 h
    split_ifs at h with h1 h2 h3
    · simp only [Option.some.injEq] at h
      subst h
      exact Or.inl (finishUndo_pops hm _)
    · simp only [Option.some.injEq] at h
      subst h
      exact Or.inl (finishUndo_pops hm _)
    · simp only [Option.some.injEq] at h
      subst h
      exact Or.inl (finishUndo_pops hm _)
    · cases hc : plainCoords m.note with
      | none => simp [hc] at h
      | some oc =>
        cases oc with
        | none =>
          simp only [hc, Option.some.injEq] at h
          exact Or.inr h.symm
        | some coords =>
          simp only [hc] at h
          split_ifs at h with hr
          · simp only [Option.some.injEq] at h
            subst h
            exact Or.inl (finishUndo_pops hm _)
          · simp only [Option.some.injEq] at h
            subst h
            right
            simp only [Bool.not_eq_true] at hr
            rw [undoPlain_not_reversed hr]
  · intro hflag
    by_cases h1 : m.wasCastling = true
    · rw [if_pos h1]
      exact ⟨_, rfl, finishUndo_pops hm _⟩
    · rw [if_neg h1]
      by_cases h2 : m.wasEnPassant = true
      · rw [if_pos h2]
        exact ⟨_, rfl, finishUndo_pops hm _⟩
      · rw [if_neg h2]
        have h3 : m.wasPromotion = true := by
          rcases hflag with h | h | h
          · exact absurd h h1
          · exact absurd h h2
          · exact h
        rw [if_pos h3]
        exact ⟨_, rfl, finishUndo_pops hm _⟩
  · intro coords hc hp
    have hrev : (undoPlain s.chessBoard m coords.1 coords.2.1 coords.2.2.1 coords.2.2.2).1 =
        true := by
      unfold undoPlain
      simp only [removePieceAt_fst]
      cases hq : getPieceAtPtr s.chessBoard coords.2.2.1 coords.2.2.2 with
      | none => exact absurd hq hp
      | some piece => rfl
    split_ifs
    · exact ⟨_, rfl, finishUndo_pops hm _⟩
    · exact ⟨_, rfl, finishUndo_pops hm _⟩
    · exact ⟨_, rfl, finishUndo_pops hm _⟩
    · simp only [hc, hrev, if_true]
      exact ⟨_, rfl, finishUndo_pops hm _⟩

/-- Witness for C28: the move (6,4) to (4,4) of a new game is undone. -/
theorem undo_removes_one_record_witness :
    (newGame.afterMove 6 4 4 4).moves.length = 1 ∧
      ∃ s1, (newGame.afterMove 6 4 4 4).undoLastMove = some s1 ∧
        (newGame.afterMove 6 4 4 4).moves = s1.moves ++ [(newGame.afterMove 6 4 4 4).lastRecord] ∧
        s1.currentPlayer = !(newGame.afterMove 6 4 4 4).currentPlayer :=
  ⟨by decide,
    (undo_removes_one_record (newGame.afterMove 6 4 4 4) (newGame.afterMove 6 4 4 4).lastRecord
      (eq_some_getD _ (by decide)) (by decide)).2.2 (6, 4, 4, 4) (by decide) (by decide)⟩

/-- C29: on every board reachable from `resetBoard` by `resetBoard`,
`makeMove`, `promotePawn`, `setPieceAt` and `removePieceAt` calls,
`enPassantCol` is -1 exactly when `enPassantRow` is -1, and when they are set
the column lies in 0..7 and the row is 2 or 5. -/
theorem enPassant_fields_invariant (b : ChessBoard) (h : ReachableBoard b) :
    (b.enPassantCol = -1 ↔ b.enPassantRow = -1) ∧
      (b.enPassantCol ≠ -1 → 0 ≤ b.enPassantCol ∧ b.enPassantCol ≤ 7 ∧
        (b.enPassantRow = 2 ∨ b.enPassantRow = 5)) := by
  have key : enPassantFieldsOk b := by
    induction h with
    | start => simp [enPassantFieldsOk, resetBoard]
    | reset _ _ => simp [enPassantFieldsOk, resetBoardFrom]
    | move fromRow fromCol toRow toCol _ ih => exact makeMove_enPassantFieldsOk _ _ _ _ _ ih
    | promote row col t _ ih =>
      simp only [enPassantFieldsOk, (promotePawn_enPassant _ row col t).1,
        (promotePawn_enPassant _ row col t).2]
      exact ih
    | place row col piece _ ih =>
      simp only [enPassantFieldsOk, (setPieceAt_enPassant _ row col piece).1,
        (setPieceAt_enPassant _ row col piece).2]
      exact ih
    | remove row col _ ih =>
      simp only [enPassantFieldsOk, (removePieceAt_enPassant _ row col).1,
        (removePieceAt_enPassant _ row col).2]
      exact ih
  exact key

/-- Witness for C29: the four moves that lead to `enPassantReady` leave the
fields at column 3, row 2. -/
theorem enPassant_fields_invariant_witness :
    enPassantReady.enPassantCol = 3 ∧ enPassantReady.enPassantRow = 2 ∧
    ((enPassantReady.enPassantCol = -1 ↔ enPassantReady.enPassantRow = -1) ∧
      (enPassantReady.enPassantCol ≠ -1 → 0 ≤ enPassantReady.enPassantCol ∧
        enPassantReady.enPassantCol ≤ 7 ∧
        (enPassantReady.enPassantRow = 2 ∨ enPassantReady.enPassantRow = 5))) :=
  ⟨by decide, by decide,
    enPassant_fields_invariant enPassantReady
      (ReachableBoard.move 1 3 3 3 (ReachableBoard.move 4 4 3 4
        (ReachableBoard.move 1 0 2 0 (ReachableBoard.move 6 4 4 4 ReachableBoard.start))))⟩

/-- C30 does not hold on every board: with a queen constructed with colour
NONE on the file of the white king, `isKingInCheck(WHITE)` is true and
`isInCheck(true)` is false. -/
theorem check_detectors_differ_on_colourless_piece :
    isKingInCheck colourlessQueenPosition PieceColor.WHITE = true ∧
      isInCheck colourlessQueenPosition true = false := by
  decide

/-- C30, amended: on a board whose pieces are all white or black, also one
with no king or with several kings of a colour, `isInCheck` of a player is
`isKingInCheck` of that player's colour. -/
theorem check_detectors_agree (b : ChessBoard) (isWhitePlayer : Bool)
    (hcol : ∀ row col : Int, isValidPosition row col = true →
      (getPieceAt b row col).isEmpty = false →
      (getPieceAt b row col).color = PieceColor.WHITE ∨
        (getPieceAt b row col).color = PieceColor.BLACK) :
    isInCheck b isWhitePlayer = isKingInCheck b (sideColor isWhitePlayer) := by
  unfold isInCheck isKingInCheck
  simp only [findPlayerKing_eq_findKing]
  rcases findKing_cases b (sideColor isWhitePlayer) with hk | hk
  · rw [hk]
    simp only [beq_self_eq_true, if_true]
    rw [← Bool.not_eq_true, List.any_eq_true]
    rintro ⟨s, hs, hc⟩
    simp only [Bool.and_eq_true] at hc
    obtain ⟨-, hm⟩ := hc
    rw [any_dest_iff] at hm
    exact sentinel_not_mem_getPossibleMoves (mem_allSquares_iff.1 hs) hm
  · have hne : ((findKing b (sideColor isWhitePlayer)).1 == -1) = false := by
      simp only [isValidPosition, Bool.and_eq_true, decide_eq_true_eq] at hk
      simp only [beq_eq_false_iff_ne, ne_eq]
      omega
    simp only [hne, Bool.false_eq_true, if_false]
    apply any_eq_of_forall_mem
    intro s hs
    have hv := mem_allSquares_iff.1 hs
    cases he : (getPieceAt b s.1 s.2).isEmpty with
    | true => simp
    | false =>
      have hc := hcol s.1 s.2 hv he
      have hgm : getPossibleMoves b s.1 s.2 =
          (getPieceAt b s.1 s.2).getPossibleMoves s.1 s.2 b := by
        unfold getPossibleMoves
        simp [he]
      rw [hgm]
      congr 1
      rcases hc with hc | hc <;> cases isWhitePlayer <;>
        simp [Piece.isWhite, Piece.isBlack, sideColor, hc]

/-- Witness for the amended C30: the position `foolsMate`, White in check. -/
theorem check_detectors_agree_witness :
    isInCheck foolsMate true = true ∧
      isInCheck foolsMate true = isKingInCheck foolsMate (sideColor true) :=
  have h := check_detectors_agree foolsMate true
    (fun row col hv => (by decide : ∀ s ∈ allSquares,
        (getPieceAt foolsMate s.1 s.2).isEmpty = false →
        (getPieceAt foolsMate s.1 s.2).color = PieceColor.WHITE ∨
          (getPieceAt foolsMate s.1 s.2).color = PieceColor.BLACK)
      (row, col) (mem_allSquares hv))
  ⟨by decide, h⟩

end ChessSFML
